import Mathlib

/-!
Verification of the PawnyOwl chess position kernel (the `board` crate and its
`base` support crate) against its natural-language specification.

The Rust sources are shallowly embedded: pure functions become Lean functions,
`&mut self` methods become explicit state passing, `u64` bitboards become `Nat`
with an explicit `% 2 ^ 64` where Rust's shifts can drop bits, and fallible
functions return `Except`.  Build-time generated tables (the zobrist keys, the
near-attack and magic sliding-attack tables, the between/ray tables) and the
`castling` constants module are not present under `src/`; those are modelled
from the specification and marked as such in their doc comments.
-/

set_option maxRecDepth 10000

namespace Pawny

/-- Colors of the two sides, as in `base/src/core.rs`. -/
inductive Color where
  | white
  | black
deriving DecidableEq, Repr, Fintype

/-- Involution swapping the two colors (`Color::inv`). -/
def Color.inv : Color → Color
  | .white => .black
  | .black => .white

/-- FEN side character (`Color::as_char`). -/
def Color.as_char : Color → Char
  | .white => 'w'
  | .black => 'b'

/-- Parse a side character (`Color::from_char`). -/
def Color.from_char (c : Char) : Option Color :=
  if c = 'w' then some .white else if c = 'b' then some .black else none

/-- Piece kinds (`Piece` in `base/src/core.rs`). -/
inductive Piece where
  | pawn
  | king
  | knight
  | bishop
  | rook
  | queen
deriving DecidableEq, Repr, Fintype

/-- Index of a piece (`Piece::index`). -/
def Piece.index : Piece → Nat
  | .pawn => 0
  | .king => 1
  | .knight => 2
  | .bishop => 3
  | .rook => 4
  | .queen => 5

/-- Mailbox cell: empty or a colored piece, 13 values (`Cell`). -/
inductive Cell where
  | none
  | wp | wk | wn | wb | wr | wq
  | bp | bk | bn | bb | br | bq
deriving DecidableEq, Repr, Fintype

/-- Index of a cell, 0..12 (`Cell::index`). -/
def Cell.index : Cell → Nat
  | .none => 0
  | .wp => 1 | .wk => 2 | .wn => 3 | .wb => 4 | .wr => 5 | .wq => 6
  | .bp => 7 | .bk => 8 | .bn => 9 | .bb => 10 | .br => 11 | .bq => 12

/-- Combine a color and a piece into a cell (`Cell::make`). -/
def Cell.make (c : Color) (p : Piece) : Cell :=
  match c, p with
  | .white, .pawn => .wp | .white, .king => .wk | .white, .knight => .wn
  | .white, .bishop => .wb | .white, .rook => .wr | .white, .queen => .wq
  | .black, .pawn => .bp | .black, .king => .bk | .black, .knight => .bn
  | .black, .bishop => .bb | .black, .rook => .br | .black, .queen => .bq

/-- Color of a cell, if occupied (`Cell::color`). -/
def Cell.color : Cell → Option Color
  | .none => Option.none
  | .wp | .wk | .wn | .wb | .wr | .wq => some .white
  | .bp | .bk | .bn | .bb | .br | .bq => some .black

/-- Piece of a cell, if occupied (`Cell::piece`). -/
def Cell.piece : Cell → Option Piece
  | .none => Option.none
  | .wp | .bp => some .pawn
  | .wk | .bk => some .king
  | .wn | .bn => some .knight
  | .wb | .bb => some .bishop
  | .wr | .br => some .rook
  | .wq | .bq => some .queen

/-- FEN character of a cell (`Cell::as_char`; `.` for empty). -/
def Cell.as_char : Cell → Char
  | .none => '.'
  | .wp => 'P' | .wk => 'K' | .wn => 'N' | .wb => 'B' | .wr => 'R' | .wq => 'Q'
  | .bp => 'p' | .bk => 'k' | .bn => 'n' | .bb => 'b' | .br => 'r' | .bq => 'q'

/-- Parse a FEN piece character (`Cell::from_char`). -/
def Cell.from_char (c : Char) : Option Cell :=
  if c = '.' then some .none
  else if c = 'P' then some .wp else if c = 'K' then some .wk
  else if c = 'N' then some .wn else if c = 'B' then some .wb
  else if c = 'R' then some .wr else if c = 'Q' then some .wq
  else if c = 'p' then some .bp else if c = 'k' then some .bk
  else if c = 'n' then some .bn else if c = 'b' then some .bb
  else if c = 'r' then some .br else if c = 'q' then some .bq
  else Option.none

/-- Board file, index 0 = a .. 7 = h (`File`). -/
abbrev File := Fin 8

/-- Board rank, index 0 = rank 8 down to 7 = rank 1 (`Rank`), as in the source. -/
abbrev Rank := Fin 8

/-- Square, index `rank * 8 + file`, 0..63 (`Sq`). -/
abbrev Sq := Fin 64

/-- Build a square from file and rank (`Sq::make`). -/
def Sq.make (f : File) (r : Rank) : Sq :=
  ⟨r.val * 8 + f.val, by omega⟩

/-- File of a square (`Sq::file`). -/
def Sq.file (s : Sq) : File := ⟨s.val % 8, Nat.mod_lt _ (by omega)⟩

/-- Rank of a square (`Sq::rank`). -/
def Sq.rank (s : Sq) : Rank := ⟨s.val / 8, by omega⟩

/-- Square index offset by a signed delta.  The source's `Sq::add_unchecked`
wraps an out-of-range index into the raw `u8`; every use we reason about stays
in range, and the model wraps modulo 64 so that the function is total. -/
def Sq.addU (s : Sq) (d : Int) : Sq :=
  ⟨(((s.val : Int) + d) % 64).toNat, by omega⟩

/-- File character of a file (`File::as_char`). -/
def File.as_char (f : File) : Char := Char.ofNat ('a'.toNat + f.val)

/-- Rank character of a rank (`Rank::as_char`); rank index 0 prints as `8`. -/
def Rank.as_char (r : Rank) : Char := Char.ofNat ('8'.toNat - r.val)

/-- Parse a file character (`File::from_char`); 97 and 104 are the codes of
`a` and `h`. -/
def File.from_char (c : Char) : Option File :=
  if h : 97 ≤ c.toNat ∧ c.toNat ≤ 104 then
    some ⟨c.toNat - 97, by omega⟩
  else Option.none

/-- Parse a rank character (`Rank::from_char`); 49 and 56 are the codes of
`1` and `8`. -/
def Rank.from_char (c : Char) : Option Rank :=
  if h : 49 ≤ c.toNat ∧ c.toNat ≤ 56 then
    some ⟨56 - c.toNat, by omega⟩
  else Option.none

/-- Castling side (`CastlingSide`): queenside = 0, kingside = 1. -/
inductive CastlingSide where
  | queen
  | king
deriving DecidableEq, Repr, Fintype

/-- Castling rights: a 4-bit set, represented by its raw value (`CastlingRights`).
The Rust wrapper's private `u8` is only ever constructed with values below 16,
which the `Fin 16` representation records. -/
abbrev CastlingRights := Fin 16

/-- Bit index of one (color, side) right (`CastlingRights::to_index`). -/
def CastlingRights.to_index (c : Color) (s : CastlingSide) : Nat :=
  (match c with | .white => 0 | .black => 1) * 2 +
  (match s with | .queen => 0 | .king => 1)

/-- Empty rights (`CastlingRights::EMPTY`). -/
def CastlingRights.empty : CastlingRights := ⟨0, by decide⟩

/-- Full rights (`CastlingRights::FULL`). -/
def CastlingRights.full : CastlingRights := ⟨15, by decide⟩

/-- Test one right (`CastlingRights::has`). -/
def CastlingRights.has (cr : CastlingRights) (c : Color) (s : CastlingSide) : Bool :=
  cr.val.testBit (to_index c s)

/-- Test whether a color holds any right (`CastlingRights::has_color`). -/
def CastlingRights.has_color (cr : CastlingRights) (c : Color) : Bool :=
  cr.val &&& (3 <<< ((match c with | .white => 0 | .black => 1) * 2)) ≠ 0

/-- Add one right (`CastlingRights::with`). -/
def CastlingRights.with (cr : CastlingRights) (c : Color) (s : CastlingSide) :
    CastlingRights :=
  ⟨cr.val ||| (1 <<< to_index c s), by
    have h1 : cr.val < 16 := cr.isLt
    have h2 : (1 <<< to_index c s) < 16 := by
      cases c <;> cases s <;> decide
    exact Nat.or_lt_two_pow (n := 4) h1 h2⟩

/-- Remove one right (`CastlingRights::without`). -/
def CastlingRights.without (cr : CastlingRights) (c : Color) (s : CastlingSide) :
    CastlingRights :=
  ⟨cr.val &&& (15 ^^^ (1 <<< to_index c s)), by
    have := Nat.and_le_right (n := cr.val) (m := 15 ^^^ (1 <<< to_index c s))
    have h2 : (15 ^^^ (1 <<< to_index c s)) < 16 := by
      cases c <;> cases s <;> decide
    omega⟩

/-- Remove both rights of a color (`CastlingRights::unset_color`). -/
def CastlingRights.without_color (cr : CastlingRights) (c : Color) : CastlingRights :=
  (cr.without c .king).without c .queen

/-- Bitboard: a 64-bit set of squares, bit i = square index i
(`base/src/bitboard.rs`).  Represented as a natural number below `2 ^ 64`;
every operation that can produce or drop high bits is masked explicitly. -/
abbrev Bitboard := Nat

namespace Bitboard

/-- All 64 bits set (`Bitboard::FULL`, `u64::MAX`). -/
def full : Bitboard := 2 ^ 64 - 1

/-- No bits set (`Bitboard::EMPTY`). -/
def empty : Bitboard := 0

/-- Single-square bitboard (`Bitboard::one`). -/
def one (s : Sq) : Bitboard := 1 <<< s.val

/-- Insert a square (`Bitboard::with`). -/
def withSq (b : Bitboard) (s : Sq) : Bitboard := b ||| (1 <<< s.val)

/-- Membership test (`Bitboard::has`). -/
def hasSq (b : Bitboard) (s : Sq) : Bool := b.testBit s.val

/-- Bitwise complement within 64 bits (Rust `!` on `u64`). -/
def compl (b : Bitboard) : Bitboard := b ^^^ (2 ^ 64 - 1)

/-- Left shift dropping bits shifted beyond bit 63 (Rust `u64` `<<`). -/
def shl (b : Bitboard) (k : Nat) : Bitboard := (b <<< k) % 2 ^ 64

/-- Right shift (Rust `u64` `>>`). -/
def shr (b : Bitboard) (k : Nat) : Bitboard := b >>> k

/-- Population count (`Bitboard::len`); the represented value is below
`2 ^ 64`, so counting the first 64 bits is the full count. -/
def len (b : Bitboard) : Nat := (List.range 64).countP fun i => b.testBit i

/-- Squares of a bitboard, in increasing index order.  The source iterates by
repeatedly extracting the lowest set bit, which yields exactly the set squares
in increasing index order. -/
def sqList (b : Bitboard) : List Sq :=
  (List.finRange 64).filter fun s => b.testBit s.val

end Bitboard

/-- Castling rank of a color (`geometry::castling_rank`): rank 1 for White
(row index 7), rank 8 for Black (row index 0). -/
def castling_rank (c : Color) : Rank :=
  match c with | .white => ⟨7, by decide⟩ | .black => ⟨0, by decide⟩

/-- Source rank of a pawn double move (`geometry::double_move_src_rank`). -/
def double_move_src_rank (c : Color) : Rank :=
  match c with | .white => ⟨6, by decide⟩ | .black => ⟨1, by decide⟩

/-- Destination rank of a pawn double move (`geometry::double_move_dst_rank`). -/
def double_move_dst_rank (c : Color) : Rank :=
  match c with | .white => ⟨4, by decide⟩ | .black => ⟨3, by decide⟩

/-- Source rank of a promotion (`geometry::promote_src_rank`). -/
def promote_src_rank (c : Color) : Rank :=
  match c with | .white => ⟨1, by decide⟩ | .black => ⟨6, by decide⟩

/-- Destination rank of a promotion (`geometry::promote_dst_rank`). -/
def promote_dst_rank (c : Color) : Rank :=
  match c with | .white => ⟨0, by decide⟩ | .black => ⟨7, by decide⟩

/-- Rank of the en-passant source pawn (`geometry::ep_src_rank`). -/
def ep_src_rank (c : Color) : Rank :=
  match c with | .white => ⟨3, by decide⟩ | .black => ⟨4, by decide⟩

/-- Rank of the en-passant capture square (`geometry::ep_dst_rank`). -/
def ep_dst_rank (c : Color) : Rank :=
  match c with | .white => ⟨2, by decide⟩ | .black => ⟨5, by decide⟩

/-- Index delta of a forward pawn step (`geometry::pawn_forward_delta`). -/
def pawn_forward_delta (c : Color) : Int :=
  match c with | .white => -8 | .black => 8

/-- Index delta of a leftward pawn capture (`geometry::pawn_left_delta`). -/
def pawn_left_delta (c : Color) : Int :=
  match c with | .white => -9 | .black => 7

/-- Index delta of a rightward pawn capture (`geometry::pawn_right_delta`). -/
def pawn_right_delta (c : Color) : Int :=
  match c with | .white => -7 | .black => 9

/-- Bitboard of one rank (`geometry::bitboard::rank`, the `RANK` table). -/
def rank_bb (r : Rank) : Bitboard := 0xff <<< (r.val * 8)

/-- Bitboard of one file (`geometry::bitboard::file`, the `FILE` table). -/
def file_bb (f : File) : Bitboard := 0x0101010101010101 <<< f.val

/-- Advance every pawn of a bitboard one step forward
(`pawns::advance_forward`). -/
def advance_forward (c : Color) (b : Bitboard) : Bitboard :=
  match c with
  | .white => Bitboard.shr b 8
  | .black => Bitboard.shl b 8

/-- Advance every pawn one step forward-left (`pawns::advance_left`). -/
def advance_left (c : Color) (b : Bitboard) : Bitboard :=
  let b := b &&& Bitboard.compl (file_bb ⟨0, by decide⟩)
  match c with
  | .white => Bitboard.shr b 9
  | .black => Bitboard.shl b 7

/-- Advance every pawn one step forward-right (`pawns::advance_right`). -/
def advance_right (c : Color) (b : Bitboard) : Bitboard :=
  let b := b &&& Bitboard.compl (file_bb ⟨7, by decide⟩)
  match c with
  | .white => Bitboard.shr b 7
  | .black => Bitboard.shl b 9

namespace castling

/-- Modelled from the spec: the `castling` constants module is declared in
`board/src/lib.rs` but its source is not under `src/`.  Per the spec, castling
moves "atomically swap king and rook bits using fixed per-color masks"; the
masks in `do_make_castling_*` are shifted by this per-color offset, which must
be 56 for White (rank 1, squares 56..63) and 0 for Black (rank 8, squares
0..7). -/
def offset (c : Color) : Nat :=
  match c with | .white => 56 | .black => 0

/-- Modelled from the spec: squares whose involvement in a move revokes the
castling right of (color, side) — the king home square e1/e8 and the rook home
square a1/a8 (queenside) or h1/h8 (kingside); the spec says rights are revoked
"if the move touches a rook/king home square or a rook's starting square as a
capture target". -/
def srcs (c : Color) (s : CastlingSide) : Bitboard :=
  let r := castling_rank c
  match s with
  | .queen => Bitboard.one (Sq.make ⟨0, by decide⟩ r) ||| Bitboard.one (Sq.make ⟨4, by decide⟩ r)
  | .king => Bitboard.one (Sq.make ⟨4, by decide⟩ r) ||| Bitboard.one (Sq.make ⟨7, by decide⟩ r)

/-- Modelled from the spec: union of all castling-relevant source squares. -/
def all_srcs : Bitboard :=
  srcs .white .queen ||| srcs .white .king ||| srcs .black .queen ||| srcs .black .king

/-- Modelled from the spec: the transit squares that must be empty for a
castling move — b1/c1/d1 (queenside) or f1/g1 (kingside), on the color's
castling rank. -/
def pass (c : Color) (s : CastlingSide) : Bitboard :=
  let r := castling_rank c
  match s with
  | .queen =>
    Bitboard.one (Sq.make ⟨1, by decide⟩ r) ||| Bitboard.one (Sq.make ⟨2, by decide⟩ r) |||
      Bitboard.one (Sq.make ⟨3, by decide⟩ r)
  | .king =>
    Bitboard.one (Sq.make ⟨5, by decide⟩ r) ||| Bitboard.one (Sq.make ⟨6, by decide⟩ r)

end castling

/-- Shift a square by file and rank deltas, `none` when leaving the board
(`Sq::shift`). -/
def Sq.shift (s : Sq) (df dr : Int) : Option Sq :=
  let nf : Int := (s.file.val : Int) + df
  let nr : Int := (s.rank.val : Int) + dr
  if h : 0 ≤ nf ∧ nf < 8 ∧ 0 ≤ nr ∧ nr < 8 then
    some (Sq.make ⟨nf.toNat, by omega⟩ ⟨nr.toNat, by omega⟩)
  else Option.none

/-- Bitboard of the in-range shifts of a square by a list of deltas. -/
def shifts_bb (s : Sq) (ds : List (Int × Int)) : Bitboard :=
  ds.foldl
    (fun acc d =>
      match Sq.shift s d.1 d.2 with
      | some t => Bitboard.withSq acc t
      | Option.none => acc)
    0

namespace attack

/-- Modelled from the spec: the near-attack tables (`near.rs`) are generated at
build time and are not under `src/`.  Per the spec they hold the "precomputed
per-square attack sets (king, knight, pawn), pure function of the square and,
for pawns, color".  King: the up-to-8 neighbouring squares. -/
def king (s : Sq) : Bitboard :=
  shifts_bb s [(-1, -1), (0, -1), (1, -1), (-1, 0), (1, 0), (-1, 1), (0, 1), (1, 1)]

/-- Modelled from the spec: knight attack set — the up-to-8 knight jumps. -/
def knight (s : Sq) : Bitboard :=
  shifts_bb s [(1, 2), (2, 1), (2, -1), (1, -2), (-1, -2), (-2, -1), (-2, 1), (-1, 2)]

/-- Modelled from the spec: pawn attack set of a pawn of color `c` on `s` —
the two forward-diagonal squares (White advances toward rank index 0). -/
def pawn (c : Color) (s : Sq) : Bitboard :=
  match c with
  | .white => shifts_bb s [(-1, -1), (1, -1)]
  | .black => shifts_bb s [(-1, 1), (1, 1)]

/-- One sliding ray from `cur`: walk up to `fuel` steps in direction
(`df`, `dr`), collecting squares until (and including) the first occupied one. -/
def ray_go (occ : Bitboard) (df dr : Int) : Sq → Nat → Bitboard → Bitboard
  | _, 0, acc => acc
  | cur, fuel + 1, acc =>
    match Sq.shift cur df dr with
    | some t =>
      if occ.testBit t.val then acc ||| Bitboard.one t
      else ray_go occ df dr t fuel (acc ||| Bitboard.one t)
    | Option.none => acc

/-- Modelled from the spec: the magic-bitboard rook lookup (`magic.rs` is
generated at build time).  Per the spec the table "holds the attack set for
that occupancy pattern": the squares reachable along the four rook directions,
stopping at (and including) the first occupied square. -/
def rook (s : Sq) (occ : Bitboard) : Bitboard :=
  ray_go occ 1 0 s 7 0 ||| ray_go occ (-1) 0 s 7 0 |||
    ray_go occ 0 1 s 7 0 ||| ray_go occ 0 (-1) s 7 0

/-- Modelled from the spec: the magic-bitboard bishop lookup — the squares
reachable along the four diagonal directions, stopping at (and including) the
first occupied square. -/
def bishop (s : Sq) (occ : Bitboard) : Bitboard :=
  ray_go occ 1 1 s 7 0 ||| ray_go occ 1 (-1) s 7 0 |||
    ray_go occ (-1) 1 s 7 0 ||| ray_go occ (-1) (-1) s 7 0

end attack

/-- Diagonal index of a square (`Sq::diag`). -/
def Sq.diag (s : Sq) : Nat := s.file.val + s.rank.val

/-- Antidiagonal index of a square (`Sq::antidiag`). -/
def Sq.antidiag (s : Sq) : Nat := 7 - s.rank.val + s.file.val

/-- Bitboard of the squares satisfying a predicate. -/
def bb_of_pred (p : Sq → Bool) : Bitboard :=
  (List.finRange 64).foldl (fun acc t => if p t then Bitboard.withSq acc t else acc) 0

namespace between

/-- Modelled from the spec: the between/ray tables (`between.rs` includes a
build-generated file).  `BISHOP_NE[s]` holds the squares other than `s` that
share a diagonal or antidiagonal with `s` (the "is this pair on a valid
bishop line" predicate of the spec). -/
def bishop_ne (s : Sq) : Bitboard :=
  bb_of_pred fun x => (x.diag = s.diag || x.antidiag = s.antidiag) && x ≠ s

/-- Modelled from the spec: squares on a bishop line through `s` with a larger
square index. -/
def bishop_gt (s : Sq) : Bitboard :=
  bb_of_pred fun x => (x.diag = s.diag || x.antidiag = s.antidiag) && s.val < x.val

/-- Modelled from the spec: squares on a bishop line through `s` with a smaller
square index. -/
def bishop_lt (s : Sq) : Bitboard :=
  bb_of_pred fun x => (x.diag = s.diag || x.antidiag = s.antidiag) && x.val < s.val

/-- Modelled from the spec: squares other than `s` sharing a rank or file
with `s`. -/
def rook_ne (s : Sq) : Bitboard :=
  bb_of_pred fun x => (x.file = s.file || x.rank = s.rank) && x ≠ s

/-- Modelled from the spec: squares on a rook line through `s` with a larger
square index. -/
def rook_gt (s : Sq) : Bitboard :=
  bb_of_pred fun x => (x.file = s.file || x.rank = s.rank) && s.val < x.val

/-- Modelled from the spec: squares on a rook line through `s` with a smaller
square index. -/
def rook_lt (s : Sq) : Bitboard :=
  bb_of_pred fun x => (x.file = s.file || x.rank = s.rank) && x.val < s.val

/-- Canonicalize a pair by square index (`between::sort`). -/
def sort (src dst : Sq) : Sq × Sq :=
  if src.val < dst.val then (src, dst) else (dst, src)

/-- Open diagonal interval between two squares (`between::bishop_strict`). -/
def bishop_strict (src dst : Sq) : Bitboard :=
  let p := sort src dst
  bishop_gt p.1 &&& bishop_lt p.2

/-- Open rank/file interval between two squares (`between::rook_strict`). -/
def rook_strict (src dst : Sq) : Bitboard :=
  let p := sort src dst
  rook_gt p.1 &&& rook_lt p.2

/-- Bishop-line validity of a pair (`between::is_bishop_valid`). -/
def is_bishop_valid (src dst : Sq) : Bool :=
  Bitboard.hasSq (bishop_ne src) dst

/-- Rook-line validity of a pair (`between::is_rook_valid`). -/
def is_rook_valid (src dst : Sq) : Bool :=
  Bitboard.hasSq (rook_ne src) dst

/-- Generic open interval between two squares; empty for non-collinear pairs
(`between::between`). -/
def between (src dst : Sq) : Bitboard :=
  let p := sort src dst
  let dst_bb := Bitboard.one p.2
  if bishop_gt p.1 &&& dst_bb ≠ 0 then bishop_gt p.1 &&& bishop_lt p.2
  else if rook_gt p.1 &&& dst_bb ≠ 0 then rook_gt p.1 &&& rook_lt p.2
  else 0

end between

/-- Zobrist key tables.  The concrete keys live in a build-generated file
(`zobrist.rs` includes it from `OUT_DIR`) that is not under `src/`, so the
embedding is parameterized by an arbitrary key table; `squares`, `enpassant`
and `castling` are keyed by the raw index used by the source arrays. -/
structure Zobrist where
  squares : Cell → Nat → Nat
  enpassant : Nat → Nat
  castling : Nat → Nat
  castling_kingside : Color → Nat
  castling_queenside : Color → Nat
  move_side : Nat

/-- XOR of `f 0 ^^^ ... ^^^ f (n-1)`. -/
def xorRange (f : Nat → Nat) : Nat → Nat
  | 0 => 0
  | n + 1 => xorRange f n ^^^ f n

/-- XOR over all 64 squares of a per-square key function. -/
def xorSquares (f : Sq → Nat) : Nat :=
  xorRange (fun i => if h : i < 64 then f ⟨i, h⟩ else 0) 64

/-- Square index on the castling rank of a color at a given file: the
per-color offset (56 for White, 0 for Black) plus the file index. -/
def castle_sq (c : Color) (f : Nat) : Nat := castling.offset c + f

/-- Modelled from the spec: the constraints the generated zobrist tables must
satisfy for the spec's hash invariant ("a from-scratch recomputation over the
mailbox must always equal the incrementally maintained value").  The key of an
empty cell is zero (the incremental code XORs the destination cell's key even
when the destination is empty), and each castling-delta key is the XOR of the
four (cell, square) keys of the king and rook squares that the castling move
rearranges. -/
def Zobrist.wf (z : Zobrist) : Prop :=
  (∀ i : Nat, z.squares Cell.none i = 0) ∧
  (∀ c : Color,
    z.castling_kingside c =
      z.squares (Cell.make c .king) (castle_sq c 4) ^^^
      z.squares (Cell.make c .rook) (castle_sq c 5) ^^^
      z.squares (Cell.make c .king) (castle_sq c 6) ^^^
      z.squares (Cell.make c .rook) (castle_sq c 7)) ∧
  (∀ c : Color,
    z.castling_queenside c =
      z.squares (Cell.make c .rook) (castle_sq c 0) ^^^
      z.squares (Cell.make c .king) (castle_sq c 2) ^^^
      z.squares (Cell.make c .rook) (castle_sq c 3) ^^^
      z.squares (Cell.make c .king) (castle_sq c 4))

/-- Concrete key table used in witnesses: arbitrary distinct-looking values
satisfying `Zobrist.wf` by construction. -/
def zW : Zobrist where
  squares c i := if c = Cell.none then 0 else (c.index * 64 + i + 1) * 1000003
  enpassant i := (i + 1) * 7777777
  castling i := (i + 1) * 333331
  castling_kingside c :=
    ((Cell.make c .king).index * 64 + castle_sq c 4 + 1) * 1000003 ^^^
    ((Cell.make c .rook).index * 64 + castle_sq c 5 + 1) * 1000003 ^^^
    ((Cell.make c .king).index * 64 + castle_sq c 6 + 1) * 1000003 ^^^
    ((Cell.make c .rook).index * 64 + castle_sq c 7 + 1) * 1000003
  castling_queenside c :=
    ((Cell.make c .rook).index * 64 + castle_sq c 0 + 1) * 1000003 ^^^
    ((Cell.make c .king).index * 64 + castle_sq c 2 + 1) * 1000003 ^^^
    ((Cell.make c .rook).index * 64 + castle_sq c 3 + 1) * 1000003 ^^^
    ((Cell.make c .king).index * 64 + castle_sq c 4 + 1) * 1000003
  move_side := 987654321

/-- Canonical board state (`RawBoard` in `board/src/board.rs`): mailbox, side
to move, castling rights, optional en-passant source square, halfmove clock
and fullmove number.  The two `u16` counters are modelled as `Nat`; their
increments in the source would panic on overflow in a checked build. -/
structure RawBoard where
  squares : Sq → Cell
  side : Color
  castling : CastlingRights
  ep_src : Option Sq
  move_counter : Nat
  move_number : Nat
deriving DecidableEq

/-- Mailbox read (`RawBoard::get`). -/
def RawBoard.get (r : RawBoard) (s : Sq) : Cell := r.squares s

/-- Mailbox write (`RawBoard::put`). -/
def RawBoard.put (r : RawBoard) (s : Sq) (c : Cell) : RawBoard :=
  { r with squares := Function.update r.squares s c }

/-- From-scratch zobrist hash of a raw board (`RawBoard::zobrist_hash`): the
side key when White is to move, the en-passant key, the castling key and one
key per occupied square, all XORed.  The source accumulates with `^=` over the
squares in increasing order; XOR's associativity and commutativity make that
equal to this right-factored form. -/
def RawBoard.zobrist_hash (z : Zobrist) (r : RawBoard) : Nat :=
  (if r.side = Color.white then z.move_side else 0) ^^^
  (match r.ep_src with
    | some p => z.enpassant p.val
    | Option.none => 0) ^^^
  z.castling r.castling.val ^^^
  xorSquares fun s => if r.squares s ≠ Cell.none then z.squares (r.squares s) s.val else 0

/-- En-passant destination square derived from the source square
(`RawBoard::ep_dst`). -/
def RawBoard.ep_dst (r : RawBoard) : Option Sq :=
  match r.ep_src with
  | some p => some (Sq.make p.file (ep_dst_rank r.side))
  | Option.none => Option.none

/-- Empty raw board (`RawBoard::empty`). -/
def RawBoard.empty : RawBoard where
  squares _ := Cell.none
  side := Color.white
  castling := CastlingRights.empty
  ep_src := Option.none
  move_counter := 0
  move_number := 1

/-- Standard initial position (`RawBoard::start`). -/
def RawBoard.start : RawBoard where
  squares s :=
    if s.rank.val = 6 then Cell.wp
    else if s.rank.val = 1 then Cell.bp
    else if s.rank.val = 7 ∨ s.rank.val = 0 then
      let c : Color := if s.rank.val = 7 then .white else .black
      if s.file.val = 0 ∨ s.file.val = 7 then Cell.make c .rook
      else if s.file.val = 1 ∨ s.file.val = 6 then Cell.make c .knight
      else if s.file.val = 2 ∨ s.file.val = 5 then Cell.make c .bishop
      else if s.file.val = 3 then Cell.make c .queen
      else Cell.make c .king
    else Cell.none
  side := Color.white
  castling := CastlingRights.full
  ep_src := Option.none
  move_counter := 0
  move_number := 1

/-- Board with derived caches (`Board`): the raw board plus zobrist hash,
per-color occupancy, per-cell bitboards and combined occupancy. -/
structure Board where
  r : RawBoard
  hash : Nat
  white : Bitboard
  black : Bitboard
  cells : Cell → Bitboard
  all_v : Bitboard
deriving DecidableEq

/-- Mailbox read through the board (`Board::get`). -/
def Board.get (b : Board) (s : Sq) : Cell := b.r.get s

/-- Side to move (`Board::side`). -/
def Board.side (b : Board) : Color := b.r.side

/-- Occupancy of one color (`Board::color`). -/
def Board.color (b : Board) (c : Color) : Bitboard :=
  match c with | .white => b.white | .black => b.black

/-- Replace the occupancy of one color (models `Board::color_mut`). -/
def Board.set_color (b : Board) (c : Color) (v : Bitboard) : Board :=
  match c with
  | .white => { b with white := v }
  | .black => { b with black := v }

/-- Bitboard of one cell kind (`Board::cell`). -/
def Board.cell (b : Board) (c : Cell) : Bitboard := b.cells c

/-- Replace the bitboard of one cell kind (models `Board::cell_mut`). -/
def Board.set_cell (b : Board) (c : Cell) (v : Bitboard) : Board :=
  { b with cells := Function.update b.cells c v }

/-- Bitboard of one colored piece (`Board::piece`). -/
def Board.piece (b : Board) (c : Color) (p : Piece) : Bitboard :=
  b.cell (Cell.make c p)

/-- Diagonal sliders of a color (`Board::piece_diag`). -/
def Board.piece_diag (b : Board) (c : Color) : Bitboard :=
  b.piece c .bishop ||| b.piece c .queen

/-- Line sliders of a color (`Board::piece_line`). -/
def Board.piece_line (b : Board) (c : Color) : Bitboard :=
  b.piece c .rook ||| b.piece c .queen

/-- Combined occupancy (`Board::all`). -/
def Board.all (b : Board) : Bitboard := b.all_v

/-- Position of the king of a color (`Board::king_pos`): the first square of
the king bitboard's lowest-bit-first iteration.  The source unwraps the
iterator; a valid board has exactly one king of each color, and the model
returns square 0 in the impossible empty case. -/
def Board.king_pos (b : Board) (c : Color) : Sq :=
  (Bitboard.sqList (b.piece c .king)).headD ⟨0, by decide⟩

/-- Whether any piece of color `c` attacks square `s`
(`movegen::is_square_attacked`). -/
def is_square_attacked (b : Board) (s : Sq) (c : Color) : Bool :=
  let all := b.all
  (b.piece c .pawn &&& attack.pawn c.inv s ≠ 0) ||
  (b.piece c .king &&& attack.king s ≠ 0) ||
  (b.piece c .knight &&& attack.knight s ≠ 0) ||
  (attack.bishop s all &&& b.piece_diag c ≠ 0) ||
  (attack.rook s all &&& b.piece_line c ≠ 0)

/-- Bitboard of the pieces of color `c` attacking square `s`
(`movegen::square_attackers`). -/
def square_attackers (b : Board) (s : Sq) (c : Color) : Bitboard :=
  let all := b.all
  (b.piece c .pawn &&& attack.pawn c.inv s) |||
  (b.piece c .king &&& attack.king s) |||
  (b.piece c .knight &&& attack.knight s) |||
  (attack.bishop s all &&& b.piece_diag c) |||
  (attack.rook s all &&& b.piece_line c)

/-- Whether the king of the side not to move is attacked
(`Board::is_opponent_king_attacked`). -/
def Board.is_opponent_king_attacked (b : Board) : Bool :=
  is_square_attacked b (b.king_pos b.r.side.inv) b.r.side

/-- Whether the side to move is in check (`Board::is_check`). -/
def Board.is_check (b : Board) : Bool :=
  is_square_attacked b (b.king_pos b.r.side) b.r.side.inv

/-- Bitboard of the checkers of the side to move (`Board::checkers`). -/
def Board.checkers (b : Board) : Bitboard :=
  square_attackers b (b.king_pos b.r.side) b.r.side.inv

/-- Move kinds (`MoveKind`), 11 values. -/
inductive MoveKind where
  | null
  | simple
  | castling_kingside
  | castling_queenside
  | pawn_simple
  | pawn_double
  | enpassant
  | promote_knight
  | promote_bishop
  | promote_rook
  | promote_queen
deriving DecidableEq, Repr

/-- Index of a move kind, 0..10 (`MoveKind::index`). -/
def MoveKind.index : MoveKind → Nat
  | .null => 0
  | .simple => 1
  | .castling_kingside => 2
  | .castling_queenside => 3
  | .pawn_simple => 4
  | .pawn_double => 5
  | .enpassant => 6
  | .promote_knight => 7
  | .promote_bishop => 8
  | .promote_rook => 9
  | .promote_queen => 10

/-- Inverse of `MoveKind.index` (`MoveKind::from_index_unchecked`).  Indices
above 10 are undefined behavior in the source; the model maps them to `null`. -/
def MoveKind.from_index_unchecked : Nat → MoveKind
  | 0 => .null
  | 1 => .simple
  | 2 => .castling_kingside
  | 3 => .castling_queenside
  | 4 => .pawn_simple
  | 5 => .pawn_double
  | 6 => .enpassant
  | 7 => .promote_knight
  | 8 => .promote_bishop
  | 9 => .promote_rook
  | 10 => .promote_queen
  | _ => .null

/-- Piece produced by a promotion kind (`MoveKind::promote`). -/
def MoveKind.promote : MoveKind → Option Piece
  | .promote_knight => some .knight
  | .promote_bishop => some .bishop
  | .promote_rook => some .rook
  | .promote_queen => some .queen
  | _ => Option.none

/-- A move (`Move`): kind, source and destination squares.  The source struct
also carries an always-zero padding byte `unused`, omitted here. -/
structure Move where
  kind : MoveKind
  src : Sq
  dst : Sq
deriving DecidableEq, Repr

/-- The null move (`Move::NULL`): kind `null`, both squares index 0. -/
def Move.null_move : Move := ⟨.null, ⟨0, by decide⟩, ⟨0, by decide⟩⟩

/-- Typed error of move validation (`moves::ValidateError`). -/
inductive MoveValidateError where
  | not_well_formed
  | not_semi_legal
  | not_legal
deriving DecidableEq, Repr

/-- Packed 16-bit move (`PackedMove`): kind in bits 15:12, source in bits
11:6, destination in bits 5:0. -/
structure PackedMove where
  val : Nat
deriving DecidableEq, Repr

/-- Packing conversion (`From<Move> for PackedMove`); the final `as u16` cast
is the mask by `2 ^ 16`. -/
def Move.pack (m : Move) : PackedMove :=
  ⟨((m.kind.index <<< 12) ||| (m.src.val <<< 6) ||| m.dst.val) % 2 ^ 16⟩

/-- Unpacking conversion (`From<PackedMove> for Move`). -/
def PackedMove.unpack (p : PackedMove) : Move :=
  let v := p.val
  let dst := v &&& 63
  let src := (v >>> 6) &&& 63
  let kind := v >>> 12
  { kind := MoveKind.from_index_unchecked kind
    src := ⟨src, by
      have : (v >>> 6) &&& 63 ≤ 63 := Nat.and_le_right
      omega⟩
    dst := ⟨dst, by
      have : v &&& 63 ≤ 63 := Nat.and_le_right
      omega⟩ }

/-- Well-formedness of a move independent of any board
(`Move::is_well_formed`). -/
def Move.is_well_formed (m : Move) : Bool :=
  if m.kind = .null then m = Move.null_move
  else if m.src = m.dst then false
  else
    match m.kind with
    | .null => false
    | .simple => true
    | .castling_kingside =>
      decide (∃ c : Color, m.src = Sq.make ⟨4, by decide⟩ (castling_rank c) ∧
        m.dst = Sq.make ⟨6, by decide⟩ (castling_rank c))
    | .castling_queenside =>
      decide (∃ c : Color, m.src = Sq.make ⟨4, by decide⟩ (castling_rank c) ∧
        m.dst = Sq.make ⟨2, by decide⟩ (castling_rank c))
    | .pawn_simple =>
      decide (m.src.file.val.dist m.dst.file.val ≤ 1) &&
      !(decide (m.src.rank.val = 7 ∨ m.src.rank.val = 0)) &&
      !(decide (m.dst.rank.val = 7 ∨ m.dst.rank.val = 0)) &&
      decide (m.src.rank.val.dist m.dst.rank.val = 1)
    | .pawn_double =>
      m.src.file = m.dst.file &&
      decide (∃ c : Color, m.src.rank = double_move_src_rank c ∧
        m.dst.rank = double_move_dst_rank c)
    | .enpassant =>
      decide (m.src.file.val.dist m.dst.file.val = 1) &&
      decide (∃ c : Color, m.src.rank = ep_src_rank c ∧ m.dst.rank = ep_dst_rank c)
    | .promote_knight | .promote_bishop | .promote_rook | .promote_queen =>
      decide (m.src.file.val.dist m.dst.file.val ≤ 1) &&
      decide (∃ c : Color, m.src.rank = promote_src_rank c ∧
        m.dst.rank = promote_dst_rank c)

/-- Undo snapshot of one make-move (`RawUndo`). -/
structure RawUndo where
  hash : Nat
  dst_cell : Cell
  castling : CastlingRights
  ep_src : Option Sq
  move_counter : Nat
deriving DecidableEq, Repr

/-- Revoke the castling rights whose home squares are touched by `change`,
updating the hash when the rights change (`moves::update_castling`). -/
def update_castling (z : Zobrist) (b : Board) (change : Bitboard) : Board :=
  if change &&& castling.all_srcs = 0 then b
  else
    let cr := b.r.castling
    let cr := if change &&& castling.srcs .white .queen ≠ 0 then cr.without .white .queen else cr
    let cr := if change &&& castling.srcs .white .king ≠ 0 then cr.without .white .king else cr
    let cr := if change &&& castling.srcs .black .queen ≠ 0 then cr.without .black .queen else cr
    let cr := if change &&& castling.srcs .black .king ≠ 0 then cr.without .black .king else cr
    if cr ≠ b.r.castling then
      { b with
        hash := b.hash ^^^ z.castling b.r.castling.val ^^^ z.castling cr.val
        r := { b.r with castling := cr } }
    else b

/-- The castling-rights computation inside `moves::update_castling`, split
out to state facts about the update without carrying the whole board. -/
def castling_update_rights (cr : CastlingRights) (change : Bitboard) : CastlingRights :=
  let cr := if change &&& castling.srcs .white .queen ≠ 0 then cr.without .white .queen else cr
  let cr := if change &&& castling.srcs .white .king ≠ 0 then cr.without .white .king else cr
  let cr := if change &&& castling.srcs .black .queen ≠ 0 then cr.without .black .queen else cr
  let cr := if change &&& castling.srcs .black .king ≠ 0 then cr.without .black .king else cr
  cr

/-- Shared forward/inverse application of a pawn double move
(`moves::do_make_pawn_double`). -/
def do_make_pawn_double (z : Zobrist) (b : Board) (mv : Move) (change : Bitboard)
    (c : Color) (inv : Bool) : Board :=
  let pawn := Cell.make c .pawn
  let b :=
    if inv then
      { b with r := (b.r.put mv.src pawn).put mv.dst Cell.none }
    else
      { b with
        r := (b.r.put mv.src Cell.none).put mv.dst pawn
        hash := b.hash ^^^ z.squares pawn mv.src.val ^^^ z.squares pawn mv.dst.val }
  let b := b.set_color c (b.color c ^^^ change)
  let b := b.set_cell pawn (b.cell pawn ^^^ change)
  if inv then b
  else
    { b with
      r := { b.r with ep_src := some mv.dst }
      hash := b.hash ^^^ z.enpassant mv.dst.val }

/-- Shared forward/inverse application of an en-passant capture
(`moves::do_make_enpassant`). -/
def do_make_enpassant (z : Zobrist) (b : Board) (mv : Move) (change : Bitboard)
    (c : Color) (inv : Bool) : Board :=
  let taken_pos := mv.dst.addU (-(pawn_forward_delta c))
  let taken := Bitboard.one taken_pos
  let our_pawn := Cell.make c .pawn
  let their_pawn := Cell.make c.inv .pawn
  let b :=
    if inv then
      { b with r := ((b.r.put mv.src our_pawn).put mv.dst Cell.none).put taken_pos their_pawn }
    else
      { b with
        r := ((b.r.put mv.src Cell.none).put mv.dst our_pawn).put taken_pos Cell.none
        hash := b.hash ^^^ z.squares our_pawn mv.src.val ^^^
          z.squares our_pawn mv.dst.val ^^^ z.squares their_pawn taken_pos.val }
  let b := b.set_color c (b.color c ^^^ change)
  let b := b.set_cell our_pawn (b.cell our_pawn ^^^ change)
  let b := b.set_color c.inv (b.color c.inv ^^^ taken)
  b.set_cell their_pawn (b.cell their_pawn ^^^ taken)

/-- Shared forward/inverse application of kingside castling
(`moves::do_make_castling_kingside`). -/
def do_make_castling_kingside (z : Zobrist) (b : Board) (c : Color) (inv : Bool) :
    Board :=
  let king := Cell.make c .king
  let rook := Cell.make c .rook
  let rank := castling_rank c
  let b :=
    if inv then
      { b with
        r := (((b.r.put (Sq.make ⟨4, by decide⟩ rank) king).put
          (Sq.make ⟨5, by decide⟩ rank) Cell.none).put
          (Sq.make ⟨6, by decide⟩ rank) Cell.none).put
          (Sq.make ⟨7, by decide⟩ rank) rook }
    else
      { b with
        r := (((b.r.put (Sq.make ⟨4, by decide⟩ rank) Cell.none).put
          (Sq.make ⟨5, by decide⟩ rank) rook).put
          (Sq.make ⟨6, by decide⟩ rank) king).put
          (Sq.make ⟨7, by decide⟩ rank) Cell.none
        hash := b.hash ^^^ z.castling_kingside c }
  let off := castling.offset c
  let b := b.set_color c (b.color c ^^^ (0xf0 <<< off))
  let b := b.set_cell rook (b.cell rook ^^^ (0xa0 <<< off))
  let b := b.set_cell king (b.cell king ^^^ (0x50 <<< off))
  if inv then b
  else
    { b with
      hash := b.hash ^^^ z.castling b.r.castling.val ^^^
        z.castling (b.r.castling.without_color c).val
      r := { b.r with castling := b.r.castling.without_color c } }

/-- Shared forward/inverse application of queenside castling
(`moves::do_make_castling_queenside`). -/
def do_make_castling_queenside (z : Zobrist) (b : Board) (c : Color) (inv : Bool) :
    Board :=
  let king := Cell.make c .king
  let rook := Cell.make c .rook
  let rank := castling_rank c
  let b :=
    if inv then
      { b with
        r := (((b.r.put (Sq.make ⟨0, by decide⟩ rank) rook).put
          (Sq.make ⟨2, by decide⟩ rank) Cell.none).put
          (Sq.make ⟨3, by decide⟩ rank) Cell.none).put
          (Sq.make ⟨4, by decide⟩ rank) king }
    else
      { b with
        r := (((b.r.put (Sq.make ⟨0, by decide⟩ rank) Cell.none).put
          (Sq.make ⟨2, by decide⟩ rank) king).put
          (Sq.make ⟨3, by decide⟩ rank) rook).put
          (Sq.make ⟨4, by decide⟩ rank) Cell.none
        hash := b.hash ^^^ z.castling_queenside c }
  let off := castling.offset c
  let b := b.set_color c (b.color c ^^^ (0x1d <<< off))
  let b := b.set_cell rook (b.cell rook ^^^ (0x09 <<< off))
  let b := b.set_cell king (b.cell king ^^^ (0x14 <<< off))
  if inv then b
  else
    { b with
      hash := b.hash ^^^ z.castling b.r.castling.val ^^^
        z.castling (b.r.castling.without_color c).val
      r := { b.r with castling := b.r.castling.without_color c } }

/-- Apply a move for side `c` (`moves::do_make_move`), returning the new board
and the undo record. -/
def do_make_move (z : Zobrist) (c : Color) (b : Board) (mv : Move) :
    Board × RawUndo :=
  let src_cell := b.get mv.src
  let dst_cell := b.get mv.dst
  let undo : RawUndo :=
    { hash := b.hash
      dst_cell := dst_cell
      castling := b.r.castling
      ep_src := b.r.ep_src
      move_counter := b.r.move_counter }
  let src := Bitboard.one mv.src
  let dst := Bitboard.one mv.dst
  let change := src ||| dst
  let pawn := Cell.make c .pawn
  let b :=
    match b.r.ep_src with
    | some p =>
      { b with hash := b.hash ^^^ z.enpassant p.val, r := { b.r with ep_src := Option.none } }
    | Option.none => b
  let b :=
    match mv.kind with
    | .simple | .pawn_simple =>
      let b :=
        { b with
          r := (b.r.put mv.src Cell.none).put mv.dst src_cell
          hash := b.hash ^^^ z.squares src_cell mv.src.val ^^^
            z.squares src_cell mv.dst.val ^^^ z.squares dst_cell mv.dst.val }
      let b := b.set_color c (b.color c ^^^ change)
      let b := b.set_cell src_cell (b.cell src_cell ^^^ change)
      let b := b.set_color c.inv (b.color c.inv &&& Bitboard.compl dst)
      let b := b.set_cell dst_cell (b.cell dst_cell &&& Bitboard.compl dst)
      if src_cell ≠ pawn then update_castling z b change else b
    | .pawn_double => do_make_pawn_double z b mv change c false
    | .promote_knight | .promote_bishop | .promote_rook | .promote_queen =>
      let promote := Cell.make c (mv.kind.promote.getD .knight)
      let b :=
        { b with
          r := (b.r.put mv.src Cell.none).put mv.dst promote
          hash := b.hash ^^^ z.squares src_cell mv.src.val ^^^
            z.squares promote mv.dst.val ^^^ z.squares dst_cell mv.dst.val }
      let b := b.set_color c (b.color c ^^^ change)
      let b := b.set_cell pawn (b.cell pawn ^^^ src)
      let b := b.set_cell promote (b.cell promote ^^^ dst)
      let b := b.set_color c.inv (b.color c.inv &&& Bitboard.compl dst)
      let b := b.set_cell dst_cell (b.cell dst_cell &&& Bitboard.compl dst)
      update_castling z b change
    | .castling_kingside => do_make_castling_kingside z b c false
    | .castling_queenside => do_make_castling_queenside z b c false
    | .null => b
    | .enpassant => do_make_enpassant z b mv change c false
  let b :=
    { b with
      r :=
        { b.r with
          move_counter :=
            if dst_cell ≠ Cell.none ∨ src_cell = pawn then 0 else b.r.move_counter + 1 } }
  let b := { b with r := { b.r with side := c.inv }, hash := b.hash ^^^ z.move_side }
  let b :=
    if c = Color.black then { b with r := { b.r with move_number := b.r.move_number + 1 } }
    else b
  ({ b with all_v := b.white ||| b.black }, undo)

/-- Apply a move for the side to move (`moves::make_move_unchecked`). -/
def make_move_unchecked (z : Zobrist) (b : Board) (mv : Move) : Board × RawUndo :=
  do_make_move z b.r.side b mv

/-- Revert a move for side `c` (`moves::do_unmake_move`).  The key table is
passed through to the shared helpers, whose inverse paths never consult it. -/
def do_unmake_move (z : Zobrist) (c : Color) (b : Board) (mv : Move) (u : RawUndo) : Board :=
  let src := Bitboard.one mv.src
  let dst := Bitboard.one mv.dst
  let change := src ||| dst
  let src_cell := b.get mv.dst
  let dst_cell := u.dst_cell
  let b :=
    match mv.kind with
    | .simple | .pawn_simple =>
      let b := { b with r := (b.r.put mv.src src_cell).put mv.dst dst_cell }
      let b := b.set_color c (b.color c ^^^ change)
      let b := b.set_cell src_cell (b.cell src_cell ^^^ change)
      if dst_cell ≠ Cell.none then
        let b := b.set_color c.inv (b.color c.inv ||| dst)
        b.set_cell dst_cell (b.cell dst_cell ||| dst)
      else b
    | .pawn_double =>
      do_make_pawn_double z b mv change c true
    | .promote_knight | .promote_bishop | .promote_rook | .promote_queen =>
      let pawn := Cell.make c .pawn
      let b := { b with r := (b.r.put mv.src pawn).put mv.dst dst_cell }
      let b := b.set_color c (b.color c ^^^ change)
      let b := b.set_cell pawn (b.cell pawn ^^^ src)
      let b := b.set_cell src_cell (b.cell src_cell ^^^ dst)
      if dst_cell ≠ Cell.none then
        let b := b.set_color c.inv (b.color c.inv ||| dst)
        b.set_cell dst_cell (b.cell dst_cell ||| dst)
      else b
    | .castling_kingside => do_make_castling_kingside z b c true
    | .castling_queenside => do_make_castling_queenside z b c true
    | .null => b
    | .enpassant => do_make_enpassant z b mv change c true
  let b :=
    { b with
      hash := u.hash
      r :=
        { b.r with
          castling := u.castling
          ep_src := u.ep_src
          move_counter := u.move_counter
          side := c } }
  let b :=
    if c = Color.black then { b with r := { b.r with move_number := b.r.move_number - 1 } }
    else b
  { b with all_v := b.white ||| b.black }

/-- Revert a move (`moves::unmake_move_unchecked`); the generic color is the
mover, i.e. the inverse of the side to move after the move. -/
def unmake_move_unchecked (z : Zobrist) (b : Board) (mv : Move) (u : RawUndo) : Board :=
  match b.r.side with
  | .white => do_unmake_move z .black b mv u
  | .black => do_unmake_move z .white b mv u

/-- Path-clear bishop movement test (`moves::is_bishop_semilegal`). -/
def is_bishop_semilegal (src dst : Sq) (all : Bitboard) : Bool :=
  between.is_bishop_valid src dst && (between.bishop_strict src dst &&& all = 0)

/-- Path-clear rook movement test (`moves::is_rook_semilegal`). -/
def is_rook_semilegal (src dst : Sq) (all : Bitboard) : Bool :=
  between.is_rook_valid src dst && (between.rook_strict src dst &&& all = 0)

/-- Path-clear queen movement test (`moves::is_queen_semilegal`). -/
def is_queen_semilegal (src dst : Sq) (all : Bitboard) : Bool :=
  is_bishop_semilegal src dst all || is_rook_semilegal src dst all

/-- Semilegality of a move for side `c` (`moves::do_is_move_semilegal`):
movement pattern consistent with the moving piece and current occupancy,
ignoring king safety.  In the White pawn-double branch the source computes
`0x0101 << (src - 16)` on `usize`; for a white pawn the source square index is
at least 8, and an index below 16 (a pawn on rank 7) would make the subtraction
underflow and the shift panic in a checked build — the model uses truncated
natural subtraction there. -/
def do_is_move_semilegal (c : Color) (b : Board) (mv : Move) : Bool :=
  if mv.kind = .null then false
  else
    let src_cell := b.get mv.src
    if src_cell = Cell.make c .pawn then
      if (match c with
          | .white => decide (mv.src.val ≤ mv.dst.val)
          | .black => decide (mv.dst.val ≤ mv.src.val)) then
        false
      else
        match mv.kind with
        | .pawn_double =>
          let must_empty : Bitboard :=
            match c with
            | .white => 0x0101 <<< (mv.src.val - 16)
            | .black => (0x010100 <<< mv.src.val) % 2 ^ 64
          b.all &&& must_empty = 0
        | .enpassant =>
          match b.r.ep_src with
          | some p =>
            (p = mv.src.addU 1 || p = mv.src.addU (-1)) &&
              mv.dst = p.addU (pawn_forward_delta c)
          | Option.none => false
        | .pawn_simple | .promote_knight | .promote_bishop | .promote_rook
        | .promote_queen =>
          let dst_cell := b.get mv.dst
          match dst_cell.color with
          | some cc => c ≠ cc && mv.dst.file ≠ mv.src.file
          | Option.none => mv.dst.file = mv.src.file
        | _ => false
    else
      match mv.kind with
      | .simple =>
        let dst_cell := b.get mv.dst
        if src_cell.color ≠ some c || dst_cell.color = some c then false
        else
          let dst := Bitboard.one mv.dst
          match src_cell.piece with
          | some .bishop => is_bishop_semilegal mv.src mv.dst b.all
          | some .rook => is_rook_semilegal mv.src mv.dst b.all
          | some .queen => is_queen_semilegal mv.src mv.dst b.all
          | some .knight => attack.knight mv.src &&& dst ≠ 0
          | some .king => attack.king mv.src &&& dst ≠ 0
          | some .pawn | Option.none => false
      | .castling_kingside =>
        mv.src.rank = castling_rank c &&
        (b.r.castling.has c .king) &&
        (b.all &&& castling.pass c .king = 0) &&
        !(is_square_attacked b mv.src c.inv) &&
        !(is_square_attacked b (mv.src.addU 1) c.inv)
      | .castling_queenside =>
        mv.src.rank = castling_rank c &&
        (b.r.castling.has c .queen) &&
        (b.all &&& castling.pass c .queen = 0) &&
        !(is_square_attacked b mv.src c.inv) &&
        !(is_square_attacked b (mv.src.addU (-1)) c.inv)
      | _ => false

/-- Semilegality for the side to move (`Move::is_semilegal`). -/
def Move.is_semilegal (mv : Move) (b : Board) : Bool :=
  do_is_move_semilegal b.r.side b mv

/-- Masked attack test over a simulated occupancy
(`moves::is_square_attacked_masked`). -/
def is_square_attacked_masked (b : Board) (s : Sq) (c : Color)
    (all ours_mask : Bitboard) : Bool :=
  let near :=
    (b.piece c .pawn &&& attack.pawn c.inv s) |||
    (b.piece c .king &&& attack.king s) |||
    (b.piece c .knight &&& attack.knight s)
  (near &&& ours_mask ≠ 0) ||
  (attack.bishop s all &&& b.piece_diag c &&& ours_mask ≠ 0) ||
  (attack.rook s all &&& b.piece_line c &&& ours_mask ≠ 0)

/-- Legality of a semilegal move for side `c` (`moves::do_is_move_legal`):
after the move the mover's king is not attacked, checked over a simulated
occupancy without materializing the move. -/
def do_is_move_legal (c : Color) (b : Board) (mv : Move) : Bool :=
  let inv := c.inv
  let src := Bitboard.one mv.src
  let dst := Bitboard.one mv.dst
  let src_cell := b.get mv.src
  if src_cell = Cell.make c .king then
    !(is_square_attacked_masked b mv.dst inv (b.all ^^^ src) Bitboard.full)
  else
    let king := b.king_pos c
    let all := (b.all ^^^ src) ||| dst
    let ours_mask := Bitboard.compl dst
    if mv.kind = .enpassant then
      let tmp := advance_forward inv dst
      !(is_square_attacked_masked b king inv (all ^^^ tmp) (ours_mask ^^^ tmp))
    else
      !(is_square_attacked_masked b king inv all ours_mask)

/-- Legality for the side to move (`Move::is_legal_unchecked`). -/
def Move.is_legal_unchecked (mv : Move) (b : Board) : Bool :=
  do_is_move_legal b.r.side b mv

/-- Semilegality as a `Result` (`Move::semi_validate`). -/
def Move.semi_validate (mv : Move) (b : Board) : Except MoveValidateError Unit :=
  if mv.is_semilegal b then Except.ok () else Except.error .not_semi_legal

/-- Full validation (`Move::validate`): semilegality, then legality. -/
def Move.validate (mv : Move) (b : Board) : Except MoveValidateError Unit :=
  match mv.semi_validate b with
  | Except.error e => Except.error e
  | Except.ok _ =>
    if mv.is_legal_unchecked b then Except.ok () else Except.error .not_legal

/-- Checked move construction (`Move::new`). -/
def Move.new (kind : MoveKind) (src dst : Sq) : Except MoveValidateError Move :=
  let mv : Move := ⟨kind, src, dst⟩
  if mv.is_well_formed then Except.ok mv else Except.error .not_well_formed

/-- Safe move application (`Board::make_move`): validate, then apply.  The
Rust method mutates `&mut self` and returns `Result<(), _>`; the model returns
the outcome together with the final state of the board. -/
def Board.make_move_st (z : Zobrist) (b : Board) (mv : Move) :
    Except MoveValidateError Unit × Board :=
  match mv.validate b with
  | Except.error e => (Except.error e, b)
  | Except.ok _ => (Except.ok (), (make_move_unchecked z b mv).1)

/-- Typed error of UCI move parsing (`moves::UciParseError`). -/
inductive UciParseError where
  | bad_length
  | bad_src
  | bad_dst
  | bad_promote (c : Char)
  | validate (e : MoveValidateError)
deriving DecidableEq, Repr

/-- Parsed UCI move text (`moves::UciMove`). -/
inductive UciMove where
  | null
  | move (src dst : Sq) (promote : Option Piece)
deriving DecidableEq, Repr

/-- Parse a square from two characters (`FromStr for Sq`). -/
def Sq.parse2 (cf cr : Char) : Option Sq :=
  match File.from_char cf, Rank.from_char cr with
  | some f, some r => some (Sq.make f r)
  | _, _ => Option.none

/-- Parse a UCI move string (`FromStr for UciMove`): `0000` is the null move,
otherwise source square, destination square and an optional promotion
letter. -/
def UciMove.from_chars (s : List Char) : Except UciParseError UciMove :=
  if s = ['0', '0', '0', '0'] then Except.ok .null
  else
    match s with
    | [c0, c1, c2, c3] =>
      match Sq.parse2 c0 c1 with
      | Option.none => Except.error .bad_src
      | some src =>
        match Sq.parse2 c2 c3 with
        | Option.none => Except.error .bad_dst
        | some dst => Except.ok (.move src dst Option.none)
    | [c0, c1, c2, c3, c4] =>
      match Sq.parse2 c0 c1 with
      | Option.none => Except.error .bad_src
      | some src =>
        match Sq.parse2 c2 c3 with
        | Option.none => Except.error .bad_dst
        | some dst =>
          if c4 = 'n' then Except.ok (.move src dst (some .knight))
          else if c4 = 'b' then Except.ok (.move src dst (some .bishop))
          else if c4 = 'r' then Except.ok (.move src dst (some .rook))
          else if c4 = 'q' then Except.ok (.move src dst (some .queen))
          else Except.error (.bad_promote c4)
    | _ => Except.error .bad_length

/-- Promotion kind from a piece (`MoveKind::promote_with`). -/
def MoveKind.promote_with (p : Piece) : Option MoveKind :=
  match p with
  | .knight => some .promote_knight
  | .bishop => some .promote_bishop
  | .rook => some .promote_rook
  | .queen => some .promote_queen
  | _ => Option.none

/-- Interpret a parsed UCI move on a board (`UciMove::into_move`). -/
def UciMove.into_move (u : UciMove) (b : Board) : Except MoveValidateError Move :=
  let c := b.r.side
  match u with
  | .null => Except.ok Move.null_move
  | .move src dst promote =>
    let src_cell := b.get src
    if src_cell.color ≠ some c then Except.error .not_well_formed
    else
      let kind? : Except MoveValidateError MoveKind :=
        match promote with
        | some p =>
          match MoveKind.promote_with p with
          | some k => Except.ok k
          | Option.none => Except.error .not_well_formed
        | Option.none =>
          match src_cell.piece.getD .pawn with
          | .pawn =>
            Except.ok
              (if src.rank = double_move_src_rank c ∧ dst.rank = double_move_dst_rank c then
                .pawn_double
              else if src.file ≠ dst.file ∧ b.get dst = Cell.none then .enpassant
              else .pawn_simple)
          | .king =>
            Except.ok
              (if src = Sq.make ⟨4, by decide⟩ (castling_rank c) ∧
                  dst = Sq.make ⟨6, by decide⟩ (castling_rank c) then
                .castling_kingside
              else if src = Sq.make ⟨4, by decide⟩ (castling_rank c) ∧
                  dst = Sq.make ⟨2, by decide⟩ (castling_rank c) then
                .castling_queenside
              else .simple)
          | _ => Except.ok .simple
      match kind? with
      | Except.error e => Except.error e
      | Except.ok kind => Move.new kind src dst

/-- Parse a UCI move against a board (`Move::from_uci`). -/
def Move.from_uci (s : List Char) (b : Board) : Except UciParseError Move :=
  match UciMove.from_chars s with
  | Except.error e => Except.error e
  | Except.ok u =>
    match u.into_move b with
    | Except.error e => Except.error (.validate e)
    | Except.ok m => Except.ok m

/-- Parse and fully validate a UCI move (`Move::from_uci_legal`). -/
def Move.from_uci_legal (s : List Char) (b : Board) : Except UciParseError Move :=
  match Move.from_uci s b with
  | Except.error e => Except.error e
  | Except.ok m =>
    match m.validate b with
    | Except.error e => Except.error (.validate e)
    | Except.ok _ => Except.ok m

/-- Safe UCI move application (`Board::make_uci_move`), with the final board
state as in `Board.make_move_st`. -/
def Board.make_uci_move_st (z : Zobrist) (b : Board) (s : List Char) :
    Except UciParseError Unit × Board :=
  match Move.from_uci_legal s b with
  | Except.error e => (Except.error e, b)
  | Except.ok m => (Except.ok (), (make_move_unchecked z b m).1)

/-- One reported mailbox change of the diff-notification interface: square,
old cell, new cell (`DiffListener::upd`; `add` and `del` use an empty old or
new cell). -/
structure DiffEntry where
  sq : Sq
  old : Cell
  new : Cell
deriving DecidableEq, Repr

/-- Diff notification for the mover color `c` after a move was applied
(`moves::do_diff_after_move`); `b` is the post-move board.  The listener
invocations are returned in call order. -/
def do_diff_after_move (c : Color) (b : Board) (mv : Move) (u : RawUndo) :
    List DiffEntry :=
  let src_cell := b.get mv.dst
  match mv.kind with
  | .simple | .pawn_simple | .pawn_double =>
    [⟨mv.src, src_cell, Cell.none⟩, ⟨mv.dst, u.dst_cell, src_cell⟩]
  | .promote_knight | .promote_bishop | .promote_rook | .promote_queen =>
    let pawn := Cell.make c .pawn
    [⟨mv.src, pawn, Cell.none⟩, ⟨mv.dst, u.dst_cell, src_cell⟩]
  | .castling_kingside =>
    let king := Cell.make c .king
    let rook := Cell.make c .rook
    let rank := castling_rank c
    [⟨Sq.make ⟨4, by decide⟩ rank, king, Cell.none⟩,
     ⟨Sq.make ⟨5, by decide⟩ rank, Cell.none, rook⟩,
     ⟨Sq.make ⟨6, by decide⟩ rank, Cell.none, king⟩,
     ⟨Sq.make ⟨7, by decide⟩ rank, rook, Cell.none⟩]
  | .castling_queenside =>
    let king := Cell.make c .king
    let rook := Cell.make c .rook
    let rank := castling_rank c
    [⟨Sq.make ⟨4, by decide⟩ rank, king, Cell.none⟩,
     ⟨Sq.make ⟨3, by decide⟩ rank, Cell.none, rook⟩,
     ⟨Sq.make ⟨2, by decide⟩ rank, Cell.none, king⟩,
     ⟨Sq.make ⟨0, by decide⟩ rank, rook, Cell.none⟩]
  | .enpassant =>
    let tmp := mv.dst.addU (-(pawn_forward_delta c))
    let our_pawn := Cell.make c .pawn
    let their_pawn := Cell.make c.inv .pawn
    [⟨mv.src, our_pawn, Cell.none⟩, ⟨tmp, their_pawn, Cell.none⟩,
     ⟨mv.dst, Cell.none, our_pawn⟩]
  | .null => []

/-- Diff notification after a move (`moves::diff_after_move`): the generic
color is the mover, the inverse of the post-move side to move. -/
def diff_after_move (b : Board) (mv : Move) (u : RawUndo) : List DiffEntry :=
  match b.r.side with
  | .white => do_diff_after_move .black b mv u
  | .black => do_diff_after_move .white b mv u

/-- Check classification of a position (`movegen::CheckKind`). -/
inductive CheckKind where
  | none
  | single
  | double
deriving DecidableEq, Repr

/-- Per-position move generation context (`movegen::MoveGenCtx`): the check
mask, the check kind and the hash of the position it was derived from. -/
structure MoveGenCtx where
  check_mask : Bitboard
  check : CheckKind
  hash : Nat
deriving DecidableEq, Repr

/-- Derive the context from a board (`From<&Board> for MoveGenCtx`): no
checker leaves the full board, a single checker restricts to the blocking or
capturing squares, a double check empties the mask. -/
def MoveGenCtx.of_board (b : Board) : MoveGenCtx :=
  let king := b.king_pos b.side
  let king_attackers := b.checkers
  match Bitboard.len king_attackers with
  | 0 => ⟨Bitboard.full, .none, b.hash⟩
  | 1 =>
    let checker := (Bitboard.sqList king_attackers).headD ⟨0, by decide⟩
    ⟨between.between checker king ||| king_attackers, .single, b.hash⟩
  | _ => ⟨0, .double, b.hash⟩

/-- Bit-flag test for the generation-category mask (`movegen::has_bit`). -/
def gen_has_bit (mask bit : Nat) : Bool := mask &&& bit ≠ 0

/-- The four promotion kinds in generation order (`movegen::PROMOTES`). -/
def promote_kinds : List MoveKind :=
  [.promote_knight, .promote_bishop, .promote_rook, .promote_queen]

/-- Move generation body for side `c` and category mask `mask`
(`MoveGen::do_gen2`): bits 1/2/4/8 request simple moves, captures, simple
promotions and castling.  Moves are returned in exactly the source's push
order; bitboard iteration is lowest square index first. -/
def do_gen2 (b : Board) (ctx : MoveGenCtx) (c : Color) (mask : Nat) : List Move :=
  let all := b.all
  let piece_segs : List Move :=
    if gen_has_bit mask 1 || gen_has_bit mask 2 then
      let raw_dst_mask :=
        match gen_has_bit mask 1, gen_has_bit mask 2 with
        | true, true => Bitboard.compl (b.color c)
        | true, false => Bitboard.compl all
        | false, true => b.color c.inv
        | false, false => 0
      let dst_mask := raw_dst_mask &&& ctx.check_mask
      ((Bitboard.sqList (b.piece c .king)).flatMap fun s =>
        (Bitboard.sqList (attack.king s &&& raw_dst_mask)).map fun d =>
          (⟨.simple, s, d⟩ : Move)) ++
      ((Bitboard.sqList (b.piece c .queen)).flatMap fun s =>
        (Bitboard.sqList ((attack.rook s all ||| attack.bishop s all) &&& dst_mask)).map
          fun d => (⟨.simple, s, d⟩ : Move)) ++
      ((Bitboard.sqList (b.piece c .rook)).flatMap fun s =>
        (Bitboard.sqList (attack.rook s all &&& dst_mask)).map fun d =>
          (⟨.simple, s, d⟩ : Move)) ++
      ((Bitboard.sqList (b.piece c .bishop)).flatMap fun s =>
        (Bitboard.sqList (attack.bishop s all &&& dst_mask)).map fun d =>
          (⟨.simple, s, d⟩ : Move)) ++
      ((Bitboard.sqList (b.piece c .knight)).flatMap fun s =>
        (Bitboard.sqList (attack.knight s &&& dst_mask)).map fun d =>
          (⟨.simple, s, d⟩ : Move))
    else []
  let pawn := b.piece c .pawn
  let promote := rank_bb (promote_src_rank c)
  let pawn_push_segs : List Move :=
    if gen_has_bit mask 1 || gen_has_bit mask 4 then
      let double := rank_bb (double_move_src_rank c)
      let df := -(pawn_forward_delta c)
      let dst_mask := ctx.check_mask
      (if gen_has_bit mask 1 then
        ((Bitboard.sqList
            (advance_forward c (pawn &&& Bitboard.compl promote) &&&
              Bitboard.compl all &&& dst_mask)).map fun d =>
          (⟨.pawn_simple, d.addU df, d⟩ : Move)) ++
        (let pawn_tmp := advance_forward c (pawn &&& double) &&& Bitboard.compl all;
          (Bitboard.sqList
              (advance_forward c pawn_tmp &&& Bitboard.compl all &&& dst_mask)).map
            fun d => (⟨.pawn_double, d.addU (2 * df), d⟩ : Move))
      else []) ++
      (if gen_has_bit mask 4 then
        (Bitboard.sqList
            (advance_forward c (pawn &&& promote) &&& Bitboard.compl all &&&
              dst_mask)).flatMap fun d =>
          promote_kinds.map fun pr => (⟨pr, d.addU df, d⟩ : Move)
      else [])
    else []
  let pawn_capture_segs : List Move :=
    if gen_has_bit mask 2 then
      let dst_mask := b.color c.inv &&& ctx.check_mask
      let dl := -(pawn_left_delta c)
      let dr := -(pawn_right_delta c)
      ((Bitboard.sqList (advance_left c (pawn &&& Bitboard.compl promote) &&& dst_mask)).map
        fun d => (⟨.pawn_simple, d.addU dl, d⟩ : Move)) ++
      ((Bitboard.sqList (advance_right c (pawn &&& Bitboard.compl promote) &&& dst_mask)).map
        fun d => (⟨.pawn_simple, d.addU dr, d⟩ : Move)) ++
      ((Bitboard.sqList (advance_left c (pawn &&& promote) &&& dst_mask)).flatMap fun d =>
        promote_kinds.map fun pr => (⟨pr, d.addU dl, d⟩ : Move)) ++
      ((Bitboard.sqList (advance_right c (pawn &&& promote) &&& dst_mask)).flatMap fun d =>
        promote_kinds.map fun pr => (⟨pr, d.addU dr, d⟩ : Move)) ++
      (match b.r.ep_src with
      | some ep =>
        let dst := ep.addU (pawn_forward_delta c)
        let lp := ep.addU (-1)
        let rp := ep.addU 1
        let pc := Cell.make c .pawn
        (if ep.file.val ≠ 0 ∧ b.get lp = pc then [(⟨.enpassant, lp, dst⟩ : Move)] else []) ++
        (if ep.file.val ≠ 7 ∧ b.get rp = pc then [(⟨.enpassant, rp, dst⟩ : Move)] else [])
      | Option.none => [])
    else []
  let castling_segs : List Move :=
    if gen_has_bit mask 8 && ctx.check = CheckKind.none && b.r.castling.has_color c then
      let rank := castling_rank c
      let inv := c.inv
      let src := Sq.make ⟨4, by decide⟩ rank
      (if b.r.castling.has c .queen &&
          (castling.pass c .queen &&& all = 0) &&
          !(is_square_attacked b (Sq.make ⟨3, by decide⟩ rank) inv) then
        [(⟨.castling_queenside, src, Sq.make ⟨2, by decide⟩ rank⟩ : Move)]
      else []) ++
      (if b.r.castling.has c .king &&
          (castling.pass c .king &&& all = 0) &&
          !(is_square_attacked b (Sq.make ⟨5, by decide⟩ rank) inv) then
        [(⟨.castling_kingside, src, Sq.make ⟨6, by decide⟩ rank⟩ : Move)]
      else [])
    else []
  piece_segs ++ pawn_push_segs ++ pawn_capture_segs ++ castling_segs

/-- Generation for the side to move (`MoveGen::do_gen`). -/
def do_gen (b : Board) (ctx : MoveGenCtx) (mask : Nat) : List Move :=
  do_gen2 b ctx b.side mask

/-- Generate all move categories (`MoveGen::gen_all`), with the context
derived from the board as `MoveGen::new` does. -/
def gen_all (b : Board) : List Move :=
  do_gen b (MoveGenCtx.of_board b) 15

/-- Typed error of raw-board validation (`board::ValidateError`). -/
inductive BoardValidateError where
  | bad_enpassant (s : Sq)
  | too_many_pieces (c : Color)
  | no_king (c : Color)
  | too_many_kings (c : Color)
  | bad_pawn (s : Sq)
  | opponent_king_attacked
deriving DecidableEq, Repr

/-- En-passant step of `TryFrom<RawBoard> for Board`: a source square on the
wrong rank is rejected; otherwise the en-passant field is cleared when the
mailbox has no opposite-side pawn there or the square on the pawn's path is
occupied. -/
def validate_ep (raw : RawBoard) : Except BoardValidateError RawBoard :=
  match raw.ep_src with
  | Option.none => Except.ok raw
  | some p =>
    if p.rank ≠ ep_src_rank raw.side then Except.error (.bad_enpassant p)
    else
      let pp := p.addU (pawn_forward_delta raw.side)
      if raw.get p ≠ Cell.make raw.side.inv .pawn ∨ raw.get pp ≠ Cell.none then
        Except.ok { raw with ep_src := Option.none }
      else Except.ok raw

/-- Castling normalization of one color in `TryFrom<RawBoard> for Board`:
clear any right whose king or rook is not on its home square. -/
def fix_castling_color (raw : RawBoard) (c : Color) : RawBoard :=
  let rank := castling_rank c
  let cr := raw.castling
  let cr :=
    if raw.get (Sq.make ⟨4, by decide⟩ rank) ≠ Cell.make c .king then
      (cr.without c .queen).without c .king
    else cr
  let cr :=
    if raw.get (Sq.make ⟨0, by decide⟩ rank) ≠ Cell.make c .rook then cr.without c .queen
    else cr
  let cr :=
    if raw.get (Sq.make ⟨7, by decide⟩ rank) ≠ Cell.make c .rook then cr.without c .king
    else cr
  { raw with castling := cr }

/-- Castling normalization of both colors. -/
def fix_castling (raw : RawBoard) : RawBoard :=
  fix_castling_color (fix_castling_color raw .white) .black

/-- Per-cell bitboards recomputed from a mailbox; the source never sets a bit
in the `Cell::None` entry. -/
def cells_of_squares (sq : Sq → Cell) (c : Cell) : Bitboard :=
  if c = Cell.none then 0 else bb_of_pred fun s => sq s = c

/-- Occupancy bitboard of one color recomputed from a mailbox. -/
def color_bb_of_squares (sq : Sq → Cell) (c : Color) : Bitboard :=
  bb_of_pred fun s => (sq s).color = some c

/-- Squares no pawn may occupy (ranks 1 and 8; `BAD_PAWN_POSES`). -/
def bad_pawn_poses : Bitboard := 0xff000000000000ff

/-- Validating conversion (`TryFrom<RawBoard> for Board`): normalize
en-passant and castling, build the bitboard cache and hash, and reject
structurally invalid positions. -/
def Board.try_from (z : Zobrist) (raw0 : RawBoard) : Except BoardValidateError Board :=
  match validate_ep raw0 with
  | Except.error e => Except.error e
  | Except.ok raw1 =>
    let raw := fix_castling raw1
    let white := color_bb_of_squares raw.squares .white
    let black := color_bb_of_squares raw.squares .black
    let cells := cells_of_squares raw.squares
    if h16w : 16 < Bitboard.len white then Except.error (.too_many_pieces .white)
    else if h16b : 16 < Bitboard.len black then Except.error (.too_many_pieces .black)
    else if hwk0 : cells Cell.wk = 0 then Except.error (.no_king .white)
    else if hbk0 : cells Cell.bk = 0 then Except.error (.no_king .black)
    else if hwk1 : 1 < Bitboard.len (cells Cell.wk) then Except.error (.too_many_kings .white)
    else if hbk1 : 1 < Bitboard.len (cells Cell.bk) then Except.error (.too_many_kings .black)
    else
      let bad_pawns := (cells Cell.wp ||| cells Cell.bp) &&& bad_pawn_poses
      if hbp : bad_pawns ≠ 0 then
        Except.error (.bad_pawn ((Bitboard.sqList bad_pawns).headD ⟨0, by decide⟩))
      else
        let res : Board :=
          { r := raw
            hash := raw.zobrist_hash z
            white := white
            black := black
            cells := cells
            all_v := white ||| black }
        if hok : res.is_opponent_king_attacked then Except.error .opponent_king_attacked
        else Except.ok res

/-- A board obtained from the validating conversion. -/
def is_valid_board (z : Zobrist) (b : Board) : Prop :=
  ∃ raw, Board.try_from z raw = Except.ok b

/-- Typed error of the mailbox part of FEN parsing (`SquaresParseError`); the
rank payloads carry the raw rank index of the parser state. -/
inductive SquaresParseError where
  | rank_overflow (r : Nat)
  | rank_underflow (r : Nat)
  | overflow
  | underflow
  | unexpected_char (c : Char)
deriving DecidableEq, Repr

/-- State machine of `board::parse_squares`: run-length decoding of the
64-cell mailbox.  `file`, `rank` and `pos` mirror the source's counters; the
write index stays below 64 whenever the source would not have errored. -/
def parse_squares_go (chars : List Char) (file rank pos : Nat) (sq : Sq → Cell) :
    Except SquaresParseError (Sq → Cell) :=
  match chars with
  | [] =>
    if file < 8 then Except.error (.rank_underflow rank)
    else if rank < 7 then Except.error .underflow
    else Except.ok sq
  | b :: rest =>
    if 49 ≤ b.toNat ∧ b.toNat ≤ 56 then
      let add := b.toNat - 48
      if 8 < file + add then Except.error (.rank_overflow rank)
      else parse_squares_go rest (file + add) rank (pos + add) sq
    else if b = '/' then
      if file < 8 then Except.error (.rank_underflow rank)
      else if 8 ≤ rank + 1 then Except.error .overflow
      else parse_squares_go rest 0 (rank + 1) pos sq
    else if 8 ≤ file then Except.error (.rank_overflow rank)
    else
      match Cell.from_char b with
      | Option.none => Except.error (.unexpected_char b)
      | some cell =>
        parse_squares_go rest (file + 1) rank (pos + 1)
          (Function.update sq ⟨pos % 64, Nat.mod_lt _ (by omega)⟩ cell)

/-- Parse the mailbox field of a FEN string (`board::parse_squares`). -/
def parse_squares (chars : List Char) : Except SquaresParseError (Sq → Cell) :=
  parse_squares_go chars 0 0 0 fun _ => Cell.none

/-- Typed error of color parsing (`ColorParseError`). -/
inductive ColorParseError where
  | bad_char (c : Char)
  | bad_length
deriving DecidableEq, Repr

/-- Parse the side field (`FromStr for Color`). -/
def parse_color (s : List Char) : Except ColorParseError Color :=
  match s with
  | [c] =>
    match Color.from_char c with
    | some col => Except.ok col
    | Option.none => Except.error (.bad_char c)
  | _ => Except.error .bad_length

/-- Typed error of castling-rights parsing (`CastlingRightsParseError`). -/
inductive CastlingRightsParseError where
  | bad_char (c : Char)
  | duplicate_char (c : Char)
  | empty_string
deriving DecidableEq, Repr

/-- Character loop of `FromStr for CastlingRights`. -/
def parse_castling_go (chars : List Char) (res : CastlingRights) :
    Except CastlingRightsParseError CastlingRights :=
  match chars with
  | [] => Except.ok res
  | b :: rest =>
    let cs? : Option (Color × CastlingSide) :=
      if b = 'K' then some (.white, .king)
      else if b = 'Q' then some (.white, .queen)
      else if b = 'k' then some (.black, .king)
      else if b = 'q' then some (.black, .queen)
      else Option.none
    match cs? with
    | Option.none => Except.error (.bad_char b)
    | some (c, side) =>
      if res.has c side then Except.error (.duplicate_char b)
      else parse_castling_go rest (res.with c side)

/-- Parse the castling field (`FromStr for CastlingRights`). -/
def parse_castling (s : List Char) : Except CastlingRightsParseError CastlingRights :=
  if s = ['-'] then Except.ok CastlingRights.empty
  else if s = [] then Except.error .empty_string
  else parse_castling_go s CastlingRights.empty

/-- Typed error of square parsing (`SqParseError`). -/
inductive SqParseError where
  | bad_file_char (c : Char)
  | bad_rank_char (c : Char)
  | bad_length
deriving DecidableEq, Repr

/-- Parse a square string (`FromStr for Sq`). -/
def parse_sq (s : List Char) : Except SqParseError Sq :=
  match s with
  | [cf, cr] =>
    match File.from_char cf with
    | Option.none => Except.error (.bad_file_char cf)
    | some f =>
      match Rank.from_char cr with
      | Option.none => Except.error (.bad_rank_char cr)
      | some r => Except.ok (Sq.make f r)
  | _ => Except.error .bad_length

/-- Typed error of raw FEN parsing (`RawFenParseError`). -/
inductive RawFenParseError where
  | non_ascii
  | no_board
  | board (e : SquaresParseError)
  | no_move_side
  | move_side (e : ColorParseError)
  | no_castling
  | castling (e : CastlingRightsParseError)
  | no_enpassant
  | enpassant (e : SqParseError)
  | bad_enpassant_rank (r : Rank)
  | move_counter_err
  | move_number_err
  | extra_data
deriving DecidableEq, Repr

/-- Parse the en-passant field (`board::parse_ep_src`): `-` or the capture
square, whose rank must match the side to move; the stored source square is
on the en-passant source rank of the same file. -/
def parse_ep_src (s : List Char) (side : Color) :
    Except RawFenParseError (Option Sq) :=
  if s = ['-'] then Except.ok Option.none
  else
    match parse_sq s with
    | Except.error e => Except.error (.enpassant e)
    | Except.ok ep =>
      if ep.rank ≠ ep_dst_rank side then Except.error (.bad_enpassant_rank ep.rank)
      else Except.ok (some (Sq.make ep.file (ep_src_rank side)))

/-- Decimal digits accumulator of `u16::from_str`-style parsing. -/
def parse_u16 (s : List Char) : Option Nat :=
  let s2 := match s with
    | '+' :: rest => rest
    | _ => s
  if s2 = [] then Option.none
  else if s2.all (fun ch => 48 ≤ ch.toNat && ch.toNat ≤ 57) then
    let v := s2.foldl (fun acc ch => acc * 10 + (ch.toNat - 48)) 0
    if v < 65536 then some v else Option.none
  else Option.none

/-- Split on single spaces, Rust `str::split(' ')` semantics: adjacent
separators and boundary separators produce empty parts. -/
def split_spaces_go : List Char → List Char → List (List Char)
  | [], cur => [cur.reverse]
  | c :: rest, cur =>
    if c = ' ' then cur.reverse :: split_spaces_go rest []
    else split_spaces_go rest (c :: cur)

/-- Split a character list on spaces. -/
def split_spaces (s : List Char) : List (List Char) := split_spaces_go s []

/-- Parse a FEN string into a raw board (`FromStr for RawBoard`): ASCII check,
then the six space-separated fields, the last two optional with defaults 0
and 1, rejecting trailing fields. -/
def raw_board_from_fen (s : List Char) : Except RawFenParseError RawBoard :=
  if ¬ (s.all fun c => c.toNat ≤ 127) then Except.error .non_ascii
  else
    match split_spaces s with
    | [] => Except.error .no_board
    | board_s :: rest0 =>
      match parse_squares board_s with
      | Except.error e => Except.error (.board e)
      | Except.ok squares =>
        match rest0 with
        | [] => Except.error .no_move_side
        | side_s :: rest1 =>
          match parse_color side_s with
          | Except.error e => Except.error (.move_side e)
          | Except.ok side =>
            match rest1 with
            | [] => Except.error .no_castling
            | cast_s :: rest2 =>
              match parse_castling cast_s with
              | Except.error e => Except.error (.castling e)
              | Except.ok castling =>
                match rest2 with
                | [] => Except.error .no_enpassant
                | ep_s :: rest3 =>
                  match parse_ep_src ep_s side with
                  | Except.error e => Except.error e
                  | Except.ok ep_src =>
                    match rest3 with
                    | [] =>
                      Except.ok
                        { squares := squares, side := side, castling := castling
                          ep_src := ep_src, move_counter := 0, move_number := 1 }
                    | mc_s :: rest4 =>
                      match parse_u16 mc_s with
                      | Option.none => Except.error .move_counter_err
                      | some mc =>
                        match rest4 with
                        | [] =>
                          Except.ok
                            { squares := squares, side := side, castling := castling
                              ep_src := ep_src, move_counter := mc, move_number := 1 }
                        | mn_s :: rest5 =>
                          match parse_u16 mn_s with
                          | Option.none => Except.error .move_number_err
                          | some mn =>
                            if rest5 ≠ [] then Except.error .extra_data
                            else
                              Except.ok
                                { squares := squares, side := side, castling := castling
                                  ep_src := ep_src, move_counter := mc, move_number := mn }

/-- Run-length encoding of one rank's cells (the per-rank loop of
`board::format_squares`): `e` is the count of pending empty squares. -/
def rle_cells : List Cell → Nat → List Char
  | [], e => if e ≠ 0 then [Char.ofNat (48 + e)] else []
  | c :: rest, e =>
    if c = Cell.none then rle_cells rest (e + 1)
    else
      (if e ≠ 0 then [Char.ofNat (48 + e)] else []) ++ c.as_char :: rle_cells rest 0

/-- Cells of one rank in file order. -/
def rank_cells (sq : Sq → Cell) (r : Rank) : List Cell :=
  (List.finRange 8).map fun f => sq (Sq.make f r)

/-- Format the mailbox field of a FEN string (`board::format_squares`). -/
def format_squares (sq : Sq → Cell) : List Char :=
  (List.intercalate ['/']
    ((List.finRange 8).map fun r => rle_cells (rank_cells sq r) 0))

/-- Decimal digits of a positive number, most significant first. -/
def dec_chars_pos (n : Nat) : List Char :=
  if h : n = 0 then []
  else dec_chars_pos (n / 10) ++ [Char.ofNat (48 + n % 10)]
decreasing_by exact Nat.div_lt_self (by omega) (by omega)

/-- Decimal representation of a number (Rust `Display` for integers). -/
def dec_chars (n : Nat) : List Char :=
  if n = 0 then ['0'] else dec_chars_pos n

/-- Format the castling field (`Display for CastlingRights`): `-` when empty,
else the held rights in `KQkq` order. -/
def format_castling (cr : CastlingRights) : List Char :=
  if cr = CastlingRights.empty then ['-']
  else
    (if cr.has .white .king then ['K'] else []) ++
    (if cr.has .white .queen then ['Q'] else []) ++
    (if cr.has .black .king then ['k'] else []) ++
    (if cr.has .black .queen then ['q'] else [])

/-- Format a raw board as a FEN string (`Display for RawBoard`): mailbox,
side, castling, en-passant destination (or `-`), halfmove clock, fullmove
number, space separated. -/
def raw_board_to_fen (r : RawBoard) : List Char :=
  format_squares r.squares ++
  [' ', r.side.as_char, ' '] ++
  format_castling r.castling ++
  [' '] ++
  (match r.ep_dst with
    | some p => [p.file.as_char, p.rank.as_char]
    | Option.none => ['-']) ++
  [' '] ++ dec_chars r.move_counter ++ [' '] ++ dec_chars r.move_number

/-- Cache-consistency invariant of a board: the hash and every cached
bitboard equal their from-scratch recomputation from the mailbox. -/
def board_consistent (z : Zobrist) (b : Board) : Prop :=
  b.hash = b.r.zobrist_hash z ∧
  b.white = color_bb_of_squares b.r.squares .white ∧
  b.black = color_bb_of_squares b.r.squares .black ∧
  b.cells = cells_of_squares b.r.squares ∧
  b.all_v = b.white ||| b.black

/-- En-passant invariant of a validated board: a stored source square is on
the en-passant source rank, holds an opponent pawn, and the square on its
path is empty. -/
def ep_ok (r : RawBoard) : Prop :=
  ∀ p : Sq, r.ep_src = some p →
    p.rank = ep_src_rank r.side ∧
    r.squares p = Cell.make r.side.inv .pawn ∧
    r.squares (p.addU (pawn_forward_delta r.side)) = Cell.none

/-- Home square of the rook of one castling right. -/
def rook_home (c : Color) (s : CastlingSide) : Sq :=
  match s with
  | .queen => Sq.make ⟨0, by decide⟩ (castling_rank c)
  | .king => Sq.make ⟨7, by decide⟩ (castling_rank c)

/-- Castling invariant of a validated board: every held right has its king
and rook on their home squares. -/
def castling_ok (r : RawBoard) : Prop :=
  ∀ (c : Color) (s : CastlingSide), r.castling.has c s = true →
    r.squares (Sq.make ⟨4, by decide⟩ (castling_rank c)) = Cell.make c .king ∧
    r.squares (rook_home c s) = Cell.make c .rook

instance exceptDecEq {e a : Type} [DecidableEq e] [DecidableEq a] :
    DecidableEq (Except e a)
  | Except.error x, Except.error y => decidable_of_iff (x = y) (by simp)
  | Except.error _, Except.ok _ => isFalse (by simp)
  | Except.ok _, Except.error _ => isFalse (by simp)
  | Except.ok x, Except.ok y => decidable_of_iff (x = y) (by simp)

/-- Board used by the C1/C2 counterexamples: the start position with the b8
knight placed on b5 (square indices 1 and 25). -/
def cex_pd_raw : RawBoard :=
  { RawBoard.start with squares := fun s =>
      if s.val = 1 then Cell.none
      else if s.val = 25 then Cell.bn
      else RawBoard.start.squares s }

/-- Move used by the C1/C2 counterexamples: a `PawnDouble` from b2 (index 49)
to b5 (index 25).  It is not well-formed (the destination rank is wrong), but
it is constructible through the safe `From<PackedMove>` conversion, and
`Move::validate` never checks well-formedness. -/
def cex_pd_move : Move := ⟨.pawn_double, ⟨49, by decide⟩, ⟨25, by decide⟩⟩

/-- The validated counterexample board. -/
def cex_pd_board : Board :=
  match Board.try_from zW cex_pd_raw with
  | Except.ok b => b
  | Except.error _ =>
    { r := cex_pd_raw, hash := 0, white := 0, black := 0, cells := fun _ => 0, all_v := 0 }

/-- The start-position board, built through the validating conversion. -/
def start_board (z : Zobrist) : Board :=
  match Board.try_from z RawBoard.start with
  | Except.ok b => b
  | Except.error _ =>
    { r := RawBoard.start, hash := 0, white := 0, black := 0, cells := fun _ => 0, all_v := 0 }

/-- Raw board of the C6 counterexample: the start position with an extra
White pawn on b5 (index 25) and the b1 knight (index 57) removed to keep the
piece count at sixteen. -/
def cex6_raw : RawBoard :=
  { RawBoard.start with squares := fun s =>
      if s.val = 25 then Cell.wp
      else if s.val = 57 then Cell.none
      else RawBoard.start.squares s }

/-- Board of the C6 counterexample (the raw board above is structurally
valid, so the conversion succeeds and this is its result). -/
def cex6_board : Board :=
  match Board.try_from zW cex6_raw with
  | Except.ok b => b
  | Except.error _ =>
    { r := RawBoard.start, hash := 0, white := 0, black := 0, cells := fun _ => 0,
      all_v := 0 }

/-- Raw board of the C3 counterexample: White king h4 in double check from
the h8 rook and the g6 knight, with a legal en-passant opportunity e5xd6
(Black just played d7-d5). -/
def cex3_raw : RawBoard :=
  { squares := fun s =>
      if s.val = 0 then Cell.bk
      else if s.val = 7 then Cell.br
      else if s.val = 22 then Cell.bn
      else if s.val = 27 then Cell.bp
      else if s.val = 28 then Cell.wp
      else if s.val = 39 then Cell.wk
      else Cell.none
    side := Color.white
    castling := CastlingRights.empty
    ep_src := some ⟨27, by decide⟩
    move_counter := 0
    move_number := 1 }

/-- Board of the C3 counterexample (the conversion succeeds). -/
def cex3_board : Board :=
  match Board.try_from zW cex3_raw with
  | Except.ok b => b
  | Except.error _ =>
    { r := RawBoard.start, hash := 0, white := 0, black := 0, cells := fun _ => 0,
      all_v := 0 }

/-! Theorems.  First a small library of bit-level lemmas, then the claims. -/

theorem zW_wf : zW.wf := by
  refine ⟨fun i => by simp [zW], fun c => ?_, fun c => ?_⟩ <;> cases c <;> decide

theorem testBit_ge {x n : Nat} (i : Nat) (hx : x < 2 ^ n) (h : n ≤ i) :
    x.testBit i = false :=
  Nat.testBit_lt_two_pow
    (lt_of_lt_of_le hx (Nat.pow_le_pow_right (by norm_num) h))

theorem tb_sum (a b k i : Nat) (hb : b < 2 ^ k) :
    (a * 2 ^ k + b).testBit i = if i < k then b.testBit i else a.testBit (i - k) := by
  rcases lt_or_ge i k with h | h
  · rw [if_pos h, Nat.testBit_to_div_mod, Nat.testBit_to_div_mod]
    have h1 : a * 2 ^ k + b = b + a * 2 ^ (k - i - 1) * 2 * 2 ^ i := by
      have : 2 ^ k = 2 ^ (k - i - 1) * 2 * 2 ^ i := by
        rw [mul_assoc, ← pow_succ']
        rw [← pow_add]
        congr 1
        omega
      rw [this]
      ring
    rw [h1, Nat.add_mul_div_right _ _ (by positivity : (0:Nat) < 2 ^ i),
      Nat.add_mul_mod_self_right]
  · rw [if_neg (by omega), Nat.testBit_to_div_mod, Nat.testBit_to_div_mod]
    have h1 : (2:Nat) ^ i = 2 ^ k * 2 ^ (i - k) := by
      rw [← pow_add]
      congr 1
      omega
    rw [h1, ← Nat.div_div_eq_div_mul]
    have h2 : a * 2 ^ k + b = b + a * 2 ^ k := by ring
    rw [h2, Nat.add_mul_div_right _ _ (by positivity : (0:Nat) < 2 ^ k),
      Nat.div_eq_of_lt hb, Nat.zero_add]

theorem or_eq_add (a b k : Nat) (hb : b < 2 ^ k) :
    (a <<< k) ||| b = a * 2 ^ k + b := by
  apply Nat.eq_of_testBit_eq
  intro i
  rw [Nat.testBit_or, Nat.testBit_shiftLeft, tb_sum a b k i hb]
  rcases lt_or_ge i k with h | h
  · have : decide (k ≤ i) = false := by simp; omega
    simp [this, if_pos h]
  · have : decide (k ≤ i) = true := by simp; omega
    simp [this, if_neg (by omega : ¬ i < k), testBit_ge i hb h]

theorem pack_val (m : Move) :
    (Move.pack m).val = m.kind.index * 4096 + m.src.val * 64 + m.dst.val := by
  have hd := m.dst.isLt
  have hs := m.src.isLt
  have hk : m.kind.index ≤ 10 := by cases m.kind <;> decide
  show ((m.kind.index <<< 12) ||| (m.src.val <<< 6) ||| m.dst.val) % 2 ^ 16 = _
  rw [Nat.or_assoc, or_eq_add m.src.val m.dst.val 6 (by omega),
    or_eq_add m.kind.index _ 12 (by norm_num; omega)]
  have : m.kind.index * 2 ^ 12 + (m.src.val * 2 ^ 6 + m.dst.val) < 2 ^ 16 := by
    norm_num
    omega
  rw [Nat.mod_eq_of_lt this]
  norm_num
  omega

/-- C8: converting any move to its 16-bit packed form and back yields the
original move; the packed encoding of kind, source and destination is
lossless. -/
theorem c8_packed_move_roundtrip (m : Move) : (Move.pack m).unpack = m := by
  obtain ⟨k, s, d⟩ := m
  have hval := pack_val ⟨k, s, d⟩
  dsimp only at hval
  have hd := d.isLt
  have hs := s.isLt
  have hk : k.index ≤ 10 := by cases k <;> decide
  have hand : ∀ x : Nat, x &&& 63 = x % 64 := fun x => by
    have h63 : (63 : Nat) = 2 ^ 6 - 1 := by norm_num
    rw [h63, Nat.and_pow_two_sub_one_eq_mod]
  have hdst : (Move.pack ⟨k, s, d⟩).val &&& 63 = d.val := by
    rw [hand, hval]
    omega
  have hsrc : ((Move.pack ⟨k, s, d⟩).val >>> 6) &&& 63 = s.val := by
    rw [hand, Nat.shiftRight_eq_div_pow, hval]
    have h64 : (2:Nat) ^ 6 = 64 := by norm_num
    rw [h64]
    omega
  have hkind : (Move.pack ⟨k, s, d⟩).val >>> 12 = k.index := by
    rw [Nat.shiftRight_eq_div_pow, hval]
    have h4096 : (2:Nat) ^ 12 = 4096 := by norm_num
    rw [h4096]
    omega
  have hik : MoveKind.from_index_unchecked k.index = k := by cases k <;> rfl
  unfold PackedMove.unpack
  simp only [hdst, hsrc, hkind, hik, Fin.eta]

/-- C9: the safe entry point `Board::make_move` is atomic on error — when
validation fails, the returned board state is exactly the input board, since
validation runs before any mutation. -/
theorem c9_make_move_atomic (z : Zobrist) (b : Board) (mv : Move)
    (e : MoveValidateError) (h : (Board.make_move_st z b mv).1 = Except.error e) :
    (Board.make_move_st z b mv).2 = b := by
  unfold Board.make_move_st at *
  cases hv : mv.validate b with
  | error e2 => simp [hv]
  | ok u => simp [hv] at h

/-- Witness for C9 at a concrete input: a board on which the null move fails
validation, left unchanged by `make_move`. -/
theorem c9_make_move_atomic_witness :
    (Board.make_move_st zW
      { r := RawBoard.empty, hash := 0, white := 0, black := 0,
        cells := fun _ => 0, all_v := 0 } Move.null_move).1 =
        Except.error .not_semi_legal ∧
    (Board.make_move_st zW
      { r := RawBoard.empty, hash := 0, white := 0, black := 0,
        cells := fun _ => 0, all_v := 0 } Move.null_move).2 =
      { r := RawBoard.empty, hash := 0, white := 0, black := 0,
        cells := fun _ => 0, all_v := 0 } := by
  constructor
  · rfl
  · exact c9_make_move_atomic zW _ Move.null_move .not_semi_legal (by rfl)

/-- C10: the null move is never accepted by the safe interfaces — it is not
semilegal on any board, `make_move` rejects it with `NotSemiLegal`, and
`make_uci_move "0000"` fails although `"0000"` parses as the null move. -/
theorem c10_null_move_never_accepted (z : Zobrist) (b : Board) :
    Move.null_move.is_semilegal b = false ∧
    Board.make_move_st z b Move.null_move = (Except.error .not_semi_legal, b) ∧
    Board.make_uci_move_st z b ['0', '0', '0', '0'] =
      (Except.error (.validate .not_semi_legal), b) ∧
    UciMove.from_chars ['0', '0', '0', '0'] = Except.ok .null := by
  refine ⟨rfl, ?_, ?_, rfl⟩
  · unfold Board.make_move_st Move.validate Move.semi_validate
    rfl
  · unfold Board.make_uci_move_st Move.from_uci_legal Move.from_uci
    rfl

/-- C5 (code evaluation at the failing input): the standard start position is
a valid board whose halfmove clock is 0; applying the null move through
`make_move_unchecked` leaves the clock at 0 instead of incrementing it to 1.
The null move's placeholder source and destination square is index 0 (a8),
`do_make_move` reads the capture cell from `mv.dst`, and a8 holds a black
rook in the start position, so the capture branch of the halfmove-clock
update fires for a move that captures nothing. -/
theorem c5_null_move_clock_eval :
    Board.try_from zW RawBoard.start = Except.ok (start_board zW) ∧
    (start_board zW).r.move_counter = 0 ∧
    (start_board zW).get ⟨0, by decide⟩ = Cell.br ∧
    Move.null_move.dst = (⟨0, by decide⟩ : Sq) ∧
    (make_move_unchecked zW (start_board zW) Move.null_move).1.r.move_counter = 0 ∧
    (make_move_unchecked zW (start_board zW) Move.null_move).1.r.side = Color.black := by
  refine ⟨by rfl, by rfl, by rfl, by rfl, by decide, by decide⟩

theorem pawny_lt_two_pow_of_high_bits {x n : Nat}
    (h : ∀ i, n ≤ i → x.testBit i = false) : x < 2 ^ n := by
  rcases Nat.lt_or_ge x (2 ^ n) with h1 | h1
  · exact h1
  · obtain ⟨j, hj, hb⟩ := Nat.ge_two_pow_implies_high_bit_true h1
    rw [h j hj] at hb
    cases hb

theorem one_testBit (t : Sq) (i : Nat) :
    (Bitboard.one t).testBit i = decide (t.val = i) := by
  unfold Bitboard.one
  rw [Nat.one_shiftLeft, Nat.testBit_two_pow]

theorem xor_left_comm (a b c : Nat) : a ^^^ (b ^^^ c) = b ^^^ (a ^^^ c) := by
  rw [← Nat.xor_assoc, Nat.xor_comm a b, Nat.xor_assoc]

theorem one_lt (t : Sq) : Bitboard.one t < 2 ^ 64 := by
  apply pawny_lt_two_pow_of_high_bits
  intro i hi
  rw [one_testBit]
  have := t.isLt
  simp only [decide_eq_false_iff_not]
  omega

theorem compl_testBit (b : Bitboard) (i : Nat) :
    (Bitboard.compl b).testBit i = ((b.testBit i).not && decide (i < 64) ||
      b.testBit i && decide (64 ≤ i)) := by
  unfold Bitboard.compl
  rw [Nat.testBit_xor]
  have h1 : ((2 : Nat) ^ 64 - 1).testBit i = decide (i < 64) := by
    rw [Nat.testBit_two_pow_sub_one]
  rw [h1]
  rcases Nat.lt_or_ge i 64 with h | h
  · have hd1 : decide (i < 64) = true := by simp [h]
    have hd2 : decide (64 ≤ i) = false := by simp only [decide_eq_false_iff_not]; omega
    rw [hd1, hd2]
    cases hb : b.testBit i <;> rfl
  · have hd1 : decide (i < 64) = false := by simp only [decide_eq_false_iff_not]; omega
    have hd2 : decide (64 ≤ i) = true := by simp [h]
    rw [hd1, hd2]
    cases hb : b.testBit i <;> rfl

theorem foldl_withSq_testBit (p : Sq → Bool) (l : List Sq) (acc : Bitboard) (i : Nat) :
    (l.foldl (fun a t => if p t then Bitboard.withSq a t else a) acc).testBit i =
      (acc.testBit i || l.any fun t => p t && decide (t.val = i)) := by
  induction l generalizing acc with
  | nil => simp
  | cons t rest ih =>
    rw [List.foldl_cons, List.any_cons]
    by_cases hp : p t
    · rw [if_pos hp, ih]
      unfold Bitboard.withSq
      rw [Nat.testBit_or, Nat.one_shiftLeft, Nat.testBit_two_pow, hp]
      cases h : decide (t.val = i) <;>
        simp [Bool.or_comm, Bool.or_assoc, Bool.or_left_comm]
    · rw [if_neg hp, ih]
      have hp2 : p t = false := by
        cases hpt : p t
        · rfl
        · exact absurd hpt hp
      rw [hp2]
      simp

theorem bb_of_pred_testBit (p : Sq → Bool) (i : Nat) :
    (bb_of_pred p).testBit i = if h : i < 64 then p ⟨i, h⟩ else false := by
  unfold bb_of_pred
  rw [foldl_withSq_testBit]
  simp only [Nat.zero_testBit, Bool.false_or]
  rcases Nat.lt_or_ge i 64 with h | h
  · rw [dif_pos h]
    cases hpi : p ⟨i, h⟩
    · rw [List.any_eq_false]
      intro t _
      by_cases ht : t.val = i
      · have hti : t = ⟨i, h⟩ := Fin.ext ht
        rw [hti, hpi]
        simp
      · simp [ht]
    · rw [List.any_eq_true]
      exact ⟨⟨i, h⟩, List.mem_finRange _, by simp [hpi]⟩
  · rw [dif_neg (by omega)]
    rw [List.any_eq_false]
    intro t _
    have ht := t.isLt
    have htne : t.val ≠ i := by omega
    simp [htne]

theorem bb_of_pred_lt (p : Sq → Bool) : bb_of_pred p < 2 ^ 64 := by
  apply pawny_lt_two_pow_of_high_bits
  intro i hi
  rw [bb_of_pred_testBit, dif_neg (by omega)]

theorem xor_restore (b0 m : Nat) : b0 ^^^ m ^^^ m = b0 := by
  rw [Nat.xor_assoc, Nat.xor_self, Nat.xor_zero]

theorem and_compl_one_noop (b0 : Bitboard) (t : Sq) (hb : b0 < 2 ^ 64)
    (hclr : b0.testBit t.val = false) :
    b0 &&& Bitboard.compl (Bitboard.one t) = b0 := by
  apply Nat.eq_of_testBit_eq
  intro i
  rw [Nat.testBit_and, compl_testBit, one_testBit]
  rcases Nat.lt_or_ge i 64 with h | h
  · have hd1 : decide (i < 64) = true := by simp [h]
    have hd2 : decide (64 ≤ i) = false := by simp only [decide_eq_false_iff_not]; omega
    by_cases ht : t.val = i
    · subst ht
      simp [hclr, hd1, hd2]
    · simp [ht, hd1, hd2]
  · rw [testBit_ge i hb h]
    simp

theorem and_compl_one_or_restore (b0 : Bitboard) (t : Sq) (hb : b0 < 2 ^ 64)
    (hset : b0.testBit t.val = true) :
    (b0 &&& Bitboard.compl (Bitboard.one t)) ||| Bitboard.one t = b0 := by
  apply Nat.eq_of_testBit_eq
  intro i
  rw [Nat.testBit_or, Nat.testBit_and, compl_testBit, one_testBit]
  rcases Nat.lt_or_ge i 64 with h | h
  · have hd1 : decide (i < 64) = true := by simp [h]
    have hd2 : decide (64 ≤ i) = false := by simp only [decide_eq_false_iff_not]; omega
    by_cases ht : t.val = i
    · subst ht
      simp [hset, hd1, hd2]
    · simp [ht, hd1, hd2]
  · rw [testBit_ge i hb h]
    have hti := t.isLt
    have htne : t.val ≠ i := by omega
    simp [htne]

theorem xorRange_congr (f g : Nat → Nat) (n : Nat) (h : ∀ i, i < n → f i = g i) :
    xorRange f n = xorRange g n := by
  induction n with
  | zero => rfl
  | succ n ih =>
    unfold xorRange
    rw [ih (fun i hi => h i (by omega)), h n (by omega)]

theorem xorRange_update (f : Nat → Nat) (s k n : Nat) (hs : s < n) :
    xorRange (fun i => if i = s then k else f i) n = xorRange f n ^^^ f s ^^^ k := by
  induction n with
  | zero => omega
  | succ n ih =>
    unfold xorRange
    by_cases hsn : s = n
    · rw [xorRange_congr (fun i => if i = s then k else f i) f n
        (fun i hi => by
          show (if i = s then k else f i) = f i
          rw [if_neg (by omega)])]
      rw [if_pos hsn.symm, hsn]
      simp [Nat.xor_assoc, Nat.xor_comm, xor_left_comm, Nat.xor_cancel_left]
    · rw [ih (by omega), if_neg (fun hc => hsn hc.symm)]
      simp [Nat.xor_assoc, Nat.xor_comm, xor_left_comm]

theorem xorSquares_update (F : Sq → Nat) (p : Sq) (k : Nat) :
    xorSquares (Function.update F p k) = xorSquares F ^^^ F p ^^^ k := by
  unfold xorSquares
  have hfun :
      (fun i => if h : i < 64 then Function.update F p k ⟨i, h⟩ else 0) =
      (fun i => if i = p.val then k else if h : i < 64 then F ⟨i, h⟩ else 0) := by
    funext i
    by_cases hi : i < 64
    · rw [dif_pos hi]
      by_cases hip : i = p.val
      · have : (⟨i, hi⟩ : Sq) = p := Fin.ext hip
        rw [this, Function.update_same, if_pos hip]
      · have : (⟨i, hi⟩ : Sq) ≠ p := fun hc => hip (congrArg Fin.val hc)
        rw [Function.update_noteq this, if_neg hip, dif_pos hi]
    · have := p.isLt
      rw [dif_neg hi, if_neg (by omega), dif_neg hi]
  rw [hfun, xorRange_update _ p.val k 64 p.isLt, dif_pos p.isLt]

theorem key_of_update (z : Zobrist) (sq : Sq → Cell) (p : Sq) (c : Cell) :
    (fun s => z.squares (Function.update sq p c s) s.val) =
      Function.update (fun s => z.squares (sq s) s.val) p (z.squares c p.val) := by
  funext s
  by_cases hs : s = p
  · subst hs
    rw [Function.update_same, Function.update_same]
  · rw [Function.update_noteq hs, Function.update_noteq hs]

theorem zobrist_hash_wf (z : Zobrist) (hz : z.wf) (r : RawBoard) :
    r.zobrist_hash z =
      (if r.side = Color.white then z.move_side else 0) ^^^
      (match r.ep_src with
        | some p => z.enpassant p.val
        | Option.none => 0) ^^^
      z.castling r.castling.val ^^^
      xorSquares (fun s => z.squares (r.squares s) s.val) := by
  unfold RawBoard.zobrist_hash
  congr 1
  unfold xorSquares
  apply xorRange_congr
  intro i hi
  rw [dif_pos hi, dif_pos hi]
  show (if r.squares ⟨i, hi⟩ ≠ Cell.none then z.squares (r.squares ⟨i, hi⟩) i else 0) =
    z.squares (r.squares ⟨i, hi⟩) i
  by_cases h : r.squares ⟨i, hi⟩ = Cell.none
  · rw [if_neg (by simp [h]), h, hz.1]
  · rw [if_pos h]

theorem castling_has_without :
    ∀ (cr : CastlingRights) (c : Color) (s : CastlingSide) (c' : Color)
      (s' : CastlingSide),
      (cr.without c s).has c' s' =
        (cr.has c' s' && !(decide (c = c') && decide (s = s'))) := by
  decide

theorem fcc_has_other (r : RawBoard) (c c' : Color) (s' : CastlingSide)
    (hne : c ≠ c') :
    (fix_castling_color r c).castling.has c' s' = r.castling.has c' s' := by
  unfold fix_castling_color
  dsimp only
  split_ifs <;> simp [castling_has_without, hne]

theorem fcc_has_self (r : RawBoard) (c : Color) (s : CastlingSide)
    (h : (fix_castling_color r c).castling.has c s = true) :
    r.squares (Sq.make ⟨4, by decide⟩ (castling_rank c)) = Cell.make c .king ∧
    r.squares (rook_home c s) = Cell.make c .rook := by
  unfold fix_castling_color at h
  unfold RawBoard.get at h
  dsimp only at h
  have hE : ¬ r.squares (Sq.make ⟨4, by decide⟩ (castling_rank c)) ≠ Cell.make c .king := by
    intro h1
    rw [if_pos h1] at h
    cases s <;> split_ifs at h <;> simp [castling_has_without] at h
  rw [if_neg hE] at h
  cases s with
  | queen =>
    have hA : ¬ r.squares (Sq.make ⟨0, by decide⟩ (castling_rank c)) ≠ Cell.make c .rook := by
      intro h2
      rw [if_pos h2] at h
      split_ifs at h <;> simp [castling_has_without] at h
    exact ⟨not_not.mp hE, by simpa [rook_home] using not_not.mp hA⟩
  | king =>
    have hH : ¬ r.squares (Sq.make ⟨7, by decide⟩ (castling_rank c)) ≠ Cell.make c .rook := by
      intro h3
      rw [if_pos h3] at h
      split_ifs at h <;> simp [castling_has_without] at h
    exact ⟨not_not.mp hE, by simpa [rook_home] using not_not.mp hH⟩

theorem fix_castling_ok (r : RawBoard) : castling_ok (fix_castling r) := by
  intro c s h
  unfold fix_castling at *
  have hsq : (fix_castling_color (fix_castling_color r .white) .black).squares =
      r.squares := rfl
  rw [hsq]
  cases c with
  | black =>
    have hh := fcc_has_self (fix_castling_color r .white) .black s h
    simpa using hh
  | white =>
    rw [fcc_has_other _ .black .white s (by simp)] at h
    exact fcc_has_self r .white s h

theorem validate_ep_ok (raw raw1 : RawBoard) (h : validate_ep raw = Except.ok raw1) :
    ep_ok raw1 := by
  unfold validate_ep at h
  cases hep : raw.ep_src with
  | none =>
    rw [hep] at h
    cases h
    intro p hp
    rw [hep] at hp
    cases hp
  | some p =>
    rw [hep] at h
    dsimp only at h
    split_ifs at h with h1 h2
    · cases h
      intro q hq
      simp at hq
    · cases h
      intro q hq
      rw [hep] at hq
      cases hq
      push_neg at h1 h2
      unfold RawBoard.get at h2
      exact ⟨h1, h2.1, h2.2⟩

theorem validate_ep_frame (raw raw1 : RawBoard)
    (h : validate_ep raw = Except.ok raw1) :
    raw1.squares = raw.squares ∧ raw1.side = raw.side ∧
    raw1.castling = raw.castling ∧ raw1.move_counter = raw.move_counter ∧
    raw1.move_number = raw.move_number := by
  unfold validate_ep at h
  cases hep : raw.ep_src with
  | none =>
    rw [hep] at h
    cases h
    exact ⟨rfl, rfl, rfl, rfl, rfl⟩
  | some p =>
    rw [hep] at h
    dsimp only at h
    split_ifs at h with h1 h2 <;> cases h <;> exact ⟨rfl, rfl, rfl, rfl, rfl⟩

theorem fix_castling_frame (r : RawBoard) :
    (fix_castling r).squares = r.squares ∧ (fix_castling r).side = r.side ∧
    (fix_castling r).ep_src = r.ep_src ∧
    (fix_castling r).move_counter = r.move_counter ∧
    (fix_castling r).move_number = r.move_number :=
  ⟨rfl, rfl, rfl, rfl, rfl⟩

theorem try_from_inv (z : Zobrist) (raw : RawBoard) (b : Board)
    (h : Board.try_from z raw = Except.ok b) :
    board_consistent z b ∧ ep_ok b.r ∧ castling_ok b.r := by
  unfold Board.try_from at h
  cases hve : validate_ep raw with
  | error e =>
    rw [hve] at h
    cases h
  | ok raw1 =>
    rw [hve] at h
    dsimp only at h
    split_ifs at h
    cases h
    refine ⟨⟨rfl, rfl, rfl, rfl, rfl⟩, ?_, fix_castling_ok raw1⟩
    have hep1 := validate_ep_ok raw raw1 hve
    intro p hp
    have hfr := fix_castling_frame raw1
    rw [hfr.2.2.1] at hp
    have := hep1 p hp
    rw [hfr.1, hfr.2.1]
    exact this

theorem cell_make_color : ∀ (c : Color) (p : Piece), (Cell.make c p).color = some c := by
  decide

theorem cell_not_color_cases :
    ∀ (x : Cell) (c : Color), x.color ≠ some c → x = Cell.none ∨ x.color = some c.inv := by
  decide

theorem color_inv_ne : ∀ c : Color, c.inv ≠ c := by decide

theorem color_ne_inv : ∀ c : Color, c ≠ c.inv := by decide

theorem color_inv_inv : ∀ c : Color, c.inv.inv = c := by decide

theorem cell_make_ne_none : ∀ (c : Color) (p : Piece), Cell.make c p ≠ Cell.none := by
  decide

theorem cell_make_inj :
    ∀ (c c' : Color) (p p' : Piece),
      Cell.make c p = Cell.make c' p' → c = c' ∧ p = p' := by
  decide

theorem board_eq_of_parts (b1 b2 : Board) (hr : b1.r = b2.r) (hh : b1.hash = b2.hash)
    (hw : b1.white = b2.white) (hb : b1.black = b2.black) (hcl : b1.cells = b2.cells)
    (ha : b1.all_v = b2.all_v) : b1 = b2 := by
  cases b1
  cases b2
  simp only [Board.mk.injEq]
  exact ⟨hr, hh, hw, hb, hcl, ha⟩

theorem raw_eq_of_parts (r1 r2 : RawBoard) (hsq : r1.squares = r2.squares)
    (hsd : r1.side = r2.side) (hcr : r1.castling = r2.castling)
    (hep : r1.ep_src = r2.ep_src) (hmc : r1.move_counter = r2.move_counter)
    (hmn : r1.move_number = r2.move_number) : r1 = r2 := by
  cases r1
  cases r2
  simp only [RawBoard.mk.injEq]
  exact ⟨hsq, hsd, hcr, hep, hmc, hmn⟩

theorem cons_white_bit (z : Zobrist) (b : Board) (hc : board_consistent z b) (s : Sq) :
    b.white.testBit s.val = decide ((b.r.squares s).color = some .white) := by
  rw [hc.2.1]
  unfold color_bb_of_squares
  rw [bb_of_pred_testBit, dif_pos s.isLt]

theorem cons_black_bit (z : Zobrist) (b : Board) (hc : board_consistent z b) (s : Sq) :
    b.black.testBit s.val = decide ((b.r.squares s).color = some .black) := by
  rw [hc.2.2.1]
  unfold color_bb_of_squares
  rw [bb_of_pred_testBit, dif_pos s.isLt]

theorem cons_color_bit (z : Zobrist) (b : Board) (hc : board_consistent z b)
    (co : Color) (s : Sq) :
    (b.color co).testBit s.val = decide ((b.r.squares s).color = some co) := by
  cases co
  · exact cons_white_bit z b hc s
  · exact cons_black_bit z b hc s

theorem cons_cell_bit (z : Zobrist) (b : Board) (hc : board_consistent z b)
    (cl : Cell) (hcl : cl ≠ Cell.none) (s : Sq) :
    (b.cells cl).testBit s.val = decide (b.r.squares s = cl) := by
  have h := congrFun hc.2.2.2.1 cl
  rw [h]
  unfold cells_of_squares
  rw [if_neg hcl, bb_of_pred_testBit, dif_pos s.isLt]

theorem cons_cells_none (z : Zobrist) (b : Board) (hc : board_consistent z b) :
    b.cells Cell.none = 0 := by
  have h := congrFun hc.2.2.2.1 Cell.none
  rw [h]
  unfold cells_of_squares
  rw [if_pos rfl]

theorem cons_white_lt (z : Zobrist) (b : Board) (hc : board_consistent z b) :
    b.white < 2 ^ 64 := by
  rw [hc.2.1]
  exact bb_of_pred_lt _

theorem cons_black_lt (z : Zobrist) (b : Board) (hc : board_consistent z b) :
    b.black < 2 ^ 64 := by
  rw [hc.2.2.1]
  exact bb_of_pred_lt _

theorem cons_color_lt (z : Zobrist) (b : Board) (hc : board_consistent z b)
    (co : Color) : b.color co < 2 ^ 64 := by
  cases co
  · exact cons_white_lt z b hc
  · exact cons_black_lt z b hc

theorem cons_cell_lt (z : Zobrist) (b : Board) (hc : board_consistent z b)
    (cl : Cell) : b.cells cl < 2 ^ 64 := by
  have h := congrFun hc.2.2.2.1 cl
  rw [h]
  unfold cells_of_squares
  by_cases hn : cl = Cell.none
  · rw [if_pos hn]
    positivity
  · rw [if_neg hn]
    exact bb_of_pred_lt _

/-- C1 counterexample: a valid board (start position with the b8 knight on
b5) and a move accepted by `Move::validate` — the non-well-formed
`PawnDouble` b2–b5, constructible through the safe `PackedMove` conversion
(packed value 23641) — for which make followed by unmake does not restore the
original board: the knight on the pawn double's destination square is
silently destroyed. -/
theorem c1_counterexample :
    Board.try_from zW cex_pd_raw = Except.ok cex_pd_board ∧
    PackedMove.unpack ⟨23641⟩ = cex_pd_move ∧
    cex_pd_move.validate cex_pd_board = Except.ok () ∧
    unmake_move_unchecked zW (make_move_unchecked zW cex_pd_board cex_pd_move).1
      cex_pd_move (make_move_unchecked zW cex_pd_board cex_pd_move).2 ≠
      cex_pd_board := by
  exact ⟨by rfl, by decide, by decide, by decide⟩

/-- C2 counterexample: on the same valid board and validate-accepted move as
the C1 counterexample, the incrementally maintained hash after the move
differs from the from-scratch recomputation (the incremental update never
XORs out the knight destroyed on the pawn double's destination square); the
key table satisfies the modelled well-formedness constraints. -/
theorem c2_counterexample :
    zW.wf ∧
    Board.try_from zW cex_pd_raw = Except.ok cex_pd_board ∧
    cex_pd_move.validate cex_pd_board = Except.ok () ∧
    (make_move_unchecked zW cex_pd_board cex_pd_move).1.hash ≠
      ((make_move_unchecked zW cex_pd_board cex_pd_move).1.r.zobrist_hash zW) := by
  exact ⟨zW_wf, by rfl, by decide, by decide⟩

theorem semilegal_simple_facts (c : Color) (b : Board) (mv : Move)
    (hk : mv.kind = .simple ∨ mv.kind = .pawn_simple)
    (hsem : do_is_move_semilegal c b mv = true) :
    (b.get mv.src).color = some c ∧ (b.get mv.dst).color ≠ some c := by
  have hnn : mv.kind ≠ .null := by
    rcases hk with hk | hk <;> rw [hk] <;> decide
  unfold do_is_move_semilegal at hsem
  rw [if_neg hnn] at hsem
  by_cases hsrc : b.get mv.src = Cell.make c .pawn
  · rw [if_pos hsrc] at hsem
    dsimp only at hsem
    split_ifs at hsem with hdir
    rcases hk with hk | hk
    · rw [hk] at hsem
      dsimp only at hsem
      cases hsem
    · rw [hk] at hsem
      dsimp only at hsem
      refine ⟨by rw [hsrc]; exact cell_make_color c .pawn, ?_⟩
      cases hdc : (b.get mv.dst).color with
      | none => simp [hdc]
      | some cc =>
        rw [hdc] at hsem
        dsimp only at hsem
        simp only [Bool.and_eq_true, decide_eq_true_eq] at hsem
        simp [hdc]
        exact fun hcc => hsem.1 hcc.symm
  · rw [if_neg hsrc] at hsem
    rcases hk with hk | hk
    · rw [hk] at hsem
      dsimp only at hsem
      split_ifs at hsem with hcol
      simp only [Bool.or_eq_true, decide_eq_true_eq] at hcol
      push_neg at hcol
      exact ⟨hcol.1, hcol.2⟩
    · rw [hk] at hsem
      dsimp only at hsem
      cases hsem

theorem semilegal_pawnlike_facts (c : Color) (b : Board) (mv : Move)
    (hk : mv.kind = .pawn_simple ∨ mv.kind = .promote_knight ∨
      mv.kind = .promote_bishop ∨ mv.kind = .promote_rook ∨
      mv.kind = .promote_queen)
    (hsem : do_is_move_semilegal c b mv = true) :
    b.get mv.src = Cell.make c .pawn ∧ (b.get mv.dst).color ≠ some c := by
  have hnn : mv.kind ≠ .null := by
    rcases hk with hk | hk | hk | hk | hk <;> rw [hk] <;> decide
  unfold do_is_move_semilegal at hsem
  rw [if_neg hnn] at hsem
  by_cases hsrc : b.get mv.src = Cell.make c .pawn
  · rw [if_pos hsrc] at hsem
    dsimp only at hsem
    split_ifs at hsem with hdir
    refine ⟨hsrc, ?_⟩
    rcases hk with hk | hk | hk | hk | hk <;>
      rw [hk] at hsem <;>
      dsimp only at hsem <;>
      (cases hdc : (b.get mv.dst).color with
      | none => simp [hdc]
      | some cc =>
        rw [hdc] at hsem
        dsimp only at hsem
        simp only [Bool.and_eq_true, decide_eq_true_eq] at hsem
        simp only [hdc, ne_eq, Option.some.injEq]
        exact fun hcc => hsem.1 hcc.symm)
  · rw [if_neg hsrc] at hsem
    rcases hk with hk | hk | hk | hk | hk <;>
      rw [hk] at hsem <;> dsimp only at hsem <;> cases hsem

theorem semilegal_double_facts (c : Color) (b : Board) (mv : Move)
    (hk : mv.kind = .pawn_double)
    (hwf : mv.is_well_formed = true)
    (hsem : do_is_move_semilegal c b mv = true) :
    b.get mv.src = Cell.make c .pawn ∧ mv.src ≠ mv.dst ∧
      b.all_v.testBit mv.dst.val = false := by
  have hnn : mv.kind ≠ .null := by rw [hk]; decide
  unfold Move.is_well_formed at hwf
  rw [if_neg hnn] at hwf
  split_ifs at hwf with hsd
  rw [hk] at hwf
  dsimp only at hwf
  simp only [Bool.and_eq_true, decide_eq_true_eq] at hwf
  obtain ⟨hfile, c0, hr1, hr2⟩ := hwf
  unfold do_is_move_semilegal at hsem
  rw [if_neg hnn] at hsem
  by_cases hsrc : b.get mv.src = Cell.make c .pawn
  · rw [if_pos hsrc] at hsem
    dsimp only at hsem
    split_ifs at hsem with hdir
    rw [hk] at hsem
    dsimp only at hsem
    refine ⟨hsrc, fun hc => hsd hc, ?_⟩
    have hfv : mv.src.val % 8 = mv.dst.val % 8 := congrArg Fin.val hfile
    have hsrcr : mv.src.val / 8 = (double_move_src_rank c0).val := congrArg Fin.val hr1
    have hdstr : mv.dst.val / 8 = (double_move_dst_rank c0).val := congrArg Fin.val hr2
    have hs64 := mv.src.isLt
    have hd64 := mv.dst.isLt
    cases c with
    | white =>
      simp only [decide_eq_true_eq] at hdir
      cases c0 with
      | black =>
        exfalso
        simp [double_move_src_rank, double_move_dst_rank] at hsrcr hdstr
        omega
      | white =>
        simp [double_move_src_rank, double_move_dst_rank] at hsrcr hdstr
        have hdv : mv.dst.val = mv.src.val - 16 ∧ 16 ≤ mv.src.val := by omega
        dsimp only at hsem
        have hsem2 : b.all &&& (0x0101 <<< (mv.src.val - 16)) = 0 :=
          of_decide_eq_true hsem
        have h0 : (b.all &&& (0x0101 <<< (mv.src.val - 16))).testBit mv.dst.val = false := by
          rw [hsem2]
          exact Nat.zero_testBit _
        rw [Nat.testBit_and, Nat.testBit_shiftLeft] at h0
        have hle : decide (mv.src.val - 16 ≤ mv.dst.val) = true := by
          simp only [decide_eq_true_eq]
          omega
        have hbit : Nat.testBit 0x0101 (mv.dst.val - (mv.src.val - 16)) = true := by
          have : mv.dst.val - (mv.src.val - 16) = 0 := by omega
          rw [this]
          rfl
        rw [hle, hbit] at h0
        simpa using h0
    | black =>
      simp only [decide_eq_true_eq] at hdir
      cases c0 with
      | white =>
        exfalso
        simp [double_move_src_rank, double_move_dst_rank] at hsrcr hdstr
        omega
      | black =>
        simp [double_move_src_rank, double_move_dst_rank] at hsrcr hdstr
        have hdv : mv.dst.val = mv.src.val + 16 := by omega
        dsimp only at hsem
        have hsem2 : b.all &&& ((0x010100 <<< mv.src.val) % 2 ^ 64) = 0 :=
          of_decide_eq_true hsem
        have h0 : (b.all &&& ((0x010100 <<< mv.src.val) % 2 ^ 64)).testBit mv.dst.val
            = false := by
          rw [hsem2]
          exact Nat.zero_testBit _
        rw [Nat.testBit_and, Nat.testBit_mod_two_pow, Nat.testBit_shiftLeft] at h0
        have hlt : decide (mv.dst.val < 64) = true := by simp [hd64]
        have hle : decide (mv.src.val ≤ mv.dst.val) = true := by
          simp only [decide_eq_true_eq]
          omega
        have hbit : Nat.testBit 0x010100 (mv.dst.val - mv.src.val) = true := by
          have : mv.dst.val - mv.src.val = 16 := by omega
          rw [this]
          rfl
        rw [hlt, hle, hbit] at h0
        simpa using h0
  · rw [if_neg hsrc] at hsem
    rw [hk] at hsem
    dsimp only at hsem
    cases hsem

theorem semilegal_ep_facts (c : Color) (b : Board) (mv : Move)
    (hk : mv.kind = .enpassant)
    (hsem : do_is_move_semilegal c b mv = true) :
    b.get mv.src = Cell.make c .pawn ∧
      ∃ p, b.r.ep_src = some p ∧ (p = mv.src.addU 1 ∨ p = mv.src.addU (-1)) ∧
        mv.dst = p.addU (pawn_forward_delta c) := by
  have hnn : mv.kind ≠ .null := by rw [hk]; decide
  unfold do_is_move_semilegal at hsem
  rw [if_neg hnn] at hsem
  by_cases hsrc : b.get mv.src = Cell.make c .pawn
  · rw [if_pos hsrc] at hsem
    dsimp only at hsem
    split_ifs at hsem with hdir
    rw [hk] at hsem
    dsimp only at hsem
    cases hep : b.r.ep_src with
    | none =>
      rw [hep] at hsem
      cases hsem
    | some p =>
      rw [hep] at hsem
      dsimp only at hsem
      simp only [Bool.and_eq_true, Bool.or_eq_true, decide_eq_true_eq] at hsem
      exact ⟨hsrc, p, rfl, hsem.1, hsem.2⟩
  · rw [if_neg hsrc] at hsem
    rw [hk] at hsem
    dsimp only at hsem
    cases hsem

theorem semilegal_castlek_facts (c : Color) (b : Board) (mv : Move)
    (hk : mv.kind = .castling_kingside)
    (hsem : do_is_move_semilegal c b mv = true) :
    b.r.castling.has c .king = true ∧ b.all &&& castling.pass c .king = 0 := by
  have hnn : mv.kind ≠ .null := by rw [hk]; decide
  unfold do_is_move_semilegal at hsem
  rw [if_neg hnn] at hsem
  by_cases hsrc : b.get mv.src = Cell.make c .pawn
  · rw [if_pos hsrc] at hsem
    dsimp only at hsem
    split_ifs at hsem with hdir
    rw [hk] at hsem
    dsimp only at hsem
    cases hsem
  · rw [if_neg hsrc] at hsem
    rw [hk] at hsem
    dsimp only at hsem
    simp only [Bool.and_eq_true, decide_eq_true_eq] at hsem
    exact ⟨hsem.1.1.1.2, hsem.1.1.2⟩

theorem semilegal_castleq_facts (c : Color) (b : Board) (mv : Move)
    (hk : mv.kind = .castling_queenside)
    (hsem : do_is_move_semilegal c b mv = true) :
    b.r.castling.has c .queen = true ∧ b.all &&& castling.pass c .queen = 0 := by
  have hnn : mv.kind ≠ .null := by rw [hk]; decide
  unfold do_is_move_semilegal at hsem
  rw [if_neg hnn] at hsem
  by_cases hsrc : b.get mv.src = Cell.make c .pawn
  · rw [if_pos hsrc] at hsem
    dsimp only at hsem
    split_ifs at hsem with hdir
    rw [hk] at hsem
    dsimp only at hsem
    cases hsem
  · rw [if_neg hsrc] at hsem
    rw [hk] at hsem
    dsimp only at hsem
    simp only [Bool.and_eq_true, decide_eq_true_eq] at hsem
    exact ⟨hsem.1.1.1.2, hsem.1.1.2⟩

theorem update_castling_frame_white (z : Zobrist) (B : Board) (ch : Bitboard) :
    (update_castling z B ch).white = B.white := by
  unfold update_castling
  dsimp only
  split_ifs <;> rfl

theorem update_castling_frame_black (z : Zobrist) (B : Board) (ch : Bitboard) :
    (update_castling z B ch).black = B.black := by
  unfold update_castling
  dsimp only
  split_ifs <;> rfl

theorem update_castling_frame_cells (z : Zobrist) (B : Board) (ch : Bitboard) :
    (update_castling z B ch).cells = B.cells := by
  unfold update_castling
  dsimp only
  split_ifs <;> rfl

theorem update_castling_frame_all (z : Zobrist) (B : Board) (ch : Bitboard) :
    (update_castling z B ch).all_v = B.all_v := by
  unfold update_castling
  dsimp only
  split_ifs <;> rfl

theorem update_castling_frame_squares (z : Zobrist) (B : Board) (ch : Bitboard) :
    (update_castling z B ch).r.squares = B.r.squares := by
  unfold update_castling
  dsimp only
  split_ifs <;> rfl

theorem update_castling_frame_side (z : Zobrist) (B : Board) (ch : Bitboard) :
    (update_castling z B ch).r.side = B.r.side := by
  unfold update_castling
  dsimp only
  split_ifs <;> rfl

theorem update_castling_frame_ep (z : Zobrist) (B : Board) (ch : Bitboard) :
    (update_castling z B ch).r.ep_src = B.r.ep_src := by
  unfold update_castling
  dsimp only
  split_ifs <;> rfl

theorem update_castling_frame_mc (z : Zobrist) (B : Board) (ch : Bitboard) :
    (update_castling z B ch).r.move_counter = B.r.move_counter := by
  unfold update_castling
  dsimp only
  split_ifs <;> rfl

theorem update_castling_frame_mn (z : Zobrist) (B : Board) (ch : Bitboard) :
    (update_castling z B ch).r.move_number = B.r.move_number := by
  unfold update_castling
  dsimp only
  split_ifs <;> rfl

set_option maxHeartbeats 3200000 in
theorem restore_simple (z : Zobrist) (c : Color) (b : Board) (mv : Move)
    (hc : board_consistent z b) (hside : b.r.side = c)
    (hk : mv.kind = MoveKind.simple ∨ mv.kind = MoveKind.pawn_simple)
    (hsem : do_is_move_semilegal c b mv = true) :
    do_unmake_move z c (do_make_move z c b mv).1 mv (do_make_move z c b mv).2 = b := by
  obtain ⟨h1, h2⟩ := semilegal_simple_facts c b mv hk hsem
  simp only [Board.get, RawBoard.get] at h1 h2
  have hne : mv.src ≠ mv.dst := fun h => h2 (h ▸ h1)
  have hne' : mv.dst ≠ mv.src := fun h => hne h.symm
  have hscd : b.r.squares mv.src ≠ b.r.squares mv.dst := fun h => h2 (h ▸ h1)
  have hcds : b.r.squares mv.dst ≠ b.r.squares mv.src := fun h => hscd h.symm
  have hWlt := cons_white_lt z b hc
  have hBlt := cons_black_lt z b hc
  have hnone := cons_cells_none z b hc
  have hall := hc.2.2.2.2
  have hcol := cell_not_color_cases _ _ h2
  have hdnp : b.r.squares mv.dst ≠ Cell.make c Piece.pawn := fun h =>
    h2 (by rw [h]; exact cell_make_color c Piece.pawn)
  have hpnd : Cell.make c Piece.pawn ≠ b.r.squares mv.dst := fun h => hdnp h.symm
  have hsnn : b.r.squares mv.src ≠ Cell.none := fun h => by
    rw [h] at h1
    simp [Cell.color] at h1
  have hnns : Cell.none ≠ b.r.squares mv.src := fun h => hsnn h.symm
  by_cases hpn : b.r.squares mv.src = Cell.make c Piece.pawn <;>
  by_cases hdc : b.r.squares mv.dst = Cell.none <;>
  rcases hk with hk | hk <;>
  cases hep : b.r.ep_src <;>
  cases c <;>
  (simp only [Cell.make] at hpn hdnp hpnd
   simp only [do_make_move, do_unmake_move, hk, hep, hdc, hpn, Board.get, RawBoard.get,
     RawBoard.put, Board.set_color, Board.set_cell, Board.color, Board.cell, Board.all,
     Color.inv, Function.update_apply, hne, hne', hscd, hcds, hdnp, hpnd, hsnn, hnns,
     update_castling_frame_white, update_castling_frame_black, update_castling_frame_cells,
     update_castling_frame_all, update_castling_frame_squares, update_castling_frame_side,
     update_castling_frame_ep, update_castling_frame_mc, update_castling_frame_mn,
     Cell.make, ne_eq, not_false_iff, not_true, if_true, if_false, ite_true, ite_false,
     reduceCtorEq, reduceIte, hside]
   refine board_eq_of_parts _ _ (raw_eq_of_parts _ _ ?_ ?_ ?_ ?_ ?_ ?_) ?_ ?_ ?_ ?_ ?_ <;>
     dsimp only
   all_goals
     first
     | rfl
     | exact hside.symm
     | exact hep.symm
     | omega
     | (funext x
        rcases eq_or_ne x mv.dst with rfl | hxd
        · simp [hdc]
        · rcases eq_or_ne x mv.src with rfl | hxs
          · simp [Function.update_apply, hne, hpn]
          · simp [Function.update_apply, hxd, hxs])
     | exact xor_restore _ _
     | exact and_compl_one_noop _ _ hBlt (by rw [cons_black_bit z b hc, hdc]; rfl)
     | exact and_compl_one_noop _ _ hWlt (by rw [cons_white_bit z b hc, hdc]; rfl)
     | exact and_compl_one_or_restore _ _ hBlt (by
         rcases hcol with h | h
         · exact absurd h hdc
         · rw [cons_black_bit z b hc, h]
           rfl)
     | exact and_compl_one_or_restore _ _ hWlt (by
         rcases hcol with h | h
         · exact absurd h hdc
         · rw [cons_white_bit z b hc, h]
           rfl)
     | (funext y
        simp only [Function.update_apply]
        split_ifs with hq1 hq2
        all_goals
          first
          | rfl
          | (subst hq1
             first
             | exact xor_restore _ _
             | (rw [hnone]; exact Nat.zero_and _)
             | exact and_compl_one_or_restore _ _ (cons_cell_lt z b hc _) (by
                 rw [cons_cell_bit z b hc _ hdc]
                 simp))
          | (subst hq2
             first
             | exact xor_restore _ _
             | (rw [hnone]; exact Nat.zero_and _)))
     | (rw [hall]
        congr 1 <;>
          first
          | exact xor_restore _ _
          | exact and_compl_one_noop _ _ hBlt (by rw [cons_black_bit z b hc, hdc]; rfl)
          | exact and_compl_one_noop _ _ hWlt (by rw [cons_white_bit z b hc, hdc]; rfl)
          | exact and_compl_one_or_restore _ _ hBlt (by
              rcases hcol with h | h
              · exact absurd h hdc
              · rw [cons_black_bit z b hc, h]
                rfl)
          | exact and_compl_one_or_restore _ _ hWlt (by
              rcases hcol with h | h
              · exact absurd h hdc
              · rw [cons_white_bit z b hc, h]
                rfl)))

set_option maxHeartbeats 3200000 in
theorem restore_promote (z : Zobrist) (c : Color) (b : Board) (mv : Move)
    (hc : board_consistent z b) (hside : b.r.side = c)
    (hk : mv.kind = MoveKind.promote_knight ∨ mv.kind = MoveKind.promote_bishop ∨
      mv.kind = MoveKind.promote_rook ∨ mv.kind = MoveKind.promote_queen)
    (hsem : do_is_move_semilegal c b mv = true) :
    do_unmake_move z c (do_make_move z c b mv).1 mv (do_make_move z c b mv).2 = b := by
  obtain ⟨hsrc, h2⟩ := semilegal_pawnlike_facts c b mv (Or.inr hk) hsem
  simp only [Board.get, RawBoard.get] at hsrc h2
  have h1 : (b.r.squares mv.src).color = some c := by
    rw [hsrc]
    exact cell_make_color c Piece.pawn
  have hne : mv.src ≠ mv.dst := fun h => h2 (h ▸ h1)
  have hne' : mv.dst ≠ mv.src := fun h => hne h.symm
  have hWlt := cons_white_lt z b hc
  have hBlt := cons_black_lt z b hc
  have hnone := cons_cells_none z b hc
  have hall := hc.2.2.2.2
  have hcol := cell_not_color_cases _ _ h2
  have hdnc : ∀ p : Piece, b.r.squares mv.dst ≠ Cell.make c p := fun p h =>
    h2 (by rw [h]; exact cell_make_color c p)
  have hdP := hdnc Piece.pawn
  have hdN := hdnc Piece.knight
  have hdB := hdnc Piece.bishop
  have hdR := hdnc Piece.rook
  have hdQ := hdnc Piece.queen
  have hdP' : Cell.make c Piece.pawn ≠ b.r.squares mv.dst := fun h => hdP h.symm
  have hdN' : Cell.make c Piece.knight ≠ b.r.squares mv.dst := fun h => hdN h.symm
  have hdB' : Cell.make c Piece.bishop ≠ b.r.squares mv.dst := fun h => hdB h.symm
  have hdR' : Cell.make c Piece.rook ≠ b.r.squares mv.dst := fun h => hdR h.symm
  have hdQ' : Cell.make c Piece.queen ≠ b.r.squares mv.dst := fun h => hdQ h.symm
  have hsnn : b.r.squares mv.src ≠ Cell.none := fun h => by
    rw [h] at h1
    simp [Cell.color] at h1
  have hnns : Cell.none ≠ b.r.squares mv.src := fun h => hsnn h.symm
  by_cases hdc : b.r.squares mv.dst = Cell.none <;>
  rcases hk with hk | hk | hk | hk <;>
  cases hep : b.r.ep_src <;>
  cases c <;>
  (simp only [Cell.make] at hsrc hdP hdN hdB hdR hdQ hdP' hdN' hdB' hdR' hdQ'
   simp only [do_make_move, do_unmake_move, hk, hep, hdc, hsrc, Board.get, RawBoard.get,
     RawBoard.put, Board.set_color, Board.set_cell, Board.color, Board.cell, Board.all,
     Color.inv, MoveKind.promote, Option.getD, Function.update_apply, hne, hne',
     hdP, hdN, hdB, hdR, hdQ, hdP', hdN', hdB', hdR', hdQ', hsnn, hnns,
     update_castling_frame_white, update_castling_frame_black, update_castling_frame_cells,
     update_castling_frame_all, update_castling_frame_squares, update_castling_frame_side,
     update_castling_frame_ep, update_castling_frame_mc, update_castling_frame_mn,
     Cell.make, ne_eq, not_false_iff, not_true, if_true, if_false, ite_true, ite_false,
     reduceCtorEq, reduceIte, hside]
   refine board_eq_of_parts _ _ (raw_eq_of_parts _ _ ?_ ?_ ?_ ?_ ?_ ?_) ?_ ?_ ?_ ?_ ?_ <;>
     dsimp only
   all_goals
     first
     | rfl
     | exact hside.symm
     | exact hep.symm
     | omega
     | (funext x
        rcases eq_or_ne x mv.dst with rfl | hxd
        · simp [hdc]
        · rcases eq_or_ne x mv.src with rfl | hxs
          · simp [Function.update_apply, hne, hsrc]
          · simp [Function.update_apply, hxd, hxs])
     | exact xor_restore _ _
     | exact and_compl_one_noop _ _ hBlt (by rw [cons_black_bit z b hc, hdc]; rfl)
     | exact and_compl_one_noop _ _ hWlt (by rw [cons_white_bit z b hc, hdc]; rfl)
     | exact and_compl_one_or_restore _ _ hBlt (by
         rcases hcol with h | h
         · exact absurd h hdc
         · rw [cons_black_bit z b hc, h]
           rfl)
     | exact and_compl_one_or_restore _ _ hWlt (by
         rcases hcol with h | h
         · exact absurd h hdc
         · rw [cons_white_bit z b hc, h]
           rfl)
     | (funext y
        simp only [Function.update_apply]
        split_ifs with hq1 hq2 hq3
        all_goals
          first
          | rfl
          | (subst hq1
             first
             | exact xor_restore _ _
             | (rw [hnone]; exact Nat.zero_and _)
             | exact and_compl_one_or_restore _ _ (cons_cell_lt z b hc _) (by
                 rw [cons_cell_bit z b hc _ hdc]
                 simp))
          | (subst hq2
             first
             | exact xor_restore _ _
             | (rw [hnone]; exact Nat.zero_and _))
          | (subst hq3
             first
             | exact xor_restore _ _
             | (rw [hnone]; exact Nat.zero_and _)))
     | (rw [hall]
        congr 1 <;>
          first
          | exact xor_restore _ _
          | exact and_compl_one_noop _ _ hBlt (by rw [cons_black_bit z b hc, hdc]; rfl)
          | exact and_compl_one_noop _ _ hWlt (by rw [cons_white_bit z b hc, hdc]; rfl)
          | exact and_compl_one_or_restore _ _ hBlt (by
              rcases hcol with h | h
              · exact absurd h hdc
              · rw [cons_black_bit z b hc, h]
                rfl)
          | exact and_compl_one_or_restore _ _ hWlt (by
              rcases hcol with h | h
              · exact absurd h hdc
              · rw [cons_white_bit z b hc, h]
                rfl)))

set_option maxHeartbeats 1600000 in
theorem restore_double (z : Zobrist) (c : Color) (b : Board) (mv : Move)
    (hc : board_consistent z b) (hside : b.r.side = c)
    (hk : mv.kind = MoveKind.pawn_double)
    (hwf : mv.is_well_formed = true)
    (hsem : do_is_move_semilegal c b mv = true) :
    do_unmake_move z c (do_make_move z c b mv).1 mv (do_make_move z c b mv).2 = b := by
  obtain ⟨hsrc, hne, hbit⟩ := semilegal_double_facts c b mv hk hwf hsem
  simp only [Board.get, RawBoard.get] at hsrc
  have hne' : mv.dst ≠ mv.src := fun h => hne h.symm
  have hall := hc.2.2.2.2
  have hdst_none : b.r.squares mv.dst = Cell.none := by
    have h := hbit
    rw [hall, Nat.testBit_or, cons_white_bit z b hc, cons_black_bit z b hc] at h
    have hcl : ∀ x : Cell,
        (decide (x.color = some Color.white) || decide (x.color = some Color.black)) = false →
        x = Cell.none := by decide
    exact hcl _ h
  cases hep : b.r.ep_src <;>
  cases c <;>
  (simp only [Cell.make] at hsrc
   simp only [do_make_move, do_unmake_move, do_make_pawn_double, hk, hep, hsrc, hdst_none,
     Board.get, RawBoard.get, RawBoard.put, Board.set_color, Board.set_cell, Board.color,
     Board.cell, Board.all, Color.inv, Function.update_apply, hne, hne',
     Cell.make, ne_eq, not_false_iff, not_true, if_true, if_false, ite_true, ite_false,
     reduceCtorEq, reduceIte, hside]
   refine board_eq_of_parts _ _ (raw_eq_of_parts _ _ ?_ ?_ ?_ ?_ ?_ ?_) ?_ ?_ ?_ ?_ ?_ <;>
     dsimp only
   all_goals
     first
     | rfl
     | exact hside.symm
     | exact hep.symm
     | omega
     | (funext x
        rcases eq_or_ne x mv.dst with rfl | hxd
        · simp [hdst_none]
        · rcases eq_or_ne x mv.src with rfl | hxs
          · simp [Function.update_apply, hne, hsrc]
          · simp [Function.update_apply, hxd, hxs])
     | exact xor_restore _ _
     | (funext y
        simp only [Function.update_apply]
        split_ifs with hq1
        all_goals
          first
          | rfl
          | (subst hq1
             exact xor_restore _ _))
     | (rw [hall]
        congr 1 <;>
          first
          | rfl
          | exact xor_restore _ _))

theorem Sq.addU_cancel (p : Sq) (d : Int) : (p.addU d).addU (-d) = p := by
  unfold Sq.addU
  apply Fin.ext
  dsimp only
  have := p.isLt
  omega

set_option maxHeartbeats 1600000 in
theorem restore_enpassant (z : Zobrist) (c : Color) (b : Board) (mv : Move)
    (hc : board_consistent z b) (hside : b.r.side = c) (hep_ok : ep_ok b.r)
    (hk : mv.kind = MoveKind.enpassant)
    (hsem : do_is_move_semilegal c b mv = true) :
    do_unmake_move z c (do_make_move z c b mv).1 mv (do_make_move z c b mv).2 = b := by
  obtain ⟨hsrc, p, hepq, hadj, hdst⟩ := semilegal_ep_facts c b mv hk hsem
  simp only [Board.get, RawBoard.get] at hsrc
  obtain ⟨hpr, hpcell, hpath⟩ := hep_ok p hepq
  rw [hside] at hpcell hpath
  have htaken : mv.dst.addU (-(pawn_forward_delta c)) = p := by
    rw [hdst, Sq.addU_cancel]
  have hdst_none : b.r.squares mv.dst = Cell.none := by
    rw [hdst]
    exact hpath
  have hsd : mv.src ≠ mv.dst := fun h => by
    rw [h, hdst_none] at hsrc
    exact cell_make_ne_none c Piece.pawn hsrc.symm
  have hds : mv.dst ≠ mv.src := fun h => hsd h.symm
  have hsp : mv.src ≠ p := fun h => by
    rw [h, hpcell] at hsrc
    exact color_inv_ne c (cell_make_inj _ _ _ _ hsrc).1
  have hps : p ≠ mv.src := fun h => hsp h.symm
  have hdp : mv.dst ≠ p := fun h => by
    rw [h, hpcell] at hdst_none
    exact cell_make_ne_none c.inv Piece.pawn hdst_none
  have hpd : p ≠ mv.dst := fun h => hdp h.symm
  have hall := hc.2.2.2.2
  cases c <;>
  (simp only [Cell.make, Color.inv] at hsrc hpcell
   simp only [do_make_move, do_unmake_move, do_make_enpassant, hk, hepq, hsrc, hdst_none,
     htaken, hpcell, Board.get, RawBoard.get, RawBoard.put, Board.set_color, Board.set_cell,
     Board.color, Board.cell, Board.all, Color.inv, Function.update_apply,
     hsd, hds, hsp, hps, hdp, hpd,
     Cell.make, ne_eq, not_false_iff, not_true, if_true, if_false, ite_true, ite_false,
     reduceCtorEq, reduceIte, hside]
   refine board_eq_of_parts _ _ (raw_eq_of_parts _ _ ?_ ?_ ?_ ?_ ?_ ?_) ?_ ?_ ?_ ?_ ?_ <;>
     dsimp only
   all_goals
     first
     | rfl
     | exact hside.symm
     | exact hepq.symm
     | omega
     | (funext x
        rcases eq_or_ne x p with rfl | hxp
        · simp [Function.update_apply, hpcell, hps, hpd]
        · rcases eq_or_ne x mv.dst with rfl | hxd
          · simp [Function.update_apply, hdst_none, hds, hdp, hxp]
          · rcases eq_or_ne x mv.src with rfl | hxs
            · simp [Function.update_apply, hsrc, hsd, hsp, hxp, hxd]
            · simp [Function.update_apply, hxp, hxd, hxs])
     | exact xor_restore _ _
     | (funext y
        simp only [Function.update_apply]
        split_ifs with hq1 hq2
        all_goals
          first
          | rfl
          | (subst hq1
             exact xor_restore _ _)
          | (subst hq2
             exact xor_restore _ _))
     | (rw [hall]
        congr 1 <;>
          first
          | rfl
          | exact xor_restore _ _))

theorem cell_none_of_all_bit (z : Zobrist) (b : Board) (hc : board_consistent z b) (s : Sq)
    (h : b.all_v.testBit s.val = false) : b.r.squares s = Cell.none := by
  rw [hc.2.2.2.2, Nat.testBit_or, cons_white_bit z b hc, cons_black_bit z b hc] at h
  have hcl : ∀ x : Cell,
      (decide (x.color = some Color.white) || decide (x.color = some Color.black)) = false →
      x = Cell.none := by decide
  exact hcl _ h


set_option maxHeartbeats 1600000 in
theorem restore_castle_k_white (z : Zobrist) (b : Board) (mv : Move)
    (hc : board_consistent z b) (hside : b.r.side = Color.white) (hcast : castling_ok b.r)
    (hk : mv.kind = MoveKind.castling_kingside)
    (hsem : do_is_move_semilegal Color.white b mv = true) :
    do_unmake_move z Color.white (do_make_move z Color.white b mv).1 mv
      (do_make_move z Color.white b mv).2 = b := by
  obtain ⟨hhas, hpass⟩ := semilegal_castlek_facts Color.white b mv hk hsem
  obtain ⟨hK0, hR0⟩ := hcast Color.white CastlingSide.king hhas
  have hK : b.r.squares (Sq.make 4 (castling_rank Color.white)) =
      Cell.make Color.white Piece.king := hK0
  have hR : b.r.squares (Sq.make 7 (castling_rank Color.white)) =
      Cell.make Color.white Piece.rook := hR0
  have hball : ∀ i, (castling.pass Color.white CastlingSide.king).testBit i = true →
      b.all_v.testBit i = false := by
    intro i hi
    have h := congrArg (fun n => Nat.testBit n i) hpass
    simpa only [Board.all, Nat.testBit_and, Nat.zero_testBit, hi, Bool.and_true] using h
  have hE1 : b.r.squares (Sq.make 5 (castling_rank Color.white)) = Cell.none :=
    cell_none_of_all_bit z b hc _ (hball _ (by decide))
  have hE2 : b.r.squares (Sq.make 6 (castling_rank Color.white)) = Cell.none :=
    cell_none_of_all_bit z b hc _ (hball _ (by decide))
  have hall := hc.2.2.2.2
  have hn01 : Sq.make 4 (castling_rank Color.white) ≠
      Sq.make 5 (castling_rank Color.white) := by decide
  have hn02 : Sq.make 4 (castling_rank Color.white) ≠
      Sq.make 6 (castling_rank Color.white) := by decide
  have hn03 : Sq.make 4 (castling_rank Color.white) ≠
      Sq.make 7 (castling_rank Color.white) := by decide
  have hn10 : Sq.make 5 (castling_rank Color.white) ≠
      Sq.make 4 (castling_rank Color.white) := by decide
  have hn12 : Sq.make 5 (castling_rank Color.white) ≠
      Sq.make 6 (castling_rank Color.white) := by decide
  have hn13 : Sq.make 5 (castling_rank Color.white) ≠
      Sq.make 7 (castling_rank Color.white) := by decide
  have hn20 : Sq.make 6 (castling_rank Color.white) ≠
      Sq.make 4 (castling_rank Color.white) := by decide
  have hn21 : Sq.make 6 (castling_rank Color.white) ≠
      Sq.make 5 (castling_rank Color.white) := by decide
  have hn23 : Sq.make 6 (castling_rank Color.white) ≠
      Sq.make 7 (castling_rank Color.white) := by decide
  have hn30 : Sq.make 7 (castling_rank Color.white) ≠
      Sq.make 4 (castling_rank Color.white) := by decide
  have hn31 : Sq.make 7 (castling_rank Color.white) ≠
      Sq.make 5 (castling_rank Color.white) := by decide
  have hn32 : Sq.make 7 (castling_rank Color.white) ≠
      Sq.make 6 (castling_rank Color.white) := by decide
  cases hep : b.r.ep_src <;>
  (simp only [Cell.make] at hK hR
   simp only [do_make_move, do_unmake_move, do_make_castling_kingside, hk, hep,
     Board.get, RawBoard.get, RawBoard.put, Board.set_color, Board.set_cell, Board.color,
     Board.cell, Board.all, Color.inv, castling.offset, Function.update_apply,
     Cell.make, ne_eq, not_false_iff, not_true, if_true, if_false, ite_true, ite_false,
     reduceCtorEq, reduceIte, hside]
   refine board_eq_of_parts _ _ (raw_eq_of_parts _ _ ?_ ?_ ?_ ?_ ?_ ?_) ?_ ?_ ?_ ?_ ?_ <;>
     dsimp only
   all_goals
     first
     | rfl
     | exact hside.symm
     | exact hep.symm
     | omega
     | (funext x
        rcases eq_or_ne x (Sq.make 4 (castling_rank Color.white)) with rfl | hx0
        · simp [Function.update_apply, hn01, hn02, hn03, hn10, hn12, hn13, hn20, hn21, hn23, hn30, hn31, hn32, hK]
        · rcases eq_or_ne x (Sq.make 5 (castling_rank Color.white)) with rfl | hx1
          · simp [Function.update_apply, hn01, hn02, hn03, hn10, hn12, hn13, hn20, hn21, hn23, hn30, hn31, hn32, hE1]
          · rcases eq_or_ne x (Sq.make 6 (castling_rank Color.white)) with rfl | hx2
            · simp [Function.update_apply, hn01, hn02, hn03, hn10, hn12, hn13, hn20, hn21, hn23, hn30, hn31, hn32, hE2]
            · rcases eq_or_ne x (Sq.make 7 (castling_rank Color.white)) with rfl | hx3
              · simp [Function.update_apply, hn01, hn02, hn03, hn10, hn12, hn13, hn20, hn21, hn23, hn30, hn31, hn32, hR]
              · simp [Function.update_apply, hx0, hx1, hx2, hx3])
     | exact xor_restore _ _
     | (funext y
        simp only [Function.update_apply]
        split_ifs with hq1 hq2
        all_goals
          first
          | rfl
          | (subst hq1
             exact xor_restore _ _)
          | (subst hq2
             exact xor_restore _ _))
     | (rw [hall]
        congr 1 <;>
          first
          | rfl
          | exact xor_restore _ _))


set_option maxHeartbeats 1600000 in
theorem restore_castle_q_white (z : Zobrist) (b : Board) (mv : Move)
    (hc : board_consistent z b) (hside : b.r.side = Color.white) (hcast : castling_ok b.r)
    (hk : mv.kind = MoveKind.castling_queenside)
    (hsem : do_is_move_semilegal Color.white b mv = true) :
    do_unmake_move z Color.white (do_make_move z Color.white b mv).1 mv
      (do_make_move z Color.white b mv).2 = b := by
  obtain ⟨hhas, hpass⟩ := semilegal_castleq_facts Color.white b mv hk hsem
  obtain ⟨hK0, hR0⟩ := hcast Color.white CastlingSide.queen hhas
  have hK : b.r.squares (Sq.make 4 (castling_rank Color.white)) =
      Cell.make Color.white Piece.king := hK0
  have hR : b.r.squares (Sq.make 0 (castling_rank Color.white)) =
      Cell.make Color.white Piece.rook := hR0
  have hball : ∀ i, (castling.pass Color.white CastlingSide.queen).testBit i = true →
      b.all_v.testBit i = false := by
    intro i hi
    have h := congrArg (fun n => Nat.testBit n i) hpass
    simpa only [Board.all, Nat.testBit_and, Nat.zero_testBit, hi, Bool.and_true] using h
  have hE1 : b.r.squares (Sq.make 2 (castling_rank Color.white)) = Cell.none :=
    cell_none_of_all_bit z b hc _ (hball _ (by decide))
  have hE2 : b.r.squares (Sq.make 3 (castling_rank Color.white)) = Cell.none :=
    cell_none_of_all_bit z b hc _ (hball _ (by decide))
  have hall := hc.2.2.2.2
  have hn01 : Sq.make 0 (castling_rank Color.white) ≠
      Sq.make 2 (castling_rank Color.white) := by decide
  have hn02 : Sq.make 0 (castling_rank Color.white) ≠
      Sq.make 3 (castling_rank Color.white) := by decide
  have hn03 : Sq.make 0 (castling_rank Color.white) ≠
      Sq.make 4 (castling_rank Color.white) := by decide
  have hn10 : Sq.make 2 (castling_rank Color.white) ≠
      Sq.make 0 (castling_rank Color.white) := by decide
  have hn12 : Sq.make 2 (castling_rank Color.white) ≠
      Sq.make 3 (castling_rank Color.white) := by decide
  have hn13 : Sq.make 2 (castling_rank Color.white) ≠
      Sq.make 4 (castling_rank Color.white) := by decide
  have hn20 : Sq.make 3 (castling_rank Color.white) ≠
      Sq.make 0 (castling_rank Color.white) := by decide
  have hn21 : Sq.make 3 (castling_rank Color.white) ≠
      Sq.make 2 (castling_rank Color.white) := by decide
  have hn23 : Sq.make 3 (castling_rank Color.white) ≠
      Sq.make 4 (castling_rank Color.white) := by decide
  have hn30 : Sq.make 4 (castling_rank Color.white) ≠
      Sq.make 0 (castling_rank Color.white) := by decide
  have hn31 : Sq.make 4 (castling_rank Color.white) ≠
      Sq.make 2 (castling_rank Color.white) := by decide
  have hn32 : Sq.make 4 (castling_rank Color.white) ≠
      Sq.make 3 (castling_rank Color.white) := by decide
  cases hep : b.r.ep_src <;>
  (simp only [Cell.make] at hK hR
   simp only [do_make_move, do_unmake_move, do_make_castling_queenside, hk, hep,
     Board.get, RawBoard.get, RawBoard.put, Board.set_color, Board.set_cell, Board.color,
     Board.cell, Board.all, Color.inv, castling.offset, Function.update_apply,
     Cell.make, ne_eq, not_false_iff, not_true, if_true, if_false, ite_true, ite_false,
     reduceCtorEq, reduceIte, hside]
   refine board_eq_of_parts _ _ (raw_eq_of_parts _ _ ?_ ?_ ?_ ?_ ?_ ?_) ?_ ?_ ?_ ?_ ?_ <;>
     dsimp only
   all_goals
     first
     | rfl
     | exact hside.symm
     | exact hep.symm
     | omega
     | (funext x
        rcases eq_or_ne x (Sq.make 0 (castling_rank Color.white)) with rfl | hx0
        · simp [Function.update_apply, hn01, hn02, hn03, hn10, hn12, hn13, hn20, hn21, hn23, hn30, hn31, hn32, hR]
        · rcases eq_or_ne x (Sq.make 2 (castling_rank Color.white)) with rfl | hx1
          · simp [Function.update_apply, hn01, hn02, hn03, hn10, hn12, hn13, hn20, hn21, hn23, hn30, hn31, hn32, hE1]
          · rcases eq_or_ne x (Sq.make 3 (castling_rank Color.white)) with rfl | hx2
            · simp [Function.update_apply, hn01, hn02, hn03, hn10, hn12, hn13, hn20, hn21, hn23, hn30, hn31, hn32, hE2]
            · rcases eq_or_ne x (Sq.make 4 (castling_rank Color.white)) with rfl | hx3
              · simp [Function.update_apply, hn01, hn02, hn03, hn10, hn12, hn13, hn20, hn21, hn23, hn30, hn31, hn32, hK]
              · simp [Function.update_apply, hx0, hx1, hx2, hx3])
     | exact xor_restore _ _
     | (funext y
        simp only [Function.update_apply]
        split_ifs with hq1 hq2
        all_goals
          first
          | rfl
          | (subst hq1
             exact xor_restore _ _)
          | (subst hq2
             exact xor_restore _ _))
     | (rw [hall]
        congr 1 <;>
          first
          | rfl
          | exact xor_restore _ _))


set_option maxHeartbeats 1600000 in
theorem restore_castle_k_black (z : Zobrist) (b : Board) (mv : Move)
    (hc : board_consistent z b) (hside : b.r.side = Color.black) (hcast : castling_ok b.r)
    (hk : mv.kind = MoveKind.castling_kingside)
    (hsem : do_is_move_semilegal Color.black b mv = true) :
    do_unmake_move z Color.black (do_make_move z Color.black b mv).1 mv
      (do_make_move z Color.black b mv).2 = b := by
  obtain ⟨hhas, hpass⟩ := semilegal_castlek_facts Color.black b mv hk hsem
  obtain ⟨hK0, hR0⟩ := hcast Color.black CastlingSide.king hhas
  have hK : b.r.squares (Sq.make 4 (castling_rank Color.black)) =
      Cell.make Color.black Piece.king := hK0
  have hR : b.r.squares (Sq.make 7 (castling_rank Color.black)) =
      Cell.make Color.black Piece.rook := hR0
  have hball : ∀ i, (castling.pass Color.black CastlingSide.king).testBit i = true →
      b.all_v.testBit i = false := by
    intro i hi
    have h := congrArg (fun n => Nat.testBit n i) hpass
    simpa only [Board.all, Nat.testBit_and, Nat.zero_testBit, hi, Bool.and_true] using h
  have hE1 : b.r.squares (Sq.make 5 (castling_rank Color.black)) = Cell.none :=
    cell_none_of_all_bit z b hc _ (hball _ (by decide))
  have hE2 : b.r.squares (Sq.make 6 (castling_rank Color.black)) = Cell.none :=
    cell_none_of_all_bit z b hc _ (hball _ (by decide))
  have hall := hc.2.2.2.2
  have hn01 : Sq.make 4 (castling_rank Color.black) ≠
      Sq.make 5 (castling_rank Color.black) := by decide
  have hn02 : Sq.make 4 (castling_rank Color.black) ≠
      Sq.make 6 (castling_rank Color.black) := by decide
  have hn03 : Sq.make 4 (castling_rank Color.black) ≠
      Sq.make 7 (castling_rank Color.black) := by decide
  have hn10 : Sq.make 5 (castling_rank Color.black) ≠
      Sq.make 4 (castling_rank Color.black) := by decide
  have hn12 : Sq.make 5 (castling_rank Color.black) ≠
      Sq.make 6 (castling_rank Color.black) := by decide
  have hn13 : Sq.make 5 (castling_rank Color.black) ≠
      Sq.make 7 (castling_rank Color.black) := by decide
  have hn20 : Sq.make 6 (castling_rank Color.black) ≠
      Sq.make 4 (castling_rank Color.black) := by decide
  have hn21 : Sq.make 6 (castling_rank Color.black) ≠
      Sq.make 5 (castling_rank Color.black) := by decide
  have hn23 : Sq.make 6 (castling_rank Color.black) ≠
      Sq.make 7 (castling_rank Color.black) := by decide
  have hn30 : Sq.make 7 (castling_rank Color.black) ≠
      Sq.make 4 (castling_rank Color.black) := by decide
  have hn31 : Sq.make 7 (castling_rank Color.black) ≠
      Sq.make 5 (castling_rank Color.black) := by decide
  have hn32 : Sq.make 7 (castling_rank Color.black) ≠
      Sq.make 6 (castling_rank Color.black) := by decide
  cases hep : b.r.ep_src <;>
  (simp only [Cell.make] at hK hR
   simp only [do_make_move, do_unmake_move, do_make_castling_kingside, hk, hep,
     Board.get, RawBoard.get, RawBoard.put, Board.set_color, Board.set_cell, Board.color,
     Board.cell, Board.all, Color.inv, castling.offset, Function.update_apply,
     Cell.make, ne_eq, not_false_iff, not_true, if_true, if_false, ite_true, ite_false,
     reduceCtorEq, reduceIte, hside]
   refine board_eq_of_parts _ _ (raw_eq_of_parts _ _ ?_ ?_ ?_ ?_ ?_ ?_) ?_ ?_ ?_ ?_ ?_ <;>
     dsimp only
   all_goals
     first
     | rfl
     | exact hside.symm
     | exact hep.symm
     | omega
     | (funext x
        rcases eq_or_ne x (Sq.make 4 (castling_rank Color.black)) with rfl | hx0
        · simp [Function.update_apply, hn01, hn02, hn03, hn10, hn12, hn13, hn20, hn21, hn23, hn30, hn31, hn32, hK]
        · rcases eq_or_ne x (Sq.make 5 (castling_rank Color.black)) with rfl | hx1
          · simp [Function.update_apply, hn01, hn02, hn03, hn10, hn12, hn13, hn20, hn21, hn23, hn30, hn31, hn32, hE1]
          · rcases eq_or_ne x (Sq.make 6 (castling_rank Color.black)) with rfl | hx2
            · simp [Function.update_apply, hn01, hn02, hn03, hn10, hn12, hn13, hn20, hn21, hn23, hn30, hn31, hn32, hE2]
            · rcases eq_or_ne x (Sq.make 7 (castling_rank Color.black)) with rfl | hx3
              · simp [Function.update_apply, hn01, hn02, hn03, hn10, hn12, hn13, hn20, hn21, hn23, hn30, hn31, hn32, hR]
              · simp [Function.update_apply, hx0, hx1, hx2, hx3])
     | exact xor_restore _ _
     | (funext y
        simp only [Function.update_apply]
        split_ifs with hq1 hq2
        all_goals
          first
          | rfl
          | (subst hq1
             exact xor_restore _ _)
          | (subst hq2
             exact xor_restore _ _))
     | (rw [hall]
        congr 1 <;>
          first
          | rfl
          | exact xor_restore _ _))


set_option maxHeartbeats 1600000 in
theorem restore_castle_q_black (z : Zobrist) (b : Board) (mv : Move)
    (hc : board_consistent z b) (hside : b.r.side = Color.black) (hcast : castling_ok b.r)
    (hk : mv.kind = MoveKind.castling_queenside)
    (hsem : do_is_move_semilegal Color.black b mv = true) :
    do_unmake_move z Color.black (do_make_move z Color.black b mv).1 mv
      (do_make_move z Color.black b mv).2 = b := by
  obtain ⟨hhas, hpass⟩ := semilegal_castleq_facts Color.black b mv hk hsem
  obtain ⟨hK0, hR0⟩ := hcast Color.black CastlingSide.queen hhas
  have hK : b.r.squares (Sq.make 4 (castling_rank Color.black)) =
      Cell.make Color.black Piece.king := hK0
  have hR : b.r.squares (Sq.make 0 (castling_rank Color.black)) =
      Cell.make Color.black Piece.rook := hR0
  have hball : ∀ i, (castling.pass Color.black CastlingSide.queen).testBit i = true →
      b.all_v.testBit i = false := by
    intro i hi
    have h := congrArg (fun n => Nat.testBit n i) hpass
    simpa only [Board.all, Nat.testBit_and, Nat.zero_testBit, hi, Bool.and_true] using h
  have hE1 : b.r.squares (Sq.make 2 (castling_rank Color.black)) = Cell.none :=
    cell_none_of_all_bit z b hc _ (hball _ (by decide))
  have hE2 : b.r.squares (Sq.make 3 (castling_rank Color.black)) = Cell.none :=
    cell_none_of_all_bit z b hc _ (hball _ (by decide))
  have hall := hc.2.2.2.2
  have hn01 : Sq.make 0 (castling_rank Color.black) ≠
      Sq.make 2 (castling_rank Color.black) := by decide
  have hn02 : Sq.make 0 (castling_rank Color.black) ≠
      Sq.make 3 (castling_rank Color.black) := by decide
  have hn03 : Sq.make 0 (castling_rank Color.black) ≠
      Sq.make 4 (castling_rank Color.black) := by decide
  have hn10 : Sq.make 2 (castling_rank Color.black) ≠
      Sq.make 0 (castling_rank Color.black) := by decide
  have hn12 : Sq.make 2 (castling_rank Color.black) ≠
      Sq.make 3 (castling_rank Color.black) := by decide
  have hn13 : Sq.make 2 (castling_rank Color.black) ≠
      Sq.make 4 (castling_rank Color.black) := by decide
  have hn20 : Sq.make 3 (castling_rank Color.black) ≠
      Sq.make 0 (castling_rank Color.black) := by decide
  have hn21 : Sq.make 3 (castling_rank Color.black) ≠
      Sq.make 2 (castling_rank Color.black) := by decide
  have hn23 : Sq.make 3 (castling_rank Color.black) ≠
      Sq.make 4 (castling_rank Color.black) := by decide
  have hn30 : Sq.make 4 (castling_rank Color.black) ≠
      Sq.make 0 (castling_rank Color.black) := by decide
  have hn31 : Sq.make 4 (castling_rank Color.black) ≠
      Sq.make 2 (castling_rank Color.black) := by decide
  have hn32 : Sq.make 4 (castling_rank Color.black) ≠
      Sq.make 3 (castling_rank Color.black) := by decide
  cases hep : b.r.ep_src <;>
  (simp only [Cell.make] at hK hR
   simp only [do_make_move, do_unmake_move, do_make_castling_queenside, hk, hep,
     Board.get, RawBoard.get, RawBoard.put, Board.set_color, Board.set_cell, Board.color,
     Board.cell, Board.all, Color.inv, castling.offset, Function.update_apply,
     Cell.make, ne_eq, not_false_iff, not_true, if_true, if_false, ite_true, ite_false,
     reduceCtorEq, reduceIte, hside]
   refine board_eq_of_parts _ _ (raw_eq_of_parts _ _ ?_ ?_ ?_ ?_ ?_ ?_) ?_ ?_ ?_ ?_ ?_ <;>
     dsimp only
   all_goals
     first
     | rfl
     | exact hside.symm
     | exact hep.symm
     | omega
     | (funext x
        rcases eq_or_ne x (Sq.make 0 (castling_rank Color.black)) with rfl | hx0
        · simp [Function.update_apply, hn01, hn02, hn03, hn10, hn12, hn13, hn20, hn21, hn23, hn30, hn31, hn32, hR]
        · rcases eq_or_ne x (Sq.make 2 (castling_rank Color.black)) with rfl | hx1
          · simp [Function.update_apply, hn01, hn02, hn03, hn10, hn12, hn13, hn20, hn21, hn23, hn30, hn31, hn32, hE1]
          · rcases eq_or_ne x (Sq.make 3 (castling_rank Color.black)) with rfl | hx2
            · simp [Function.update_apply, hn01, hn02, hn03, hn10, hn12, hn13, hn20, hn21, hn23, hn30, hn31, hn32, hE2]
            · rcases eq_or_ne x (Sq.make 4 (castling_rank Color.black)) with rfl | hx3
              · simp [Function.update_apply, hn01, hn02, hn03, hn10, hn12, hn13, hn20, hn21, hn23, hn30, hn31, hn32, hK]
              · simp [Function.update_apply, hx0, hx1, hx2, hx3])
     | exact xor_restore _ _
     | (funext y
        simp only [Function.update_apply]
        split_ifs with hq1 hq2
        all_goals
          first
          | rfl
          | (subst hq1
             exact xor_restore _ _)
          | (subst hq2
             exact xor_restore _ _))
     | (rw [hall]
        congr 1 <;>
          first
          | rfl
          | exact xor_restore _ _))

theorem make_side (z : Zobrist) (c : Color) (b : Board) (mv : Move) :
    (do_make_move z c b mv).1.r.side = c.inv := by
  cases c <;> rfl

theorem make_unmake_restores (z : Zobrist) (raw : RawBoard) (b : Board) (mv : Move)
    (hb : Board.try_from z raw = Except.ok b)
    (hwf : mv.is_well_formed = true)
    (hv : mv.validate b = Except.ok ()) :
    unmake_move_unchecked z (make_move_unchecked z b mv).1 mv
      (make_move_unchecked z b mv).2 = b := by
  obtain ⟨hc, hepo, hcast⟩ := try_from_inv z raw b hb
  have hsem : do_is_move_semilegal b.r.side b mv = true := by
    unfold Move.validate Move.semi_validate at hv
    by_cases h : Move.is_semilegal mv b
    · exact h
    · rw [if_neg h] at hv
      simp at hv
  have hmk : make_move_unchecked z b mv = do_make_move z b.r.side b mv := rfl
  cases hside : b.r.side with
  | white =>
    rw [hside] at hsem
    rw [hmk, hside]
    have hps : (do_make_move z Color.white b mv).1.r.side = Color.black :=
      make_side z Color.white b mv
    unfold unmake_move_unchecked
    rw [hps]
    cases hk : mv.kind with
    | simple => exact restore_simple z Color.white b mv hc hside (Or.inl hk) hsem
    | pawn_simple => exact restore_simple z Color.white b mv hc hside (Or.inr hk) hsem
    | pawn_double => exact restore_double z Color.white b mv hc hside hk hwf hsem
    | promote_knight =>
      exact restore_promote z Color.white b mv hc hside (Or.inl hk) hsem
    | promote_bishop =>
      exact restore_promote z Color.white b mv hc hside (Or.inr (Or.inl hk)) hsem
    | promote_rook =>
      exact restore_promote z Color.white b mv hc hside (Or.inr (Or.inr (Or.inl hk))) hsem
    | promote_queen =>
      exact restore_promote z Color.white b mv hc hside (Or.inr (Or.inr (Or.inr hk))) hsem
    | enpassant => exact restore_enpassant z Color.white b mv hc hside hepo hk hsem
    | castling_kingside => exact restore_castle_k_white z b mv hc hside hcast hk hsem
    | castling_queenside => exact restore_castle_q_white z b mv hc hside hcast hk hsem
    | null => simp [do_is_move_semilegal, hk] at hsem
  | black =>
    rw [hside] at hsem
    rw [hmk, hside]
    have hps : (do_make_move z Color.black b mv).1.r.side = Color.white :=
      make_side z Color.black b mv
    unfold unmake_move_unchecked
    rw [hps]
    cases hk : mv.kind with
    | simple => exact restore_simple z Color.black b mv hc hside (Or.inl hk) hsem
    | pawn_simple => exact restore_simple z Color.black b mv hc hside (Or.inr hk) hsem
    | pawn_double => exact restore_double z Color.black b mv hc hside hk hwf hsem
    | promote_knight =>
      exact restore_promote z Color.black b mv hc hside (Or.inl hk) hsem
    | promote_bishop =>
      exact restore_promote z Color.black b mv hc hside (Or.inr (Or.inl hk)) hsem
    | promote_rook =>
      exact restore_promote z Color.black b mv hc hside (Or.inr (Or.inr (Or.inl hk))) hsem
    | promote_queen =>
      exact restore_promote z Color.black b mv hc hside (Or.inr (Or.inr (Or.inr hk))) hsem
    | enpassant => exact restore_enpassant z Color.black b mv hc hside hepo hk hsem
    | castling_kingside => exact restore_castle_k_black z b mv hc hside hcast hk hsem
    | castling_queenside => exact restore_castle_q_black z b mv hc hside hcast hk hsem
    | null => simp [do_is_move_semilegal, hk] at hsem

theorem update_castling_r_castling (z : Zobrist) (X : Board) (ch : Bitboard) :
    (update_castling z X ch).r.castling =
      if ch &&& castling.all_srcs = 0 then X.r.castling
      else castling_update_rights X.r.castling ch := by
  unfold update_castling castling_update_rights
  dsimp only
  split_ifs <;> first
  | rfl
  | (rename_i hcr
     exact (not_not.mp hcr).symm)

theorem update_castling_hash_expand (z : Zobrist) (X : Board) (ch : Bitboard) :
    (update_castling z X ch).hash =
      X.hash ^^^ z.castling X.r.castling.val ^^^
      z.castling ((update_castling z X ch).r.castling.val) := by
  unfold update_castling
  dsimp only
  split_ifs <;>
    simp [xor_restore, Nat.xor_assoc, Nat.xor_comm, xor_left_comm, Nat.xor_self,
      Nat.xor_zero]

set_option maxHeartbeats 3200000 in
theorem make_hash_simple (z : Zobrist) (hz : z.wf) (c : Color) (b : Board) (mv : Move)
    (hc : board_consistent z b) (hside : b.r.side = c)
    (hk : mv.kind = MoveKind.simple ∨ mv.kind = MoveKind.pawn_simple)
    (hsem : do_is_move_semilegal c b mv = true) :
    (do_make_move z c b mv).1.hash =
      (do_make_move z c b mv).1.r.zobrist_hash z := by
  obtain ⟨h1, h2⟩ := semilegal_simple_facts c b mv hk hsem
  simp only [Board.get, RawBoard.get] at h1 h2
  have hne : mv.src ≠ mv.dst := fun h => h2 (h ▸ h1)
  have hne' : mv.dst ≠ mv.src := fun h => hne h.symm
  by_cases hpn : b.r.squares mv.src = Cell.make c Piece.pawn <;>
  rcases hk with hk | hk <;>
  cases hep : b.r.ep_src <;>
  cases c <;>
  (simp only [Cell.make] at hpn
   simp only [do_make_move, hk, hep, hpn, Board.get, RawBoard.get,
     RawBoard.put, Board.set_color, Board.set_cell, Board.color, Board.cell, Board.all,
     Color.inv, hne, hne',
     update_castling_hash_expand, update_castling_r_castling,
     update_castling_frame_white, update_castling_frame_black,
     update_castling_frame_cells, update_castling_frame_all, update_castling_frame_squares,
     update_castling_frame_side, update_castling_frame_ep, update_castling_frame_mc,
     update_castling_frame_mn,
     Cell.make, ne_eq, not_false_iff, not_true, if_true, if_false, ite_true, ite_false,
     reduceCtorEq, reduceIte, hside]
   rw [zobrist_hash_wf z hz]
   try simp only [update_castling_frame_squares, update_castling_frame_side,
     update_castling_frame_ep]
   try dsimp only
   rw [hc.1, zobrist_hash_wf z hz]
   simp only [hside, hep, key_of_update, xorSquares_update]
   simp only [Function.update_apply, hne, hne', ne_eq, ite_true, ite_false, if_true,
     if_false, reduceCtorEq, reduceIte, hz.1, hpn]
   simp [Nat.xor_assoc, Nat.xor_comm, xor_left_comm, Nat.xor_self, Nat.xor_zero,
     Nat.zero_xor, Nat.xor_cancel_left])

set_option maxHeartbeats 3200000 in
theorem make_hash_promote (z : Zobrist) (hz : z.wf) (c : Color) (b : Board) (mv : Move)
    (hc : board_consistent z b) (hside : b.r.side = c)
    (hk : mv.kind = MoveKind.promote_knight ∨ mv.kind = MoveKind.promote_bishop ∨
      mv.kind = MoveKind.promote_rook ∨ mv.kind = MoveKind.promote_queen)
    (hsem : do_is_move_semilegal c b mv = true) :
    (do_make_move z c b mv).1.hash =
      (do_make_move z c b mv).1.r.zobrist_hash z := by
  obtain ⟨hsrc, h2⟩ := semilegal_pawnlike_facts c b mv (Or.inr hk) hsem
  simp only [Board.get, RawBoard.get] at hsrc h2
  have h1 : (b.r.squares mv.src).color = some c := by
    rw [hsrc]
    exact cell_make_color c Piece.pawn
  have hne : mv.src ≠ mv.dst := fun h => h2 (h ▸ h1)
  have hne' : mv.dst ≠ mv.src := fun h => hne h.symm
  rcases hk with hk | hk | hk | hk <;>
  cases hep : b.r.ep_src <;>
  cases c <;>
  (simp only [Cell.make] at hsrc
   simp only [do_make_move, hk, hep, hsrc, Board.get, RawBoard.get,
     RawBoard.put, Board.set_color, Board.set_cell, Board.color, Board.cell, Board.all,
     Color.inv, MoveKind.promote, Option.getD, hne, hne',
     update_castling_hash_expand, update_castling_r_castling,
     update_castling_frame_white, update_castling_frame_black,
     update_castling_frame_cells, update_castling_frame_all, update_castling_frame_squares,
     update_castling_frame_side, update_castling_frame_ep, update_castling_frame_mc,
     update_castling_frame_mn,
     Cell.make, ne_eq, not_false_iff, not_true, if_true, if_false, ite_true, ite_false,
     reduceCtorEq, reduceIte, hside]
   rw [zobrist_hash_wf z hz]
   try simp only [update_castling_frame_squares, update_castling_frame_side,
     update_castling_frame_ep]
   try dsimp only
   rw [hc.1, zobrist_hash_wf z hz]
   simp only [hside, hep, key_of_update, xorSquares_update]
   simp only [Function.update_apply, hne, hne', ne_eq, ite_true, ite_false, if_true,
     if_false, reduceCtorEq, reduceIte, hz.1, hsrc, Cell.make]
   simp [Nat.xor_assoc, Nat.xor_comm, xor_left_comm, Nat.xor_self, Nat.xor_zero,
     Nat.zero_xor, Nat.xor_cancel_left])

set_option maxHeartbeats 1600000 in
theorem make_hash_double (z : Zobrist) (hz : z.wf) (c : Color) (b : Board) (mv : Move)
    (hc : board_consistent z b) (hside : b.r.side = c)
    (hk : mv.kind = MoveKind.pawn_double)
    (hwf : mv.is_well_formed = true)
    (hsem : do_is_move_semilegal c b mv = true) :
    (do_make_move z c b mv).1.hash =
      (do_make_move z c b mv).1.r.zobrist_hash z := by
  obtain ⟨hsrc, hne, hbit⟩ := semilegal_double_facts c b mv hk hwf hsem
  simp only [Board.get, RawBoard.get] at hsrc
  have hne' : mv.dst ≠ mv.src := fun h => hne h.symm
  have hdst_none : b.r.squares mv.dst = Cell.none := by
    have h := hbit
    rw [hc.2.2.2.2, Nat.testBit_or, cons_white_bit z b hc, cons_black_bit z b hc] at h
    have hcl : ∀ x : Cell,
        (decide (x.color = some Color.white) || decide (x.color = some Color.black)) = false →
        x = Cell.none := by decide
    exact hcl _ h
  cases hep : b.r.ep_src <;>
  cases c <;>
  (simp only [Cell.make] at hsrc
   simp only [do_make_move, do_make_pawn_double, hk, hep, hsrc, hdst_none,
     Board.get, RawBoard.get, RawBoard.put, Board.set_color, Board.set_cell, Board.color,
     Board.cell, Board.all, Color.inv, hne, hne',
     Cell.make, ne_eq, not_false_iff, not_true, if_true, if_false, ite_true, ite_false,
     reduceCtorEq, reduceIte, hside]
   rw [zobrist_hash_wf z hz]
   try dsimp only
   rw [hc.1, zobrist_hash_wf z hz]
   simp only [hside, hep, key_of_update, xorSquares_update]
   simp only [Function.update_apply, hne, hne', ne_eq, ite_true, ite_false, if_true,
     if_false, reduceCtorEq, reduceIte, hz.1, hdst_none, hsrc]
   simp [Nat.xor_assoc, Nat.xor_comm, xor_left_comm, Nat.xor_self, Nat.xor_zero,
     Nat.zero_xor, Nat.xor_cancel_left])

set_option maxHeartbeats 1600000 in
theorem make_hash_enpassant (z : Zobrist) (hz : z.wf) (c : Color) (b : Board) (mv : Move)
    (hc : board_consistent z b) (hside : b.r.side = c) (hep_ok : ep_ok b.r)
    (hk : mv.kind = MoveKind.enpassant)
    (hsem : do_is_move_semilegal c b mv = true) :
    (do_make_move z c b mv).1.hash =
      (do_make_move z c b mv).1.r.zobrist_hash z := by
  obtain ⟨hsrc, p, hepq, hadj, hdst⟩ := semilegal_ep_facts c b mv hk hsem
  simp only [Board.get, RawBoard.get] at hsrc
  obtain ⟨hpr, hpcell, hpath⟩ := hep_ok p hepq
  rw [hside] at hpcell hpath
  have htaken : mv.dst.addU (-(pawn_forward_delta c)) = p := by
    rw [hdst, Sq.addU_cancel]
  have hdst_none : b.r.squares mv.dst = Cell.none := by
    rw [hdst]
    exact hpath
  have hsd : mv.src ≠ mv.dst := fun h => by
    rw [h, hdst_none] at hsrc
    exact cell_make_ne_none c Piece.pawn hsrc.symm
  have hds : mv.dst ≠ mv.src := fun h => hsd h.symm
  have hsp : mv.src ≠ p := fun h => by
    rw [h, hpcell] at hsrc
    exact color_inv_ne c (cell_make_inj _ _ _ _ hsrc).1
  have hps : p ≠ mv.src := fun h => hsp h.symm
  have hdp : mv.dst ≠ p := fun h => by
    rw [h, hpcell] at hdst_none
    exact cell_make_ne_none c.inv Piece.pawn hdst_none
  have hpd : p ≠ mv.dst := fun h => hdp h.symm
  cases c <;>
  (simp only [Cell.make, Color.inv] at hsrc hpcell
   simp only [do_make_move, do_make_enpassant, hk, hepq, htaken,
     Board.get, RawBoard.get, RawBoard.put, Board.set_color, Board.set_cell,
     Board.color, Board.cell, Board.all, Color.inv,
     Cell.make, ne_eq, not_false_iff, not_true, if_true, if_false, ite_true, ite_false,
     reduceCtorEq, reduceIte, hside]
   rw [zobrist_hash_wf z hz]
   try dsimp only
   rw [hc.1, zobrist_hash_wf z hz]
   simp only [hside, hepq, key_of_update, xorSquares_update]
   simp only [Function.update_apply, hsd, hds, hsp, hps, hdp, hpd, ne_eq, ite_true,
     ite_false, if_true, if_false, reduceCtorEq, reduceIte, hz.1, hsrc, hpcell,
     hdst_none]
   simp [Nat.xor_assoc, Nat.xor_comm, xor_left_comm, Nat.xor_self, Nat.xor_zero,
     Nat.zero_xor, Nat.xor_cancel_left])

set_option maxHeartbeats 1600000 in
theorem make_hash_castle_k_white (z : Zobrist) (hz : z.wf) (b : Board) (mv : Move)
    (hc : board_consistent z b) (hside : b.r.side = Color.white) (hcast : castling_ok b.r)
    (hk : mv.kind = MoveKind.castling_kingside)
    (hsem : do_is_move_semilegal Color.white b mv = true) :
    (do_make_move z Color.white b mv).1.hash =
      (do_make_move z Color.white b mv).1.r.zobrist_hash z := by
  obtain ⟨hhas, hpass⟩ := semilegal_castlek_facts Color.white b mv hk hsem
  obtain ⟨hK, hR⟩ := hcast Color.white CastlingSide.king hhas
  have hball : ∀ i, (castling.pass Color.white CastlingSide.king).testBit i = true →
      b.all_v.testBit i = false := by
    intro i hi
    have h := congrArg (fun n => Nat.testBit n i) hpass
    simpa only [Board.all, Nat.testBit_and, Nat.zero_testBit, hi, Bool.and_true] using h
  have hE1 : b.r.squares (Sq.make ⟨5, by decide⟩ (castling_rank Color.white)) = Cell.none :=
    cell_none_of_all_bit z b hc _ (hball _ (by decide))
  have hE2 : b.r.squares (Sq.make ⟨6, by decide⟩ (castling_rank Color.white)) = Cell.none :=
    cell_none_of_all_bit z b hc _ (hball _ (by decide))
  simp only [rook_home] at hR
  simp only [Sq.make, castling_rank, Nat.reduceMul, Nat.reduceAdd] at hK hR hE1 hE2
  have hn01 : (⟨60, by decide⟩ : Sq) ≠ (⟨61, by decide⟩ : Sq) := by decide
  have hn02 : (⟨60, by decide⟩ : Sq) ≠ (⟨62, by decide⟩ : Sq) := by decide
  have hn03 : (⟨60, by decide⟩ : Sq) ≠ (⟨63, by decide⟩ : Sq) := by decide
  have hn10 : (⟨61, by decide⟩ : Sq) ≠ (⟨60, by decide⟩ : Sq) := by decide
  have hn12 : (⟨61, by decide⟩ : Sq) ≠ (⟨62, by decide⟩ : Sq) := by decide
  have hn13 : (⟨61, by decide⟩ : Sq) ≠ (⟨63, by decide⟩ : Sq) := by decide
  have hn20 : (⟨62, by decide⟩ : Sq) ≠ (⟨60, by decide⟩ : Sq) := by decide
  have hn21 : (⟨62, by decide⟩ : Sq) ≠ (⟨61, by decide⟩ : Sq) := by decide
  have hn23 : (⟨62, by decide⟩ : Sq) ≠ (⟨63, by decide⟩ : Sq) := by decide
  have hn30 : (⟨63, by decide⟩ : Sq) ≠ (⟨60, by decide⟩ : Sq) := by decide
  have hn31 : (⟨63, by decide⟩ : Sq) ≠ (⟨61, by decide⟩ : Sq) := by decide
  have hn32 : (⟨63, by decide⟩ : Sq) ≠ (⟨62, by decide⟩ : Sq) := by decide
  cases hep : b.r.ep_src <;>
  (simp only [do_make_move, do_make_castling_kingside, hk, hep,
     Board.get, RawBoard.get, RawBoard.put, Board.set_color, Board.set_cell,
     Board.color, Board.cell, Board.all, Color.inv,
     Cell.make, ne_eq, not_false_iff, not_true, if_true, if_false, ite_true, ite_false,
     reduceCtorEq, reduceIte, hside]
   rw [zobrist_hash_wf z hz]
   try dsimp only
   rw [hc.1, zobrist_hash_wf z hz]
   simp only [hside, hep, key_of_update, xorSquares_update]
   simp only [Sq.make, castling_rank, Nat.reduceMul, Nat.reduceAdd]
   simp only [Function.update_apply, hn01, hn02, hn03, hn10, hn12, hn13, hn20, hn21, hn23, hn30, hn31, hn32, ne_eq, ite_true,
     ite_false, if_true, if_false, reduceCtorEq, reduceIte, hz.1, hK, hR, hE1, hE2,
     Cell.make]
   simp only [hz.2.1, hz.2.2, castle_sq, castling.offset, Nat.reduceAdd, Cell.make]
   simp [Nat.xor_assoc, Nat.xor_comm, xor_left_comm, Nat.xor_self, Nat.xor_zero,
     Nat.zero_xor, Nat.xor_cancel_left])


set_option maxHeartbeats 1600000 in
theorem make_hash_castle_q_white (z : Zobrist) (hz : z.wf) (b : Board) (mv : Move)
    (hc : board_consistent z b) (hside : b.r.side = Color.white) (hcast : castling_ok b.r)
    (hk : mv.kind = MoveKind.castling_queenside)
    (hsem : do_is_move_semilegal Color.white b mv = true) :
    (do_make_move z Color.white b mv).1.hash =
      (do_make_move z Color.white b mv).1.r.zobrist_hash z := by
  obtain ⟨hhas, hpass⟩ := semilegal_castleq_facts Color.white b mv hk hsem
  obtain ⟨hK, hR⟩ := hcast Color.white CastlingSide.queen hhas
  have hball : ∀ i, (castling.pass Color.white CastlingSide.queen).testBit i = true →
      b.all_v.testBit i = false := by
    intro i hi
    have h := congrArg (fun n => Nat.testBit n i) hpass
    simpa only [Board.all, Nat.testBit_and, Nat.zero_testBit, hi, Bool.and_true] using h
  have hE1 : b.r.squares (Sq.make ⟨2, by decide⟩ (castling_rank Color.white)) = Cell.none :=
    cell_none_of_all_bit z b hc _ (hball _ (by decide))
  have hE2 : b.r.squares (Sq.make ⟨3, by decide⟩ (castling_rank Color.white)) = Cell.none :=
    cell_none_of_all_bit z b hc _ (hball _ (by decide))
  simp only [rook_home] at hR
  simp only [Sq.make, castling_rank, Nat.reduceMul, Nat.reduceAdd] at hK hR hE1 hE2
  have hn01 : (⟨56, by decide⟩ : Sq) ≠ (⟨58, by decide⟩ : Sq) := by decide
  have hn02 : (⟨56, by decide⟩ : Sq) ≠ (⟨59, by decide⟩ : Sq) := by decide
  have hn03 : (⟨56, by decide⟩ : Sq) ≠ (⟨60, by decide⟩ : Sq) := by decide
  have hn10 : (⟨58, by decide⟩ : Sq) ≠ (⟨56, by decide⟩ : Sq) := by decide
  have hn12 : (⟨58, by decide⟩ : Sq) ≠ (⟨59, by decide⟩ : Sq) := by decide
  have hn13 : (⟨58, by decide⟩ : Sq) ≠ (⟨60, by decide⟩ : Sq) := by decide
  have hn20 : (⟨59, by decide⟩ : Sq) ≠ (⟨56, by decide⟩ : Sq) := by decide
  have hn21 : (⟨59, by decide⟩ : Sq) ≠ (⟨58, by decide⟩ : Sq) := by decide
  have hn23 : (⟨59, by decide⟩ : Sq) ≠ (⟨60, by decide⟩ : Sq) := by decide
  have hn30 : (⟨60, by decide⟩ : Sq) ≠ (⟨56, by decide⟩ : Sq) := by decide
  have hn31 : (⟨60, by decide⟩ : Sq) ≠ (⟨58, by decide⟩ : Sq) := by decide
  have hn32 : (⟨60, by decide⟩ : Sq) ≠ (⟨59, by decide⟩ : Sq) := by decide
  cases hep : b.r.ep_src <;>
  (simp only [do_make_move, do_make_castling_queenside, hk, hep,
     Board.get, RawBoard.get, RawBoard.put, Board.set_color, Board.set_cell,
     Board.color, Board.cell, Board.all, Color.inv,
     Cell.make, ne_eq, not_false_iff, not_true, if_true, if_false, ite_true, ite_false,
     reduceCtorEq, reduceIte, hside]
   rw [zobrist_hash_wf z hz]
   try dsimp only
   rw [hc.1, zobrist_hash_wf z hz]
   simp only [hside, hep, key_of_update, xorSquares_update]
   simp only [Sq.make, castling_rank, Nat.reduceMul, Nat.reduceAdd]
   simp only [Function.update_apply, hn01, hn02, hn03, hn10, hn12, hn13, hn20, hn21, hn23, hn30, hn31, hn32, ne_eq, ite_true,
     ite_false, if_true, if_false, reduceCtorEq, reduceIte, hz.1, hK, hR, hE1, hE2,
     Cell.make]
   simp only [hz.2.1, hz.2.2, castle_sq, castling.offset, Nat.reduceAdd, Cell.make]
   simp [Nat.xor_assoc, Nat.xor_comm, xor_left_comm, Nat.xor_self, Nat.xor_zero,
     Nat.zero_xor, Nat.xor_cancel_left])


set_option maxHeartbeats 1600000 in
theorem make_hash_castle_k_black (z : Zobrist) (hz : z.wf) (b : Board) (mv : Move)
    (hc : board_consistent z b) (hside : b.r.side = Color.black) (hcast : castling_ok b.r)
    (hk : mv.kind = MoveKind.castling_kingside)
    (hsem : do_is_move_semilegal Color.black b mv = true) :
    (do_make_move z Color.black b mv).1.hash =
      (do_make_move z Color.black b mv).1.r.zobrist_hash z := by
  obtain ⟨hhas, hpass⟩ := semilegal_castlek_facts Color.black b mv hk hsem
  obtain ⟨hK, hR⟩ := hcast Color.black CastlingSide.king hhas
  have hball : ∀ i, (castling.pass Color.black CastlingSide.king).testBit i = true →
      b.all_v.testBit i = false := by
    intro i hi
    have h := congrArg (fun n => Nat.testBit n i) hpass
    simpa only [Board.all, Nat.testBit_and, Nat.zero_testBit, hi, Bool.and_true] using h
  have hE1 : b.r.squares (Sq.make ⟨5, by decide⟩ (castling_rank Color.black)) = Cell.none :=
    cell_none_of_all_bit z b hc _ (hball _ (by decide))
  have hE2 : b.r.squares (Sq.make ⟨6, by decide⟩ (castling_rank Color.black)) = Cell.none :=
    cell_none_of_all_bit z b hc _ (hball _ (by decide))
  simp only [rook_home] at hR
  simp only [Sq.make, castling_rank, Nat.reduceMul, Nat.reduceAdd] at hK hR hE1 hE2
  have hn01 : (⟨4, by decide⟩ : Sq) ≠ (⟨5, by decide⟩ : Sq) := by decide
  have hn02 : (⟨4, by decide⟩ : Sq) ≠ (⟨6, by decide⟩ : Sq) := by decide
  have hn03 : (⟨4, by decide⟩ : Sq) ≠ (⟨7, by decide⟩ : Sq) := by decide
  have hn10 : (⟨5, by decide⟩ : Sq) ≠ (⟨4, by decide⟩ : Sq) := by decide
  have hn12 : (⟨5, by decide⟩ : Sq) ≠ (⟨6, by decide⟩ : Sq) := by decide
  have hn13 : (⟨5, by decide⟩ : Sq) ≠ (⟨7, by decide⟩ : Sq) := by decide
  have hn20 : (⟨6, by decide⟩ : Sq) ≠ (⟨4, by decide⟩ : Sq) := by decide
  have hn21 : (⟨6, by decide⟩ : Sq) ≠ (⟨5, by decide⟩ : Sq) := by decide
  have hn23 : (⟨6, by decide⟩ : Sq) ≠ (⟨7, by decide⟩ : Sq) := by decide
  have hn30 : (⟨7, by decide⟩ : Sq) ≠ (⟨4, by decide⟩ : Sq) := by decide
  have hn31 : (⟨7, by decide⟩ : Sq) ≠ (⟨5, by decide⟩ : Sq) := by decide
  have hn32 : (⟨7, by decide⟩ : Sq) ≠ (⟨6, by decide⟩ : Sq) := by decide
  cases hep : b.r.ep_src <;>
  (simp only [do_make_move, do_make_castling_kingside, hk, hep,
     Board.get, RawBoard.get, RawBoard.put, Board.set_color, Board.set_cell,
     Board.color, Board.cell, Board.all, Color.inv,
     Cell.make, ne_eq, not_false_iff, not_true, if_true, if_false, ite_true, ite_false,
     reduceCtorEq, reduceIte, hside]
   rw [zobrist_hash_wf z hz]
   try dsimp only
   rw [hc.1, zobrist_hash_wf z hz]
   simp only [hside, hep, key_of_update, xorSquares_update]
   simp only [Sq.make, castling_rank, Nat.reduceMul, Nat.reduceAdd]
   simp only [Function.update_apply, hn01, hn02, hn03, hn10, hn12, hn13, hn20, hn21, hn23, hn30, hn31, hn32, ne_eq, ite_true,
     ite_false, if_true, if_false, reduceCtorEq, reduceIte, hz.1, hK, hR, hE1, hE2,
     Cell.make]
   simp only [hz.2.1, hz.2.2, castle_sq, castling.offset, Nat.reduceAdd, Cell.make]
   simp [Nat.xor_assoc, Nat.xor_comm, xor_left_comm, Nat.xor_self, Nat.xor_zero,
     Nat.zero_xor, Nat.xor_cancel_left])


set_option maxHeartbeats 1600000 in
theorem make_hash_castle_q_black (z : Zobrist) (hz : z.wf) (b : Board) (mv : Move)
    (hc : board_consistent z b) (hside : b.r.side = Color.black) (hcast : castling_ok b.r)
    (hk : mv.kind = MoveKind.castling_queenside)
    (hsem : do_is_move_semilegal Color.black b mv = true) :
    (do_make_move z Color.black b mv).1.hash =
      (do_make_move z Color.black b mv).1.r.zobrist_hash z := by
  obtain ⟨hhas, hpass⟩ := semilegal_castleq_facts Color.black b mv hk hsem
  obtain ⟨hK, hR⟩ := hcast Color.black CastlingSide.queen hhas
  have hball : ∀ i, (castling.pass Color.black CastlingSide.queen).testBit i = true →
      b.all_v.testBit i = false := by
    intro i hi
    have h := congrArg (fun n => Nat.testBit n i) hpass
    simpa only [Board.all, Nat.testBit_and, Nat.zero_testBit, hi, Bool.and_true] using h
  have hE1 : b.r.squares (Sq.make ⟨2, by decide⟩ (castling_rank Color.black)) = Cell.none :=
    cell_none_of_all_bit z b hc _ (hball _ (by decide))
  have hE2 : b.r.squares (Sq.make ⟨3, by decide⟩ (castling_rank Color.black)) = Cell.none :=
    cell_none_of_all_bit z b hc _ (hball _ (by decide))
  simp only [rook_home] at hR
  simp only [Sq.make, castling_rank, Nat.reduceMul, Nat.reduceAdd] at hK hR hE1 hE2
  have hn01 : (⟨0, by decide⟩ : Sq) ≠ (⟨2, by decide⟩ : Sq) := by decide
  have hn02 : (⟨0, by decide⟩ : Sq) ≠ (⟨3, by decide⟩ : Sq) := by decide
  have hn03 : (⟨0, by decide⟩ : Sq) ≠ (⟨4, by decide⟩ : Sq) := by decide
  have hn10 : (⟨2, by decide⟩ : Sq) ≠ (⟨0, by decide⟩ : Sq) := by decide
  have hn12 : (⟨2, by decide⟩ : Sq) ≠ (⟨3, by decide⟩ : Sq) := by decide
  have hn13 : (⟨2, by decide⟩ : Sq) ≠ (⟨4, by decide⟩ : Sq) := by decide
  have hn20 : (⟨3, by decide⟩ : Sq) ≠ (⟨0, by decide⟩ : Sq) := by decide
  have hn21 : (⟨3, by decide⟩ : Sq) ≠ (⟨2, by decide⟩ : Sq) := by decide
  have hn23 : (⟨3, by decide⟩ : Sq) ≠ (⟨4, by decide⟩ : Sq) := by decide
  have hn30 : (⟨4, by decide⟩ : Sq) ≠ (⟨0, by decide⟩ : Sq) := by decide
  have hn31 : (⟨4, by decide⟩ : Sq) ≠ (⟨2, by decide⟩ : Sq) := by decide
  have hn32 : (⟨4, by decide⟩ : Sq) ≠ (⟨3, by decide⟩ : Sq) := by decide
  cases hep : b.r.ep_src <;>
  (simp only [do_make_move, do_make_castling_queenside, hk, hep,
     Board.get, RawBoard.get, RawBoard.put, Board.set_color, Board.set_cell,
     Board.color, Board.cell, Board.all, Color.inv,
     Cell.make, ne_eq, not_false_iff, not_true, if_true, if_false, ite_true, ite_false,
     reduceCtorEq, reduceIte, hside]
   rw [zobrist_hash_wf z hz]
   try dsimp only
   rw [hc.1, zobrist_hash_wf z hz]
   simp only [hside, hep, key_of_update, xorSquares_update]
   simp only [Sq.make, castling_rank, Nat.reduceMul, Nat.reduceAdd]
   simp only [Function.update_apply, hn01, hn02, hn03, hn10, hn12, hn13, hn20, hn21, hn23, hn30, hn31, hn32, ne_eq, ite_true,
     ite_false, if_true, if_false, reduceCtorEq, reduceIte, hz.1, hK, hR, hE1, hE2,
     Cell.make]
   simp only [hz.2.1, hz.2.2, castle_sq, castling.offset, Nat.reduceAdd, Cell.make]
   simp [Nat.xor_assoc, Nat.xor_comm, xor_left_comm, Nat.xor_self, Nat.xor_zero,
     Nat.zero_xor, Nat.xor_cancel_left])

theorem make_hash_consistent (z : Zobrist) (hz : z.wf) (raw : RawBoard) (b : Board)
    (mv : Move) (hb : Board.try_from z raw = Except.ok b)
    (hwf : mv.is_well_formed = true)
    (hv : mv.validate b = Except.ok ()) :
    (make_move_unchecked z b mv).1.hash =
      (make_move_unchecked z b mv).1.r.zobrist_hash z := by
  obtain ⟨hc, hepo, hcast⟩ := try_from_inv z raw b hb
  have hsem : do_is_move_semilegal b.r.side b mv = true := by
    unfold Move.validate Move.semi_validate at hv
    by_cases h : Move.is_semilegal mv b
    · exact h
    · rw [if_neg h] at hv
      simp at hv
  have hmk : make_move_unchecked z b mv = do_make_move z b.r.side b mv := rfl
  cases hside : b.r.side with
  | white =>
    rw [hside] at hsem
    rw [hmk, hside]
    cases hk : mv.kind with
    | simple => exact make_hash_simple z hz Color.white b mv hc hside (Or.inl hk) hsem
    | pawn_simple => exact make_hash_simple z hz Color.white b mv hc hside (Or.inr hk) hsem
    | pawn_double => exact make_hash_double z hz Color.white b mv hc hside hk hwf hsem
    | promote_knight =>
      exact make_hash_promote z hz Color.white b mv hc hside (Or.inl hk) hsem
    | promote_bishop =>
      exact make_hash_promote z hz Color.white b mv hc hside (Or.inr (Or.inl hk)) hsem
    | promote_rook =>
      exact make_hash_promote z hz Color.white b mv hc hside (Or.inr (Or.inr (Or.inl hk))) hsem
    | promote_queen =>
      exact make_hash_promote z hz Color.white b mv hc hside (Or.inr (Or.inr (Or.inr hk))) hsem
    | enpassant => exact make_hash_enpassant z hz Color.white b mv hc hside hepo hk hsem
    | castling_kingside => exact make_hash_castle_k_white z hz b mv hc hside hcast hk hsem
    | castling_queenside => exact make_hash_castle_q_white z hz b mv hc hside hcast hk hsem
    | null => simp [do_is_move_semilegal, hk] at hsem
  | black =>
    rw [hside] at hsem
    rw [hmk, hside]
    cases hk : mv.kind with
    | simple => exact make_hash_simple z hz Color.black b mv hc hside (Or.inl hk) hsem
    | pawn_simple => exact make_hash_simple z hz Color.black b mv hc hside (Or.inr hk) hsem
    | pawn_double => exact make_hash_double z hz Color.black b mv hc hside hk hwf hsem
    | promote_knight =>
      exact make_hash_promote z hz Color.black b mv hc hside (Or.inl hk) hsem
    | promote_bishop =>
      exact make_hash_promote z hz Color.black b mv hc hside (Or.inr (Or.inl hk)) hsem
    | promote_rook =>
      exact make_hash_promote z hz Color.black b mv hc hside (Or.inr (Or.inr (Or.inl hk))) hsem
    | promote_queen =>
      exact make_hash_promote z hz Color.black b mv hc hside (Or.inr (Or.inr (Or.inr hk))) hsem
    | enpassant => exact make_hash_enpassant z hz Color.black b mv hc hside hepo hk hsem
    | castling_kingside => exact make_hash_castle_k_black z hz b mv hc hside hcast hk hsem
    | castling_queenside => exact make_hash_castle_q_black z hz b mv hc hside hcast hk hsem
    | null => simp [do_is_move_semilegal, hk] at hsem

/-- C1 (amended: the validated move must additionally be well-formed,
`Move::is_well_formed`; `Move::validate` itself never checks well-formedness
and non-well-formed moves reachable through `From<PackedMove>` break the
round trip, see the counterexample): for every valid `Board` obtained from
the validating `RawBoard` conversion and every well-formed move accepted by
`Move::validate`, `unmake_move_unchecked` after `make_move_unchecked`
restores the original board bit for bit — mailbox, side to move, castling
rights, en-passant source, counters, hash and all cached bitboards. -/
theorem c1_make_unmake (z : Zobrist) (raw : RawBoard) (b : Board) (mv : Move)
    (hb : Board.try_from z raw = Except.ok b)
    (hwf : mv.is_well_formed = true)
    (hv : mv.validate b = Except.ok ()) :
    unmake_move_unchecked z (make_move_unchecked z b mv).1 mv
      (make_move_unchecked z b mv).2 = b :=
  make_unmake_restores z raw b mv hb hwf hv

theorem c1_make_unmake_witness :
    Board.try_from zW RawBoard.start = Except.ok (start_board zW) ∧
    (Move.mk MoveKind.simple ⟨62, by decide⟩ ⟨45, by decide⟩).is_well_formed = true ∧
    (Move.mk MoveKind.simple ⟨62, by decide⟩ ⟨45, by decide⟩).validate (start_board zW) =
      Except.ok () ∧
    unmake_move_unchecked zW
      (make_move_unchecked zW (start_board zW)
        (Move.mk MoveKind.simple ⟨62, by decide⟩ ⟨45, by decide⟩)).1
      (Move.mk MoveKind.simple ⟨62, by decide⟩ ⟨45, by decide⟩)
      (make_move_unchecked zW (start_board zW)
        (Move.mk MoveKind.simple ⟨62, by decide⟩ ⟨45, by decide⟩)).2 = start_board zW :=
  ⟨by rfl, by decide, by decide,
    c1_make_unmake zW RawBoard.start (start_board zW)
      (Move.mk MoveKind.simple ⟨62, by decide⟩ ⟨45, by decide⟩)
      (by rfl) (by decide) (by decide)⟩

/-- C2 (amended: the validated move must additionally be well-formed,
`Move::is_well_formed`, and the key table must satisfy the modelled
generated-table constraints `Zobrist.wf`; see the counterexample for a
validate-accepted non-well-formed move breaking the invariant): after
`make_move_unchecked` on a valid board, and likewise after the matching
`unmake_move_unchecked`, the incrementally maintained hash equals
`RawBoard::zobrist_hash` recomputed from scratch over the resulting raw
board. -/
theorem c2_hash_consistent (z : Zobrist) (raw : RawBoard) (b : Board) (mv : Move)
    (hz : z.wf)
    (hb : Board.try_from z raw = Except.ok b)
    (hwf : mv.is_well_formed = true)
    (hv : mv.validate b = Except.ok ()) :
    (make_move_unchecked z b mv).1.hash =
      (make_move_unchecked z b mv).1.r.zobrist_hash z ∧
    (unmake_move_unchecked z (make_move_unchecked z b mv).1 mv
        (make_move_unchecked z b mv).2).hash =
      (unmake_move_unchecked z (make_move_unchecked z b mv).1 mv
        (make_move_unchecked z b mv).2).r.zobrist_hash z := by
  refine ⟨make_hash_consistent z hz raw b mv hb hwf hv, ?_⟩
  rw [make_unmake_restores z raw b mv hb hwf hv]
  exact (try_from_inv z raw b hb).1.1

theorem c2_hash_consistent_witness :
    zW.wf ∧
    Board.try_from zW RawBoard.start = Except.ok (start_board zW) ∧
    (Move.mk MoveKind.simple ⟨62, by decide⟩ ⟨45, by decide⟩).is_well_formed = true ∧
    (Move.mk MoveKind.simple ⟨62, by decide⟩ ⟨45, by decide⟩).validate (start_board zW) =
      Except.ok () ∧
    (make_move_unchecked zW (start_board zW)
      (Move.mk MoveKind.simple ⟨62, by decide⟩ ⟨45, by decide⟩)).1.hash =
      (make_move_unchecked zW (start_board zW)
        (Move.mk MoveKind.simple ⟨62, by decide⟩ ⟨45, by decide⟩)).1.r.zobrist_hash zW :=
  ⟨zW_wf, by rfl, by decide, by decide,
    (c2_hash_consistent zW RawBoard.start (start_board zW)
      (Move.mk MoveKind.simple ⟨62, by decide⟩ ⟨45, by decide⟩)
      zW_wf (by rfl) (by decide) (by decide)).1⟩

/-- C4 (corrected: conversion CAN fail because of the en-passant field — a
stored source square on the wrong rank is rejected with `BadEnpassant`; only
the remaining inconsistencies, a missing opposite-side pawn or an occupied
path square, are silently cleared): on the correct rank the conversion
behaves as if the en-passant field were empty, and a `BadEnpassant` rejection
happens exactly on a wrong-rank source square. -/
theorem c4_enpassant_validation (z : Zobrist) (raw : RawBoard) :
    (∀ p, raw.ep_src = some p → p.rank ≠ ep_src_rank raw.side →
      Board.try_from z raw = Except.error (BoardValidateError.bad_enpassant p)) ∧
    (∀ p, raw.ep_src = some p → p.rank = ep_src_rank raw.side →
      (raw.get p ≠ Cell.make raw.side.inv Piece.pawn ∨
        raw.get (p.addU (pawn_forward_delta raw.side)) ≠ Cell.none) →
      Board.try_from z raw = Board.try_from z { raw with ep_src := Option.none }) := by
  constructor
  · intro p hp hr
    have h1 : validate_ep raw = Except.error (BoardValidateError.bad_enpassant p) := by
      unfold validate_ep
      rw [hp]
      dsimp only
      rw [if_pos hr]
    unfold Board.try_from
    rw [h1]
  · intro p hp hr hclear
    have h1 : validate_ep raw = Except.ok { raw with ep_src := Option.none } := by
      unfold validate_ep
      rw [hp]
      dsimp only
      rw [if_neg (not_not_intro hr), if_pos hclear]
    have h2 : validate_ep { raw with ep_src := Option.none } =
        Except.ok { raw with ep_src := Option.none } := by
      unfold validate_ep
      rfl
    unfold Board.try_from
    rw [h1, h2]

/-- C4 counterexample to the frozen claim: the start position with the
en-passant source set to a8 (index 0, a square on the wrong rank for White to
move) is rejected with `BadEnpassant` instead of being normalized. -/
theorem c4_counterexample :
    Board.try_from zW { RawBoard.start with ep_src := some ⟨0, by decide⟩ } =
      Except.error (BoardValidateError.bad_enpassant ⟨0, by decide⟩) := by
  decide

theorem c4_enpassant_validation_witness :
    ({ RawBoard.start with ep_src := some ⟨0, by decide⟩ } : RawBoard).ep_src =
        some ⟨0, by decide⟩ ∧
    Sq.rank ⟨0, by decide⟩ ≠
        ep_src_rank ({ RawBoard.start with ep_src := some ⟨0, by decide⟩ } : RawBoard).side ∧
    Board.try_from zW { RawBoard.start with ep_src := some ⟨0, by decide⟩ } =
      Except.error (BoardValidateError.bad_enpassant ⟨0, by decide⟩) ∧
    Board.try_from zW { RawBoard.start with ep_src := some ⟨24, by decide⟩ } =
      Board.try_from zW { RawBoard.start with ep_src := Option.none } :=
  ⟨rfl, by decide,
    (c4_enpassant_validation zW { RawBoard.start with ep_src := some ⟨0, by decide⟩ }).1
      ⟨0, by decide⟩ rfl (by decide),
    (c4_enpassant_validation zW { RawBoard.start with ep_src := some ⟨24, by decide⟩ }).2
      ⟨24, by decide⟩ rfl (by decide) (by decide)⟩

theorem set_color_r (b : Board) (c : Color) (v : Bitboard) :
    (Board.set_color b c v).r = b.r := by
  cases c <;> rfl

theorem ite_update_castling_squares (P : Prop) [Decidable P] (z : Zobrist) (X : Board)
    (ch : Bitboard) :
    (if P then update_castling z X ch else X).r.squares = X.r.squares := by
  split_ifs
  · exact update_castling_frame_squares z X ch
  · rfl

set_option maxHeartbeats 1600000 in
theorem diff_ok_simple (z : Zobrist) (c : Color) (b : Board) (mv : Move)
    (hc : board_consistent z b) (hside : b.r.side = c)
    (hk : mv.kind = MoveKind.simple ∨ mv.kind = MoveKind.pawn_simple)
    (hsem : do_is_move_semilegal c b mv = true) :
    (∀ e ∈ do_diff_after_move c (do_make_move z c b mv).1 mv (do_make_move z c b mv).2,
      e.old = b.get e.sq ∧ e.new = (do_make_move z c b mv).1.get e.sq ∧ e.old ≠ e.new) ∧
    (∀ s : Sq, (do_make_move z c b mv).1.get s ≠ b.get s →
      ∃ e ∈ do_diff_after_move c (do_make_move z c b mv).1 mv (do_make_move z c b mv).2,
        e.sq = s) := by
  obtain ⟨h1, h2⟩ := semilegal_simple_facts c b mv hk hsem
  simp only [Board.get, RawBoard.get] at h1 h2
  have hne : mv.src ≠ mv.dst := fun h => h2 (h ▸ h1)
  have hne' : mv.dst ≠ mv.src := fun h => hne h.symm
  have hscd : b.r.squares mv.src ≠ b.r.squares mv.dst := fun h => h2 (h ▸ h1)
  have hcds : b.r.squares mv.dst ≠ b.r.squares mv.src := fun h => hscd h.symm
  have hsnn : b.r.squares mv.src ≠ Cell.none := by
    intro h
    rw [h] at h1
    simp [Cell.color] at h1
  have hPs : (do_make_move z c b mv).1.r.squares =
      Function.update (Function.update b.r.squares mv.src Cell.none) mv.dst
        (b.r.squares mv.src) := by
    rcases hk with hk | hk <;>
    cases hep : b.r.ep_src <;>
    cases c <;>
    by_cases hpn : b.r.squares mv.src = Cell.wp ∨ b.r.squares mv.src = Cell.bp <;>
      simp only [do_make_move, hk, hep, Board.get, RawBoard.get, RawBoard.put,
        Board.set_color, Board.set_cell, Color.inv, update_castling_frame_squares,
        ite_update_castling_squares, Cell.make, ne_eq, ite_true, ite_false,
        reduceCtorEq, reduceIte]
  have hu : (do_make_move z c b mv).2.dst_cell = b.r.squares mv.dst := rfl
  have hd : do_diff_after_move c (do_make_move z c b mv).1 mv (do_make_move z c b mv).2 =
      [⟨mv.src, b.r.squares mv.src, Cell.none⟩,
       ⟨mv.dst, b.r.squares mv.dst, b.r.squares mv.src⟩] := by
    rcases hk with hk | hk <;>
      simp only [do_diff_after_move, hk, Board.get, RawBoard.get, hPs, hu,
        Function.update_apply, Function.update_same, hne, hne', ne_eq, ite_true,
        ite_false, reduceCtorEq, reduceIte]
  rw [hd]
  constructor
  · intro e he
    simp only [List.mem_cons, List.mem_singleton, List.not_mem_nil, or_false] at he
    rcases he with rfl | rfl
    · refine ⟨rfl, ?_, hsnn⟩
      simp [Board.get, RawBoard.get, hPs, Function.update_apply, hne]
    · refine ⟨rfl, ?_, hcds⟩
      simp [Board.get, RawBoard.get, hPs, Function.update_apply]
  · intro s hs
    simp only [Board.get, RawBoard.get, hPs, Function.update_apply] at hs
    by_cases hsd : s = mv.dst
    · exact ⟨_, List.mem_cons_of_mem _ (List.mem_cons_self _ _), hsd.symm⟩
    · by_cases hss : s = mv.src
      · exact ⟨_, List.mem_cons_self _ _, hss.symm⟩
      · rw [if_neg hsd, if_neg hss] at hs
        exact absurd rfl hs

set_option maxHeartbeats 1600000 in
theorem diff_ok_promote (z : Zobrist) (c : Color) (b : Board) (mv : Move)
    (hc : board_consistent z b) (hside : b.r.side = c)
    (hk : mv.kind = MoveKind.promote_knight ∨ mv.kind = MoveKind.promote_bishop ∨
      mv.kind = MoveKind.promote_rook ∨ mv.kind = MoveKind.promote_queen)
    (hsem : do_is_move_semilegal c b mv = true) :
    (∀ e ∈ do_diff_after_move c (do_make_move z c b mv).1 mv (do_make_move z c b mv).2,
      e.old = b.get e.sq ∧ e.new = (do_make_move z c b mv).1.get e.sq ∧ e.old ≠ e.new) ∧
    (∀ s : Sq, (do_make_move z c b mv).1.get s ≠ b.get s →
      ∃ e ∈ do_diff_after_move c (do_make_move z c b mv).1 mv (do_make_move z c b mv).2,
        e.sq = s) := by
  obtain ⟨hsrc, h2⟩ := semilegal_pawnlike_facts c b mv (Or.inr hk) hsem
  simp only [Board.get, RawBoard.get] at hsrc h2
  have h1 : (b.r.squares mv.src).color = some c := by
    rw [hsrc]
    exact cell_make_color c Piece.pawn
  have hne : mv.src ≠ mv.dst := fun h => h2 (h ▸ h1)
  have hne' : mv.dst ≠ mv.src := fun h => hne h.symm
  have hdnc : ∀ p : Piece, b.r.squares mv.dst ≠ Cell.make c p := fun p h =>
    h2 (by rw [h]; exact cell_make_color c p)
  have hPs : (do_make_move z c b mv).1.r.squares =
      Function.update (Function.update b.r.squares mv.src Cell.none) mv.dst
        (Cell.make c (mv.kind.promote.getD Piece.knight)) := by
    rcases hk with hk | hk | hk | hk <;>
    cases hep : b.r.ep_src <;>
    cases c <;>
      simp only [do_make_move, hk, hep, Board.get, RawBoard.get, RawBoard.put,
        Board.set_color, Board.set_cell, Color.inv, MoveKind.promote, Option.getD,
        update_castling_frame_squares, ite_update_castling_squares, Cell.make, ne_eq,
        ite_true, ite_false, reduceCtorEq, reduceIte]
  have hu : (do_make_move z c b mv).2.dst_cell = b.r.squares mv.dst := rfl
  have hd : do_diff_after_move c (do_make_move z c b mv).1 mv (do_make_move z c b mv).2 =
      [⟨mv.src, Cell.make c Piece.pawn, Cell.none⟩,
       ⟨mv.dst, b.r.squares mv.dst, Cell.make c (mv.kind.promote.getD Piece.knight)⟩] := by
    rcases hk with hk | hk | hk | hk <;>
      simp only [do_diff_after_move, hk, Board.get, RawBoard.get, hPs, hu,
        MoveKind.promote, Option.getD,
        Function.update_apply, Function.update_same, hne, hne', ne_eq, ite_true,
        ite_false, reduceCtorEq, reduceIte]
  rw [hd]
  constructor
  · intro e he
    simp only [List.mem_cons, List.mem_singleton, List.not_mem_nil, or_false] at he
    rcases he with rfl | rfl
    · refine ⟨hsrc.symm, ?_, cell_make_ne_none c Piece.pawn⟩
      simp [Board.get, RawBoard.get, hPs, Function.update_apply, hne]
    · refine ⟨rfl, ?_, hdnc _⟩
      simp [Board.get, RawBoard.get, hPs, Function.update_apply]
  · intro s hs
    simp only [Board.get, RawBoard.get, hPs, Function.update_apply] at hs
    by_cases hsd : s = mv.dst
    · exact ⟨_, List.mem_cons_of_mem _ (List.mem_cons_self _ _), hsd.symm⟩
    · by_cases hss : s = mv.src
      · exact ⟨_, List.mem_cons_self _ _, hss.symm⟩
      · rw [if_neg hsd, if_neg hss] at hs
        exact absurd rfl hs

set_option maxHeartbeats 1600000 in
theorem diff_ok_double (z : Zobrist) (c : Color) (b : Board) (mv : Move)
    (hc : board_consistent z b) (hside : b.r.side = c)
    (hk : mv.kind = MoveKind.pawn_double)
    (hwf : mv.is_well_formed = true)
    (hsem : do_is_move_semilegal c b mv = true) :
    (∀ e ∈ do_diff_after_move c (do_make_move z c b mv).1 mv (do_make_move z c b mv).2,
      e.old = b.get e.sq ∧ e.new = (do_make_move z c b mv).1.get e.sq ∧ e.old ≠ e.new) ∧
    (∀ s : Sq, (do_make_move z c b mv).1.get s ≠ b.get s →
      ∃ e ∈ do_diff_after_move c (do_make_move z c b mv).1 mv (do_make_move z c b mv).2,
        e.sq = s) := by
  obtain ⟨hsrc, hne, hbit⟩ := semilegal_double_facts c b mv hk hwf hsem
  simp only [Board.get, RawBoard.get] at hsrc
  have hne' : mv.dst ≠ mv.src := fun h => hne h.symm
  have hdst_none : b.r.squares mv.dst = Cell.none := by
    have h := hbit
    rw [hc.2.2.2.2, Nat.testBit_or, cons_white_bit z b hc, cons_black_bit z b hc] at h
    have hcl : ∀ x : Cell,
        (decide (x.color = some Color.white) || decide (x.color = some Color.black)) = false →
        x = Cell.none := by decide
    exact hcl _ h
  have hPs : (do_make_move z c b mv).1.r.squares =
      Function.update (Function.update b.r.squares mv.src Cell.none) mv.dst
        (Cell.make c Piece.pawn) := by
    cases hep : b.r.ep_src <;>
    cases c <;>
      simp only [do_make_move, do_make_pawn_double, hk, hep, Board.get, RawBoard.get,
        RawBoard.put, Board.set_color, Board.set_cell, Color.inv, Cell.make, ne_eq,
        ite_true, ite_false, reduceCtorEq, reduceIte]
  have hu : (do_make_move z c b mv).2.dst_cell = b.r.squares mv.dst := rfl
  have hd : do_diff_after_move c (do_make_move z c b mv).1 mv (do_make_move z c b mv).2 =
      [⟨mv.src, Cell.make c Piece.pawn, Cell.none⟩,
       ⟨mv.dst, Cell.none, Cell.make c Piece.pawn⟩] := by
    simp only [do_diff_after_move, hk, Board.get, RawBoard.get, hPs, hu, hdst_none,
      Function.update_apply, Function.update_same, hne, hne', ne_eq, ite_true,
      ite_false, reduceCtorEq, reduceIte]
  rw [hd]
  constructor
  · intro e he
    simp only [List.mem_cons, List.mem_singleton, List.not_mem_nil, or_false] at he
    rcases he with rfl | rfl
    · refine ⟨hsrc.symm, ?_, cell_make_ne_none c Piece.pawn⟩
      simp [Board.get, RawBoard.get, hPs, Function.update_apply, hne]
    · refine ⟨by simp [Board.get, RawBoard.get, hdst_none], ?_, ?_⟩
      · simp [Board.get, RawBoard.get, hPs, Function.update_apply]
      · exact fun h => cell_make_ne_none c Piece.pawn h.symm
  · intro s hs
    simp only [Board.get, RawBoard.get, hPs, Function.update_apply] at hs
    by_cases hsd : s = mv.dst
    · exact ⟨_, List.mem_cons_of_mem _ (List.mem_cons_self _ _), hsd.symm⟩
    · by_cases hss : s = mv.src
      · exact ⟨_, List.mem_cons_self _ _, hss.symm⟩
      · rw [if_neg hsd, if_neg hss] at hs
        exact absurd rfl hs

set_option maxHeartbeats 1600000 in
theorem diff_ok_enpassant (z : Zobrist) (c : Color) (b : Board) (mv : Move)
    (hc : board_consistent z b) (hside : b.r.side = c) (hep_ok : ep_ok b.r)
    (hk : mv.kind = MoveKind.enpassant)
    (hsem : do_is_move_semilegal c b mv = true) :
    (∀ e ∈ do_diff_after_move c (do_make_move z c b mv).1 mv (do_make_move z c b mv).2,
      e.old = b.get e.sq ∧ e.new = (do_make_move z c b mv).1.get e.sq ∧ e.old ≠ e.new) ∧
    (∀ s : Sq, (do_make_move z c b mv).1.get s ≠ b.get s →
      ∃ e ∈ do_diff_after_move c (do_make_move z c b mv).1 mv (do_make_move z c b mv).2,
        e.sq = s) := by
  obtain ⟨hsrc, p, hepq, hadj, hdst⟩ := semilegal_ep_facts c b mv hk hsem
  simp only [Board.get, RawBoard.get] at hsrc
  obtain ⟨hpr, hpcell, hpath⟩ := hep_ok p hepq
  rw [hside] at hpcell hpath
  have htaken : mv.dst.addU (-(pawn_forward_delta c)) = p := by
    rw [hdst, Sq.addU_cancel]
  have hdst_none : b.r.squares mv.dst = Cell.none := by
    rw [hdst]
    exact hpath
  have hsd : mv.src ≠ mv.dst := fun h => by
    rw [h, hdst_none] at hsrc
    exact cell_make_ne_none c Piece.pawn hsrc.symm
  have hds : mv.dst ≠ mv.src := fun h => hsd h.symm
  have hsp : mv.src ≠ p := fun h => by
    rw [h, hpcell] at hsrc
    exact color_inv_ne c (cell_make_inj _ _ _ _ hsrc).1
  have hps : p ≠ mv.src := fun h => hsp h.symm
  have hdp : mv.dst ≠ p := fun h => by
    rw [h, hpcell] at hdst_none
    exact cell_make_ne_none c.inv Piece.pawn hdst_none
  have hpd : p ≠ mv.dst := fun h => hdp h.symm
  have hpn : Cell.make c Piece.pawn ≠ Cell.none := cell_make_ne_none c Piece.pawn
  have hpn2 : Cell.make c.inv Piece.pawn ≠ Cell.none := cell_make_ne_none c.inv Piece.pawn
  have hPs : (do_make_move z c b mv).1.r.squares =
      Function.update (Function.update (Function.update b.r.squares mv.src Cell.none)
        mv.dst (Cell.make c Piece.pawn)) p Cell.none := by
    cases hep : b.r.ep_src <;>
    cases c <;>
      simp only [do_make_move, do_make_enpassant, hk, hep, htaken, Board.get,
        RawBoard.get, RawBoard.put, Board.set_color, Board.set_cell, Color.inv,
        Cell.make, ne_eq, ite_true, ite_false, reduceCtorEq, reduceIte]
  have hd : do_diff_after_move c (do_make_move z c b mv).1 mv (do_make_move z c b mv).2 =
      [⟨mv.src, Cell.make c Piece.pawn, Cell.none⟩,
       ⟨p, Cell.make c.inv Piece.pawn, Cell.none⟩,
       ⟨mv.dst, Cell.none, Cell.make c Piece.pawn⟩] := by
    simp only [do_diff_after_move, hk, htaken]
  rw [hd]
  constructor
  · intro e he
    simp only [List.mem_cons, List.mem_singleton, List.not_mem_nil, or_false] at he
    rcases he with rfl | rfl | rfl
    · refine ⟨hsrc.symm, ?_, hpn⟩
      simp [Board.get, RawBoard.get, hPs, Function.update_apply, hsd, hsp]
    · refine ⟨hpcell.symm, ?_, hpn2⟩
      simp [Board.get, RawBoard.get, hPs, Function.update_apply]
    · refine ⟨by simp [Board.get, RawBoard.get, hdst_none], ?_,
        fun h => hpn h.symm⟩
      simp [Board.get, RawBoard.get, hPs, Function.update_apply, hdp]
  · intro s hs
    simp only [Board.get, RawBoard.get, hPs, Function.update_apply] at hs
    by_cases hsps : s = p
    · exact ⟨_, List.mem_cons_of_mem _ (List.mem_cons_self _ _), hsps.symm⟩
    · by_cases hsdd : s = mv.dst
      · exact ⟨_, List.mem_cons_of_mem _ (List.mem_cons_of_mem _ (List.mem_cons_self _ _)),
          hsdd.symm⟩
      · by_cases hss : s = mv.src
        · exact ⟨_, List.mem_cons_self _ _, hss.symm⟩
        · rw [if_neg hsps, if_neg hsdd, if_neg hss] at hs
          exact absurd rfl hs

set_option maxHeartbeats 1600000 in
theorem diff_ok_castle_k_white (z : Zobrist) (b : Board) (mv : Move)
    (hc : board_consistent z b) (hside : b.r.side = Color.white) (hcast : castling_ok b.r)
    (hk : mv.kind = MoveKind.castling_kingside)
    (hsem : do_is_move_semilegal Color.white b mv = true) :
    (∀ e ∈ do_diff_after_move Color.white (do_make_move z Color.white b mv).1 mv
        (do_make_move z Color.white b mv).2,
      e.old = b.get e.sq ∧ e.new = (do_make_move z Color.white b mv).1.get e.sq ∧
        e.old ≠ e.new) ∧
    (∀ s : Sq, (do_make_move z Color.white b mv).1.get s ≠ b.get s →
      ∃ e ∈ do_diff_after_move Color.white (do_make_move z Color.white b mv).1 mv
          (do_make_move z Color.white b mv).2,
        e.sq = s) := by
  obtain ⟨hhas, hpass⟩ := semilegal_castlek_facts Color.white b mv hk hsem
  obtain ⟨hK, hR⟩ := hcast Color.white CastlingSide.king hhas
  have hball : ∀ i, (castling.pass Color.white CastlingSide.king).testBit i = true →
      b.all_v.testBit i = false := by
    intro i hi
    have h := congrArg (fun n => Nat.testBit n i) hpass
    simpa only [Board.all, Nat.testBit_and, Nat.zero_testBit, hi, Bool.and_true] using h
  have hE1 : b.r.squares (Sq.make ⟨5, by decide⟩ (castling_rank Color.white)) = Cell.none :=
    cell_none_of_all_bit z b hc _ (hball _ (by decide))
  have hE2 : b.r.squares (Sq.make ⟨6, by decide⟩ (castling_rank Color.white)) = Cell.none :=
    cell_none_of_all_bit z b hc _ (hball _ (by decide))
  simp only [rook_home] at hR
  have hn45 : Sq.make ⟨4, by decide⟩ (castling_rank Color.white) ≠
      Sq.make ⟨5, by decide⟩ (castling_rank Color.white) := by decide
  have hn46 : Sq.make ⟨4, by decide⟩ (castling_rank Color.white) ≠
      Sq.make ⟨6, by decide⟩ (castling_rank Color.white) := by decide
  have hn47 : Sq.make ⟨4, by decide⟩ (castling_rank Color.white) ≠
      Sq.make ⟨7, by decide⟩ (castling_rank Color.white) := by decide
  have hn54 : Sq.make ⟨5, by decide⟩ (castling_rank Color.white) ≠
      Sq.make ⟨4, by decide⟩ (castling_rank Color.white) := by decide
  have hn56 : Sq.make ⟨5, by decide⟩ (castling_rank Color.white) ≠
      Sq.make ⟨6, by decide⟩ (castling_rank Color.white) := by decide
  have hn57 : Sq.make ⟨5, by decide⟩ (castling_rank Color.white) ≠
      Sq.make ⟨7, by decide⟩ (castling_rank Color.white) := by decide
  have hn64 : Sq.make ⟨6, by decide⟩ (castling_rank Color.white) ≠
      Sq.make ⟨4, by decide⟩ (castling_rank Color.white) := by decide
  have hn65 : Sq.make ⟨6, by decide⟩ (castling_rank Color.white) ≠
      Sq.make ⟨5, by decide⟩ (castling_rank Color.white) := by decide
  have hn67 : Sq.make ⟨6, by decide⟩ (castling_rank Color.white) ≠
      Sq.make ⟨7, by decide⟩ (castling_rank Color.white) := by decide
  have hn74 : Sq.make ⟨7, by decide⟩ (castling_rank Color.white) ≠
      Sq.make ⟨4, by decide⟩ (castling_rank Color.white) := by decide
  have hn75 : Sq.make ⟨7, by decide⟩ (castling_rank Color.white) ≠
      Sq.make ⟨5, by decide⟩ (castling_rank Color.white) := by decide
  have hn76 : Sq.make ⟨7, by decide⟩ (castling_rank Color.white) ≠
      Sq.make ⟨6, by decide⟩ (castling_rank Color.white) := by decide
  have hPs : (do_make_move z Color.white b mv).1.r.squares =
      Function.update (Function.update (Function.update (Function.update b.r.squares
        (Sq.make ⟨4, by decide⟩ (castling_rank Color.white)) Cell.none)
        (Sq.make ⟨5, by decide⟩ (castling_rank Color.white)) (Cell.make Color.white Piece.rook))
        (Sq.make ⟨6, by decide⟩ (castling_rank Color.white)) (Cell.make Color.white Piece.king))
        (Sq.make ⟨7, by decide⟩ (castling_rank Color.white)) Cell.none := by
    cases hep : b.r.ep_src <;>
      (simp only [do_make_move, do_make_castling_kingside, hk, hep, Board.get,
        RawBoard.get, RawBoard.put, Board.set_color, Board.set_cell, Color.inv,
        castling.offset, Cell.make, ne_eq, ite_true, ite_false, reduceCtorEq, reduceIte]
       try rfl)
  have hd : do_diff_after_move Color.white (do_make_move z Color.white b mv).1 mv
      (do_make_move z Color.white b mv).2 =
      [⟨Sq.make ⟨4, by decide⟩ (castling_rank Color.white),
          Cell.make Color.white Piece.king, Cell.none⟩,
       ⟨Sq.make ⟨5, by decide⟩ (castling_rank Color.white),
          Cell.none, Cell.make Color.white Piece.rook⟩,
       ⟨Sq.make ⟨6, by decide⟩ (castling_rank Color.white),
          Cell.none, Cell.make Color.white Piece.king⟩,
       ⟨Sq.make ⟨7, by decide⟩ (castling_rank Color.white),
          Cell.make Color.white Piece.rook, Cell.none⟩] := by
    simp only [do_diff_after_move, hk]
  rw [hd]
  constructor
  · intro e he
    simp only [List.mem_cons, List.mem_singleton, List.not_mem_nil, or_false] at he
    rcases he with rfl | rfl | rfl | rfl
    · refine ⟨hK.symm, ?_, by decide⟩
      simp only [Board.get, RawBoard.get, hPs, Function.update_apply, Cell.make,
        hn45, hn46, hn47, hn54, hn56, hn57, hn64, hn65, hn67, hn74, hn75, hn76, ne_eq, eq_self_iff_true, ite_true, ite_false, if_true, if_false]
    · refine ⟨hE1.symm, ?_, by decide⟩
      simp only [Board.get, RawBoard.get, hPs, Function.update_apply, Cell.make,
        hn45, hn46, hn47, hn54, hn56, hn57, hn64, hn65, hn67, hn74, hn75, hn76, ne_eq, eq_self_iff_true, ite_true, ite_false, if_true, if_false]
    · refine ⟨hE2.symm, ?_, by decide⟩
      simp only [Board.get, RawBoard.get, hPs, Function.update_apply, Cell.make,
        hn45, hn46, hn47, hn54, hn56, hn57, hn64, hn65, hn67, hn74, hn75, hn76, ne_eq, eq_self_iff_true, ite_true, ite_false, if_true, if_false]
    · refine ⟨hR.symm, ?_, by decide⟩
      simp only [Board.get, RawBoard.get, hPs, Function.update_apply, Cell.make,
        hn45, hn46, hn47, hn54, hn56, hn57, hn64, hn65, hn67, hn74, hn75, hn76, ne_eq, eq_self_iff_true, ite_true, ite_false, if_true, if_false]
  · intro s hs
    simp only [Board.get, RawBoard.get, hPs, Function.update_apply] at hs
    by_cases hs3 : s = Sq.make ⟨7, by decide⟩ (castling_rank Color.white)
    · exact ⟨_, List.mem_cons_of_mem _ (List.mem_cons_of_mem _ (List.mem_cons_of_mem _ (List.mem_cons_self _ _))), hs3.symm⟩
    · by_cases hs2 : s = Sq.make ⟨6, by decide⟩ (castling_rank Color.white)
      · exact ⟨_, List.mem_cons_of_mem _ (List.mem_cons_of_mem _ (List.mem_cons_self _ _)), hs2.symm⟩
      · by_cases hs1 : s = Sq.make ⟨5, by decide⟩ (castling_rank Color.white)
        · exact ⟨_, List.mem_cons_of_mem _ (List.mem_cons_self _ _), hs1.symm⟩
        · by_cases hs0 : s = Sq.make ⟨4, by decide⟩ (castling_rank Color.white)
          · exact ⟨_, List.mem_cons_self _ _, hs0.symm⟩
          · rw [if_neg hs3, if_neg hs2, if_neg hs1, if_neg hs0] at hs
            exact absurd rfl hs


set_option maxHeartbeats 1600000 in
theorem diff_ok_castle_q_white (z : Zobrist) (b : Board) (mv : Move)
    (hc : board_consistent z b) (hside : b.r.side = Color.white) (hcast : castling_ok b.r)
    (hk : mv.kind = MoveKind.castling_queenside)
    (hsem : do_is_move_semilegal Color.white b mv = true) :
    (∀ e ∈ do_diff_after_move Color.white (do_make_move z Color.white b mv).1 mv
        (do_make_move z Color.white b mv).2,
      e.old = b.get e.sq ∧ e.new = (do_make_move z Color.white b mv).1.get e.sq ∧
        e.old ≠ e.new) ∧
    (∀ s : Sq, (do_make_move z Color.white b mv).1.get s ≠ b.get s →
      ∃ e ∈ do_diff_after_move Color.white (do_make_move z Color.white b mv).1 mv
          (do_make_move z Color.white b mv).2,
        e.sq = s) := by
  obtain ⟨hhas, hpass⟩ := semilegal_castleq_facts Color.white b mv hk hsem
  obtain ⟨hK, hR⟩ := hcast Color.white CastlingSide.queen hhas
  have hball : ∀ i, (castling.pass Color.white CastlingSide.queen).testBit i = true →
      b.all_v.testBit i = false := by
    intro i hi
    have h := congrArg (fun n => Nat.testBit n i) hpass
    simpa only [Board.all, Nat.testBit_and, Nat.zero_testBit, hi, Bool.and_true] using h
  have hE1 : b.r.squares (Sq.make ⟨2, by decide⟩ (castling_rank Color.white)) = Cell.none :=
    cell_none_of_all_bit z b hc _ (hball _ (by decide))
  have hE2 : b.r.squares (Sq.make ⟨3, by decide⟩ (castling_rank Color.white)) = Cell.none :=
    cell_none_of_all_bit z b hc _ (hball _ (by decide))
  simp only [rook_home] at hR
  have hn02 : Sq.make ⟨0, by decide⟩ (castling_rank Color.white) ≠
      Sq.make ⟨2, by decide⟩ (castling_rank Color.white) := by decide
  have hn03 : Sq.make ⟨0, by decide⟩ (castling_rank Color.white) ≠
      Sq.make ⟨3, by decide⟩ (castling_rank Color.white) := by decide
  have hn04 : Sq.make ⟨0, by decide⟩ (castling_rank Color.white) ≠
      Sq.make ⟨4, by decide⟩ (castling_rank Color.white) := by decide
  have hn20 : Sq.make ⟨2, by decide⟩ (castling_rank Color.white) ≠
      Sq.make ⟨0, by decide⟩ (castling_rank Color.white) := by decide
  have hn23 : Sq.make ⟨2, by decide⟩ (castling_rank Color.white) ≠
      Sq.make ⟨3, by decide⟩ (castling_rank Color.white) := by decide
  have hn24 : Sq.make ⟨2, by decide⟩ (castling_rank Color.white) ≠
      Sq.make ⟨4, by decide⟩ (castling_rank Color.white) := by decide
  have hn30 : Sq.make ⟨3, by decide⟩ (castling_rank Color.white) ≠
      Sq.make ⟨0, by decide⟩ (castling_rank Color.white) := by decide
  have hn32 : Sq.make ⟨3, by decide⟩ (castling_rank Color.white) ≠
      Sq.make ⟨2, by decide⟩ (castling_rank Color.white) := by decide
  have hn34 : Sq.make ⟨3, by decide⟩ (castling_rank Color.white) ≠
      Sq.make ⟨4, by decide⟩ (castling_rank Color.white) := by decide
  have hn40 : Sq.make ⟨4, by decide⟩ (castling_rank Color.white) ≠
      Sq.make ⟨0, by decide⟩ (castling_rank Color.white) := by decide
  have hn42 : Sq.make ⟨4, by decide⟩ (castling_rank Color.white) ≠
      Sq.make ⟨2, by decide⟩ (castling_rank Color.white) := by decide
  have hn43 : Sq.make ⟨4, by decide⟩ (castling_rank Color.white) ≠
      Sq.make ⟨3, by decide⟩ (castling_rank Color.white) := by decide
  have hPs : (do_make_move z Color.white b mv).1.r.squares =
      Function.update (Function.update (Function.update (Function.update b.r.squares
        (Sq.make ⟨0, by decide⟩ (castling_rank Color.white)) Cell.none)
        (Sq.make ⟨2, by decide⟩ (castling_rank Color.white)) (Cell.make Color.white Piece.king))
        (Sq.make ⟨3, by decide⟩ (castling_rank Color.white)) (Cell.make Color.white Piece.rook))
        (Sq.make ⟨4, by decide⟩ (castling_rank Color.white)) Cell.none := by
    cases hep : b.r.ep_src <;>
      (simp only [do_make_move, do_make_castling_queenside, hk, hep, Board.get,
        RawBoard.get, RawBoard.put, Board.set_color, Board.set_cell, Color.inv,
        castling.offset, Cell.make, ne_eq, ite_true, ite_false, reduceCtorEq, reduceIte]
       try rfl)
  have hd : do_diff_after_move Color.white (do_make_move z Color.white b mv).1 mv
      (do_make_move z Color.white b mv).2 =
      [⟨Sq.make ⟨4, by decide⟩ (castling_rank Color.white),
          Cell.make Color.white Piece.king, Cell.none⟩,
       ⟨Sq.make ⟨3, by decide⟩ (castling_rank Color.white),
          Cell.none, Cell.make Color.white Piece.rook⟩,
       ⟨Sq.make ⟨2, by decide⟩ (castling_rank Color.white),
          Cell.none, Cell.make Color.white Piece.king⟩,
       ⟨Sq.make ⟨0, by decide⟩ (castling_rank Color.white),
          Cell.make Color.white Piece.rook, Cell.none⟩] := by
    simp only [do_diff_after_move, hk]
  rw [hd]
  constructor
  · intro e he
    simp only [List.mem_cons, List.mem_singleton, List.not_mem_nil, or_false] at he
    rcases he with rfl | rfl | rfl | rfl
    · refine ⟨hK.symm, ?_, by decide⟩
      simp only [Board.get, RawBoard.get, hPs, Function.update_apply, Cell.make,
        hn02, hn03, hn04, hn20, hn23, hn24, hn30, hn32, hn34, hn40, hn42, hn43, ne_eq, eq_self_iff_true, ite_true, ite_false, if_true, if_false]
    · refine ⟨hE2.symm, ?_, by decide⟩
      simp only [Board.get, RawBoard.get, hPs, Function.update_apply, Cell.make,
        hn02, hn03, hn04, hn20, hn23, hn24, hn30, hn32, hn34, hn40, hn42, hn43, ne_eq, eq_self_iff_true, ite_true, ite_false, if_true, if_false]
    · refine ⟨hE1.symm, ?_, by decide⟩
      simp only [Board.get, RawBoard.get, hPs, Function.update_apply, Cell.make,
        hn02, hn03, hn04, hn20, hn23, hn24, hn30, hn32, hn34, hn40, hn42, hn43, ne_eq, eq_self_iff_true, ite_true, ite_false, if_true, if_false]
    · refine ⟨hR.symm, ?_, by decide⟩
      simp only [Board.get, RawBoard.get, hPs, Function.update_apply, Cell.make,
        hn02, hn03, hn04, hn20, hn23, hn24, hn30, hn32, hn34, hn40, hn42, hn43, ne_eq, eq_self_iff_true, ite_true, ite_false, if_true, if_false]
  · intro s hs
    simp only [Board.get, RawBoard.get, hPs, Function.update_apply] at hs
    by_cases hs3 : s = Sq.make ⟨4, by decide⟩ (castling_rank Color.white)
    · exact ⟨_, List.mem_cons_self _ _, hs3.symm⟩
    · by_cases hs2 : s = Sq.make ⟨3, by decide⟩ (castling_rank Color.white)
      · exact ⟨_, List.mem_cons_of_mem _ (List.mem_cons_self _ _), hs2.symm⟩
      · by_cases hs1 : s = Sq.make ⟨2, by decide⟩ (castling_rank Color.white)
        · exact ⟨_, List.mem_cons_of_mem _ (List.mem_cons_of_mem _ (List.mem_cons_self _ _)), hs1.symm⟩
        · by_cases hs0 : s = Sq.make ⟨0, by decide⟩ (castling_rank Color.white)
          · exact ⟨_, List.mem_cons_of_mem _ (List.mem_cons_of_mem _ (List.mem_cons_of_mem _ (List.mem_cons_self _ _))), hs0.symm⟩
          · rw [if_neg hs3, if_neg hs2, if_neg hs1, if_neg hs0] at hs
            exact absurd rfl hs


set_option maxHeartbeats 1600000 in
theorem diff_ok_castle_k_black (z : Zobrist) (b : Board) (mv : Move)
    (hc : board_consistent z b) (hside : b.r.side = Color.black) (hcast : castling_ok b.r)
    (hk : mv.kind = MoveKind.castling_kingside)
    (hsem : do_is_move_semilegal Color.black b mv = true) :
    (∀ e ∈ do_diff_after_move Color.black (do_make_move z Color.black b mv).1 mv
        (do_make_move z Color.black b mv).2,
      e.old = b.get e.sq ∧ e.new = (do_make_move z Color.black b mv).1.get e.sq ∧
        e.old ≠ e.new) ∧
    (∀ s : Sq, (do_make_move z Color.black b mv).1.get s ≠ b.get s →
      ∃ e ∈ do_diff_after_move Color.black (do_make_move z Color.black b mv).1 mv
          (do_make_move z Color.black b mv).2,
        e.sq = s) := by
  obtain ⟨hhas, hpass⟩ := semilegal_castlek_facts Color.black b mv hk hsem
  obtain ⟨hK, hR⟩ := hcast Color.black CastlingSide.king hhas
  have hball : ∀ i, (castling.pass Color.black CastlingSide.king).testBit i = true →
      b.all_v.testBit i = false := by
    intro i hi
    have h := congrArg (fun n => Nat.testBit n i) hpass
    simpa only [Board.all, Nat.testBit_and, Nat.zero_testBit, hi, Bool.and_true] using h
  have hE1 : b.r.squares (Sq.make ⟨5, by decide⟩ (castling_rank Color.black)) = Cell.none :=
    cell_none_of_all_bit z b hc _ (hball _ (by decide))
  have hE2 : b.r.squares (Sq.make ⟨6, by decide⟩ (castling_rank Color.black)) = Cell.none :=
    cell_none_of_all_bit z b hc _ (hball _ (by decide))
  simp only [rook_home] at hR
  have hn45 : Sq.make ⟨4, by decide⟩ (castling_rank Color.black) ≠
      Sq.make ⟨5, by decide⟩ (castling_rank Color.black) := by decide
  have hn46 : Sq.make ⟨4, by decide⟩ (castling_rank Color.black) ≠
      Sq.make ⟨6, by decide⟩ (castling_rank Color.black) := by decide
  have hn47 : Sq.make ⟨4, by decide⟩ (castling_rank Color.black) ≠
      Sq.make ⟨7, by decide⟩ (castling_rank Color.black) := by decide
  have hn54 : Sq.make ⟨5, by decide⟩ (castling_rank Color.black) ≠
      Sq.make ⟨4, by decide⟩ (castling_rank Color.black) := by decide
  have hn56 : Sq.make ⟨5, by decide⟩ (castling_rank Color.black) ≠
      Sq.make ⟨6, by decide⟩ (castling_rank Color.black) := by decide
  have hn57 : Sq.make ⟨5, by decide⟩ (castling_rank Color.black) ≠
      Sq.make ⟨7, by decide⟩ (castling_rank Color.black) := by decide
  have hn64 : Sq.make ⟨6, by decide⟩ (castling_rank Color.black) ≠
      Sq.make ⟨4, by decide⟩ (castling_rank Color.black) := by decide
  have hn65 : Sq.make ⟨6, by decide⟩ (castling_rank Color.black) ≠
      Sq.make ⟨5, by decide⟩ (castling_rank Color.black) := by decide
  have hn67 : Sq.make ⟨6, by decide⟩ (castling_rank Color.black) ≠
      Sq.make ⟨7, by decide⟩ (castling_rank Color.black) := by decide
  have hn74 : Sq.make ⟨7, by decide⟩ (castling_rank Color.black) ≠
      Sq.make ⟨4, by decide⟩ (castling_rank Color.black) := by decide
  have hn75 : Sq.make ⟨7, by decide⟩ (castling_rank Color.black) ≠
      Sq.make ⟨5, by decide⟩ (castling_rank Color.black) := by decide
  have hn76 : Sq.make ⟨7, by decide⟩ (castling_rank Color.black) ≠
      Sq.make ⟨6, by decide⟩ (castling_rank Color.black) := by decide
  have hPs : (do_make_move z Color.black b mv).1.r.squares =
      Function.update (Function.update (Function.update (Function.update b.r.squares
        (Sq.make ⟨4, by decide⟩ (castling_rank Color.black)) Cell.none)
        (Sq.make ⟨5, by decide⟩ (castling_rank Color.black)) (Cell.make Color.black Piece.rook))
        (Sq.make ⟨6, by decide⟩ (castling_rank Color.black)) (Cell.make Color.black Piece.king))
        (Sq.make ⟨7, by decide⟩ (castling_rank Color.black)) Cell.none := by
    cases hep : b.r.ep_src <;>
      (simp only [do_make_move, do_make_castling_kingside, hk, hep, Board.get,
        RawBoard.get, RawBoard.put, Board.set_color, Board.set_cell, Color.inv,
        castling.offset, Cell.make, ne_eq, ite_true, ite_false, reduceCtorEq, reduceIte]
       try rfl)
  have hd : do_diff_after_move Color.black (do_make_move z Color.black b mv).1 mv
      (do_make_move z Color.black b mv).2 =
      [⟨Sq.make ⟨4, by decide⟩ (castling_rank Color.black),
          Cell.make Color.black Piece.king, Cell.none⟩,
       ⟨Sq.make ⟨5, by decide⟩ (castling_rank Color.black),
          Cell.none, Cell.make Color.black Piece.rook⟩,
       ⟨Sq.make ⟨6, by decide⟩ (castling_rank Color.black),
          Cell.none, Cell.make Color.black Piece.king⟩,
       ⟨Sq.make ⟨7, by decide⟩ (castling_rank Color.black),
          Cell.make Color.black Piece.rook, Cell.none⟩] := by
    simp only [do_diff_after_move, hk]
  rw [hd]
  constructor
  · intro e he
    simp only [List.mem_cons, List.mem_singleton, List.not_mem_nil, or_false] at he
    rcases he with rfl | rfl | rfl | rfl
    · refine ⟨hK.symm, ?_, by decide⟩
      simp only [Board.get, RawBoard.get, hPs, Function.update_apply, Cell.make,
        hn45, hn46, hn47, hn54, hn56, hn57, hn64, hn65, hn67, hn74, hn75, hn76, ne_eq, eq_self_iff_true, ite_true, ite_false, if_true, if_false]
    · refine ⟨hE1.symm, ?_, by decide⟩
      simp only [Board.get, RawBoard.get, hPs, Function.update_apply, Cell.make,
        hn45, hn46, hn47, hn54, hn56, hn57, hn64, hn65, hn67, hn74, hn75, hn76, ne_eq, eq_self_iff_true, ite_true, ite_false, if_true, if_false]
    · refine ⟨hE2.symm, ?_, by decide⟩
      simp only [Board.get, RawBoard.get, hPs, Function.update_apply, Cell.make,
        hn45, hn46, hn47, hn54, hn56, hn57, hn64, hn65, hn67, hn74, hn75, hn76, ne_eq, eq_self_iff_true, ite_true, ite_false, if_true, if_false]
    · refine ⟨hR.symm, ?_, by decide⟩
      simp only [Board.get, RawBoard.get, hPs, Function.update_apply, Cell.make,
        hn45, hn46, hn47, hn54, hn56, hn57, hn64, hn65, hn67, hn74, hn75, hn76, ne_eq, eq_self_iff_true, ite_true, ite_false, if_true, if_false]
  · intro s hs
    simp only [Board.get, RawBoard.get, hPs, Function.update_apply] at hs
    by_cases hs3 : s = Sq.make ⟨7, by decide⟩ (castling_rank Color.black)
    · exact ⟨_, List.mem_cons_of_mem _ (List.mem_cons_of_mem _ (List.mem_cons_of_mem _ (List.mem_cons_self _ _))), hs3.symm⟩
    · by_cases hs2 : s = Sq.make ⟨6, by decide⟩ (castling_rank Color.black)
      · exact ⟨_, List.mem_cons_of_mem _ (List.mem_cons_of_mem _ (List.mem_cons_self _ _)), hs2.symm⟩
      · by_cases hs1 : s = Sq.make ⟨5, by decide⟩ (castling_rank Color.black)
        · exact ⟨_, List.mem_cons_of_mem _ (List.mem_cons_self _ _), hs1.symm⟩
        · by_cases hs0 : s = Sq.make ⟨4, by decide⟩ (castling_rank Color.black)
          · exact ⟨_, List.mem_cons_self _ _, hs0.symm⟩
          · rw [if_neg hs3, if_neg hs2, if_neg hs1, if_neg hs0] at hs
            exact absurd rfl hs


set_option maxHeartbeats 1600000 in
theorem diff_ok_castle_q_black (z : Zobrist) (b : Board) (mv : Move)
    (hc : board_consistent z b) (hside : b.r.side = Color.black) (hcast : castling_ok b.r)
    (hk : mv.kind = MoveKind.castling_queenside)
    (hsem : do_is_move_semilegal Color.black b mv = true) :
    (∀ e ∈ do_diff_after_move Color.black (do_make_move z Color.black b mv).1 mv
        (do_make_move z Color.black b mv).2,
      e.old = b.get e.sq ∧ e.new = (do_make_move z Color.black b mv).1.get e.sq ∧
        e.old ≠ e.new) ∧
    (∀ s : Sq, (do_make_move z Color.black b mv).1.get s ≠ b.get s →
      ∃ e ∈ do_diff_after_move Color.black (do_make_move z Color.black b mv).1 mv
          (do_make_move z Color.black b mv).2,
        e.sq = s) := by
  obtain ⟨hhas, hpass⟩ := semilegal_castleq_facts Color.black b mv hk hsem
  obtain ⟨hK, hR⟩ := hcast Color.black CastlingSide.queen hhas
  have hball : ∀ i, (castling.pass Color.black CastlingSide.queen).testBit i = true →
      b.all_v.testBit i = false := by
    intro i hi
    have h := congrArg (fun n => Nat.testBit n i) hpass
    simpa only [Board.all, Nat.testBit_and, Nat.zero_testBit, hi, Bool.and_true] using h
  have hE1 : b.r.squares (Sq.make ⟨2, by decide⟩ (castling_rank Color.black)) = Cell.none :=
    cell_none_of_all_bit z b hc _ (hball _ (by decide))
  have hE2 : b.r.squares (Sq.make ⟨3, by decide⟩ (castling_rank Color.black)) = Cell.none :=
    cell_none_of_all_bit z b hc _ (hball _ (by decide))
  simp only [rook_home] at hR
  have hn02 : Sq.make ⟨0, by decide⟩ (castling_rank Color.black) ≠
      Sq.make ⟨2, by decide⟩ (castling_rank Color.black) := by decide
  have hn03 : Sq.make ⟨0, by decide⟩ (castling_rank Color.black) ≠
      Sq.make ⟨3, by decide⟩ (castling_rank Color.black) := by decide
  have hn04 : Sq.make ⟨0, by decide⟩ (castling_rank Color.black) ≠
      Sq.make ⟨4, by decide⟩ (castling_rank Color.black) := by decide
  have hn20 : Sq.make ⟨2, by decide⟩ (castling_rank Color.black) ≠
      Sq.make ⟨0, by decide⟩ (castling_rank Color.black) := by decide
  have hn23 : Sq.make ⟨2, by decide⟩ (castling_rank Color.black) ≠
      Sq.make ⟨3, by decide⟩ (castling_rank Color.black) := by decide
  have hn24 : Sq.make ⟨2, by decide⟩ (castling_rank Color.black) ≠
      Sq.make ⟨4, by decide⟩ (castling_rank Color.black) := by decide
  have hn30 : Sq.make ⟨3, by decide⟩ (castling_rank Color.black) ≠
      Sq.make ⟨0, by decide⟩ (castling_rank Color.black) := by decide
  have hn32 : Sq.make ⟨3, by decide⟩ (castling_rank Color.black) ≠
      Sq.make ⟨2, by decide⟩ (castling_rank Color.black) := by decide
  have hn34 : Sq.make ⟨3, by decide⟩ (castling_rank Color.black) ≠
      Sq.make ⟨4, by decide⟩ (castling_rank Color.black) := by decide
  have hn40 : Sq.make ⟨4, by decide⟩ (castling_rank Color.black) ≠
      Sq.make ⟨0, by decide⟩ (castling_rank Color.black) := by decide
  have hn42 : Sq.make ⟨4, by decide⟩ (castling_rank Color.black) ≠
      Sq.make ⟨2, by decide⟩ (castling_rank Color.black) := by decide
  have hn43 : Sq.make ⟨4, by decide⟩ (castling_rank Color.black) ≠
      Sq.make ⟨3, by decide⟩ (castling_rank Color.black) := by decide
  have hPs : (do_make_move z Color.black b mv).1.r.squares =
      Function.update (Function.update (Function.update (Function.update b.r.squares
        (Sq.make ⟨0, by decide⟩ (castling_rank Color.black)) Cell.none)
        (Sq.make ⟨2, by decide⟩ (castling_rank Color.black)) (Cell.make Color.black Piece.king))
        (Sq.make ⟨3, by decide⟩ (castling_rank Color.black)) (Cell.make Color.black Piece.rook))
        (Sq.make ⟨4, by decide⟩ (castling_rank Color.black)) Cell.none := by
    cases hep : b.r.ep_src <;>
      (simp only [do_make_move, do_make_castling_queenside, hk, hep, Board.get,
        RawBoard.get, RawBoard.put, Board.set_color, Board.set_cell, Color.inv,
        castling.offset, Cell.make, ne_eq, ite_true, ite_false, reduceCtorEq, reduceIte]
       try rfl)
  have hd : do_diff_after_move Color.black (do_make_move z Color.black b mv).1 mv
      (do_make_move z Color.black b mv).2 =
      [⟨Sq.make ⟨4, by decide⟩ (castling_rank Color.black),
          Cell.make Color.black Piece.king, Cell.none⟩,
       ⟨Sq.make ⟨3, by decide⟩ (castling_rank Color.black),
          Cell.none, Cell.make Color.black Piece.rook⟩,
       ⟨Sq.make ⟨2, by decide⟩ (castling_rank Color.black),
          Cell.none, Cell.make Color.black Piece.king⟩,
       ⟨Sq.make ⟨0, by decide⟩ (castling_rank Color.black),
          Cell.make Color.black Piece.rook, Cell.none⟩] := by
    simp only [do_diff_after_move, hk]
  rw [hd]
  constructor
  · intro e he
    simp only [List.mem_cons, List.mem_singleton, List.not_mem_nil, or_false] at he
    rcases he with rfl | rfl | rfl | rfl
    · refine ⟨hK.symm, ?_, by decide⟩
      simp only [Board.get, RawBoard.get, hPs, Function.update_apply, Cell.make,
        hn02, hn03, hn04, hn20, hn23, hn24, hn30, hn32, hn34, hn40, hn42, hn43, ne_eq, eq_self_iff_true, ite_true, ite_false, if_true, if_false]
    · refine ⟨hE2.symm, ?_, by decide⟩
      simp only [Board.get, RawBoard.get, hPs, Function.update_apply, Cell.make,
        hn02, hn03, hn04, hn20, hn23, hn24, hn30, hn32, hn34, hn40, hn42, hn43, ne_eq, eq_self_iff_true, ite_true, ite_false, if_true, if_false]
    · refine ⟨hE1.symm, ?_, by decide⟩
      simp only [Board.get, RawBoard.get, hPs, Function.update_apply, Cell.make,
        hn02, hn03, hn04, hn20, hn23, hn24, hn30, hn32, hn34, hn40, hn42, hn43, ne_eq, eq_self_iff_true, ite_true, ite_false, if_true, if_false]
    · refine ⟨hR.symm, ?_, by decide⟩
      simp only [Board.get, RawBoard.get, hPs, Function.update_apply, Cell.make,
        hn02, hn03, hn04, hn20, hn23, hn24, hn30, hn32, hn34, hn40, hn42, hn43, ne_eq, eq_self_iff_true, ite_true, ite_false, if_true, if_false]
  · intro s hs
    simp only [Board.get, RawBoard.get, hPs, Function.update_apply] at hs
    by_cases hs3 : s = Sq.make ⟨4, by decide⟩ (castling_rank Color.black)
    · exact ⟨_, List.mem_cons_self _ _, hs3.symm⟩
    · by_cases hs2 : s = Sq.make ⟨3, by decide⟩ (castling_rank Color.black)
      · exact ⟨_, List.mem_cons_of_mem _ (List.mem_cons_self _ _), hs2.symm⟩
      · by_cases hs1 : s = Sq.make ⟨2, by decide⟩ (castling_rank Color.black)
        · exact ⟨_, List.mem_cons_of_mem _ (List.mem_cons_of_mem _ (List.mem_cons_self _ _)), hs1.symm⟩
        · by_cases hs0 : s = Sq.make ⟨0, by decide⟩ (castling_rank Color.black)
          · exact ⟨_, List.mem_cons_of_mem _ (List.mem_cons_of_mem _ (List.mem_cons_of_mem _ (List.mem_cons_self _ _))), hs0.symm⟩
          · rw [if_neg hs3, if_neg hs2, if_neg hs1, if_neg hs0] at hs
            exact absurd rfl hs

theorem diff_len (c : Color) (b : Board) (mv : Move) (u : RawUndo) :
    (do_diff_after_move c b mv u).length ≤ 4 ∧
    (mv.kind = MoveKind.enpassant → (do_diff_after_move c b mv u).length ≤ 3) ∧
    (mv.kind ≠ MoveKind.castling_kingside → mv.kind ≠ MoveKind.castling_queenside →
      mv.kind ≠ MoveKind.enpassant → (do_diff_after_move c b mv u).length ≤ 2) := by
  cases hk : mv.kind <;> simp [do_diff_after_move, hk]

/-- C6 (amended: the applied move must additionally be well-formed,
`Move::is_well_formed`; a validate-accepted non-well-formed move can be
reported as changing a square it does not change, see the counterexample):
after a well-formed validate-accepted move on a valid board, the diff
notification invokes the listener at most 4 times (at most 3 for an
en-passant capture, at most 2 for every kind other than castling and
en passant), every reported entry carries the true old and new cell of its
square and reports a real change, and every square whose mailbox content
changed is reported. -/
theorem c6_diff_notification (z : Zobrist) (raw : RawBoard) (b : Board) (mv : Move)
    (hb : Board.try_from z raw = Except.ok b)
    (hwf : mv.is_well_formed = true)
    (hv : mv.validate b = Except.ok ()) :
    (diff_after_move (make_move_unchecked z b mv).1 mv
        (make_move_unchecked z b mv).2).length ≤ 4 ∧
    (mv.kind = MoveKind.enpassant →
      (diff_after_move (make_move_unchecked z b mv).1 mv
        (make_move_unchecked z b mv).2).length ≤ 3) ∧
    (mv.kind ≠ MoveKind.castling_kingside → mv.kind ≠ MoveKind.castling_queenside →
      mv.kind ≠ MoveKind.enpassant →
      (diff_after_move (make_move_unchecked z b mv).1 mv
        (make_move_unchecked z b mv).2).length ≤ 2) ∧
    (∀ e ∈ diff_after_move (make_move_unchecked z b mv).1 mv
        (make_move_unchecked z b mv).2,
      e.old = b.get e.sq ∧ e.new = (make_move_unchecked z b mv).1.get e.sq ∧
        e.old ≠ e.new) ∧
    (∀ s : Sq, (make_move_unchecked z b mv).1.get s ≠ b.get s →
      ∃ e ∈ diff_after_move (make_move_unchecked z b mv).1 mv
          (make_move_unchecked z b mv).2,
        e.sq = s) := by
  obtain ⟨hc, hepo, hcast⟩ := try_from_inv z raw b hb
  have hsem : do_is_move_semilegal b.r.side b mv = true := by
    unfold Move.validate Move.semi_validate at hv
    by_cases h : Move.is_semilegal mv b
    · exact h
    · rw [if_neg h] at hv
      simp at hv
  have hmk : make_move_unchecked z b mv = do_make_move z b.r.side b mv := rfl
  cases hside : b.r.side with
  | white =>
    rw [hside] at hsem
    have hps : (do_make_move z Color.white b mv).1.r.side = Color.black :=
      make_side z Color.white b mv
    have hred : diff_after_move (make_move_unchecked z b mv).1 mv
        (make_move_unchecked z b mv).2 =
        do_diff_after_move Color.white (do_make_move z Color.white b mv).1 mv
          (do_make_move z Color.white b mv).2 := by
      rw [hmk, hside]
      unfold diff_after_move
      rw [hps]
    rw [hred, hmk, hside]
    have hDE :
        (∀ e ∈ do_diff_after_move Color.white (do_make_move z Color.white b mv).1 mv
            (do_make_move z Color.white b mv).2,
          e.old = b.get e.sq ∧ e.new = (do_make_move z Color.white b mv).1.get e.sq ∧
            e.old ≠ e.new) ∧
        (∀ s : Sq, (do_make_move z Color.white b mv).1.get s ≠ b.get s →
          ∃ e ∈ do_diff_after_move Color.white (do_make_move z Color.white b mv).1 mv
              (do_make_move z Color.white b mv).2,
            e.sq = s) := by
      cases hk : mv.kind with
      | simple => exact diff_ok_simple z Color.white b mv hc hside (Or.inl hk) hsem
      | pawn_simple => exact diff_ok_simple z Color.white b mv hc hside (Or.inr hk) hsem
      | pawn_double => exact diff_ok_double z Color.white b mv hc hside hk hwf hsem
      | promote_knight =>
        exact diff_ok_promote z Color.white b mv hc hside (Or.inl hk) hsem
      | promote_bishop =>
        exact diff_ok_promote z Color.white b mv hc hside (Or.inr (Or.inl hk)) hsem
      | promote_rook =>
        exact diff_ok_promote z Color.white b mv hc hside (Or.inr (Or.inr (Or.inl hk))) hsem
      | promote_queen =>
        exact diff_ok_promote z Color.white b mv hc hside (Or.inr (Or.inr (Or.inr hk))) hsem
      | enpassant => exact diff_ok_enpassant z Color.white b mv hc hside hepo hk hsem
      | castling_kingside => exact diff_ok_castle_k_white z b mv hc hside hcast hk hsem
      | castling_queenside => exact diff_ok_castle_q_white z b mv hc hside hcast hk hsem
      | null => simp [do_is_move_semilegal, hk] at hsem
    exact ⟨(diff_len _ _ _ _).1, (diff_len _ _ _ _).2.1, (diff_len _ _ _ _).2.2,
      hDE.1, hDE.2⟩
  | black =>
    rw [hside] at hsem
    have hps : (do_make_move z Color.black b mv).1.r.side = Color.white :=
      make_side z Color.black b mv
    have hred : diff_after_move (make_move_unchecked z b mv).1 mv
        (make_move_unchecked z b mv).2 =
        do_diff_after_move Color.black (do_make_move z Color.black b mv).1 mv
          (do_make_move z Color.black b mv).2 := by
      rw [hmk, hside]
      unfold diff_after_move
      rw [hps]
    rw [hred, hmk, hside]
    have hDE :
        (∀ e ∈ do_diff_after_move Color.black (do_make_move z Color.black b mv).1 mv
            (do_make_move z Color.black b mv).2,
          e.old = b.get e.sq ∧ e.new = (do_make_move z Color.black b mv).1.get e.sq ∧
            e.old ≠ e.new) ∧
        (∀ s : Sq, (do_make_move z Color.black b mv).1.get s ≠ b.get s →
          ∃ e ∈ do_diff_after_move Color.black (do_make_move z Color.black b mv).1 mv
              (do_make_move z Color.black b mv).2,
            e.sq = s) := by
      cases hk : mv.kind with
      | simple => exact diff_ok_simple z Color.black b mv hc hside (Or.inl hk) hsem
      | pawn_simple => exact diff_ok_simple z Color.black b mv hc hside (Or.inr hk) hsem
      | pawn_double => exact diff_ok_double z Color.black b mv hc hside hk hwf hsem
      | promote_knight =>
        exact diff_ok_promote z Color.black b mv hc hside (Or.inl hk) hsem
      | promote_bishop =>
        exact diff_ok_promote z Color.black b mv hc hside (Or.inr (Or.inl hk)) hsem
      | promote_rook =>
        exact diff_ok_promote z Color.black b mv hc hside (Or.inr (Or.inr (Or.inl hk))) hsem
      | promote_queen =>
        exact diff_ok_promote z Color.black b mv hc hside (Or.inr (Or.inr (Or.inr hk))) hsem
      | enpassant => exact diff_ok_enpassant z Color.black b mv hc hside hepo hk hsem
      | castling_kingside => exact diff_ok_castle_k_black z b mv hc hside hcast hk hsem
      | castling_queenside => exact diff_ok_castle_q_black z b mv hc hside hcast hk hsem
      | null => simp [do_is_move_semilegal, hk] at hsem
    exact ⟨(diff_len _ _ _ _).1, (diff_len _ _ _ _).2.1, (diff_len _ _ _ _).2.2,
      hDE.1, hDE.2⟩

theorem c6_diff_notification_witness :
    Board.try_from zW RawBoard.start = Except.ok (start_board zW) ∧
    (Move.mk MoveKind.simple ⟨62, by decide⟩ ⟨45, by decide⟩).is_well_formed = true ∧
    (Move.mk MoveKind.simple ⟨62, by decide⟩ ⟨45, by decide⟩).validate (start_board zW) =
      Except.ok () ∧
    ((diff_after_move
        (make_move_unchecked zW (start_board zW)
          (Move.mk MoveKind.simple ⟨62, by decide⟩ ⟨45, by decide⟩)).1
        (Move.mk MoveKind.simple ⟨62, by decide⟩ ⟨45, by decide⟩)
        (make_move_unchecked zW (start_board zW)
          (Move.mk MoveKind.simple ⟨62, by decide⟩ ⟨45, by decide⟩)).2).length ≤ 4 ∧
      ((Move.mk MoveKind.simple ⟨62, by decide⟩ ⟨45, by decide⟩).kind =
          MoveKind.enpassant →
        (diff_after_move
          (make_move_unchecked zW (start_board zW)
            (Move.mk MoveKind.simple ⟨62, by decide⟩ ⟨45, by decide⟩)).1
          (Move.mk MoveKind.simple ⟨62, by decide⟩ ⟨45, by decide⟩)
          (make_move_unchecked zW (start_board zW)
            (Move.mk MoveKind.simple ⟨62, by decide⟩ ⟨45, by decide⟩)).2).length ≤ 3) ∧
      ((Move.mk MoveKind.simple ⟨62, by decide⟩ ⟨45, by decide⟩).kind ≠
          MoveKind.castling_kingside →
        (Move.mk MoveKind.simple ⟨62, by decide⟩ ⟨45, by decide⟩).kind ≠
          MoveKind.castling_queenside →
        (Move.mk MoveKind.simple ⟨62, by decide⟩ ⟨45, by decide⟩).kind ≠
          MoveKind.enpassant →
        (diff_after_move
          (make_move_unchecked zW (start_board zW)
            (Move.mk MoveKind.simple ⟨62, by decide⟩ ⟨45, by decide⟩)).1
          (Move.mk MoveKind.simple ⟨62, by decide⟩ ⟨45, by decide⟩)
          (make_move_unchecked zW (start_board zW)
            (Move.mk MoveKind.simple ⟨62, by decide⟩ ⟨45, by decide⟩)).2).length ≤ 2) ∧
      (∀ e ∈ diff_after_move
          (make_move_unchecked zW (start_board zW)
            (Move.mk MoveKind.simple ⟨62, by decide⟩ ⟨45, by decide⟩)).1
          (Move.mk MoveKind.simple ⟨62, by decide⟩ ⟨45, by decide⟩)
          (make_move_unchecked zW (start_board zW)
            (Move.mk MoveKind.simple ⟨62, by decide⟩ ⟨45, by decide⟩)).2,
        e.old = (start_board zW).get e.sq ∧
          e.new = (make_move_unchecked zW (start_board zW)
            (Move.mk MoveKind.simple ⟨62, by decide⟩ ⟨45, by decide⟩)).1.get e.sq ∧
          e.old ≠ e.new) ∧
      (∀ s : Sq,
        (make_move_unchecked zW (start_board zW)
          (Move.mk MoveKind.simple ⟨62, by decide⟩ ⟨45, by decide⟩)).1.get s ≠
          (start_board zW).get s →
        ∃ e ∈ diff_after_move
            (make_move_unchecked zW (start_board zW)
              (Move.mk MoveKind.simple ⟨62, by decide⟩ ⟨45, by decide⟩)).1
            (Move.mk MoveKind.simple ⟨62, by decide⟩ ⟨45, by decide⟩)
            (make_move_unchecked zW (start_board zW)
              (Move.mk MoveKind.simple ⟨62, by decide⟩ ⟨45, by decide⟩)).2,
          e.sq = s)) :=
  ⟨by rfl, by decide, by decide,
    c6_diff_notification zW RawBoard.start (start_board zW)
      (Move.mk MoveKind.simple ⟨62, by decide⟩ ⟨45, by decide⟩)
      (by rfl) (by decide) (by decide)⟩

/-- C6 counterexample to the frozen claim: on a valid board with a White pawn
already standing on b5 (and the b1 knight removed to keep the piece count
legal), the non-well-formed `PawnDouble` b2–b5 is accepted by `Move::validate`,
yet the diff notification reports square b5 whose mailbox content does not
change. -/
theorem c6_counterexample :
    Board.try_from zW cex6_raw = Except.ok cex6_board ∧
    cex_pd_move.validate cex6_board = Except.ok () ∧
    (∃ e ∈ diff_after_move (make_move_unchecked zW cex6_board cex_pd_move).1 cex_pd_move
        (make_move_unchecked zW cex6_board cex_pd_move).2,
      e.sq = (⟨25, by decide⟩ : Sq)) ∧
    (make_move_unchecked zW cex6_board cex_pd_move).1.get ⟨25, by decide⟩ =
      cex6_board.get ⟨25, by decide⟩ :=
  ⟨by rfl, by decide, by decide, by decide⟩

theorem sqList_zero : Bitboard.sqList 0 = [] := by rfl

theorem mem_sqList (x : Bitboard) (s : Sq) :
    s ∈ Bitboard.sqList x ↔ x.testBit s.val = true := by
  unfold Bitboard.sqList
  simp [List.mem_filter, List.mem_finRange]

theorem nil_flatMap {α β : Type} (f : α → List β) : ([] : List α).flatMap f = [] := rfl

theorem flatMap_const_nil {α β : Type} (l : List α) :
    (l.flatMap fun _ => ([] : List β)) = [] := by
  induction l with
  | nil => rfl
  | cons a t ih =>
    rw [List.flatMap_cons, ih]
    rfl

theorem ctx_of_double (b : Board) (hdc : 2 ≤ Bitboard.len b.checkers) :
    MoveGenCtx.of_board b = ⟨0, CheckKind.double, b.hash⟩ := by
  obtain ⟨n, hn⟩ : ∃ n, Bitboard.len b.checkers = Nat.succ (Nat.succ n) :=
    ⟨Bitboard.len b.checkers - 2, by omega⟩
  unfold MoveGenCtx.of_board
  dsimp only
  rw [hn]
  rfl

/-- C3 (amended: the en-passant block of `do_gen2` is not masked by the check
mask, so a double check does not restrict en-passant generation; see the
counterexample): on a valid board whose side-to-move king is attacked by two
or more pieces, every generated move is either a king move (a `Simple` move
whose source square holds the side's king) or an en-passant capture. -/
theorem c3_double_check (z : Zobrist) (raw : RawBoard) (b : Board)
    (hb : Board.try_from z raw = Except.ok b)
    (hdc : 2 ≤ Bitboard.len b.checkers) :
    ∀ mv ∈ gen_all b,
      (mv.kind = MoveKind.simple ∧ b.get mv.src = Cell.make b.r.side Piece.king) ∨
      mv.kind = MoveKind.enpassant := by
  obtain ⟨hc, _, _⟩ := try_from_inv z raw b hb
  have hctx := ctx_of_double b hdc
  intro mv hmv
  unfold gen_all do_gen at hmv
  rw [hctx] at hmv
  have hm1 : gen_has_bit 15 1 = true := by decide
  have hm2 : gen_has_bit 15 2 = true := by decide
  have hm4 : gen_has_bit 15 4 = true := by decide
  have hm8 : gen_has_bit 15 8 = true := by decide
  simp only [do_gen2, hm1, hm2, hm4, hm8, Bool.or_self, Bool.true_or, Bool.or_true,
    if_true, ite_true, Nat.and_zero, sqList_zero, List.map_nil, flatMap_const_nil,
    nil_flatMap,
    List.append_nil, List.nil_append, Bool.true_and, Bool.and_true, ne_eq,
    reduceCtorEq, decide_False, decide_True, Bool.false_and, Bool.and_false,
    if_false, ite_false] at hmv
  rcases List.mem_append.mp hmv with hk | hep
  · left
    simp only [List.mem_flatMap, List.mem_map] at hk
    obtain ⟨s, hs, d, hd, hmvd⟩ := hk
    subst hmvd
    refine ⟨rfl, ?_⟩
    rw [mem_sqList] at hs
    have hbit := cons_cell_bit z b hc (Cell.make (Board.side b) Piece.king)
      (cell_make_ne_none _ _) s
    simp only [Board.piece, Board.cell] at hs
    rw [hs] at hbit
    have := of_decide_eq_true hbit.symm
    simpa [Board.get, RawBoard.get, Board.side] using this
  · right
    cases hepq : b.r.ep_src with
    | none =>
      rw [hepq] at hep
      simp at hep
    | some p =>
      rw [hepq] at hep
      dsimp only at hep
      rcases List.mem_append.mp hep with h1 | h1 <;>
        (split_ifs at h1 <;> simp only [List.mem_singleton, List.not_mem_nil] at h1 <;>
          first
          | exact absurd h1 (by simp)
          | (subst h1; rfl))

theorem c3_double_check_witness :
    Board.try_from zW cex3_raw = Except.ok cex3_board ∧
    2 ≤ Bitboard.len cex3_board.checkers ∧
    ∀ mv ∈ gen_all cex3_board,
      (mv.kind = MoveKind.simple ∧
        cex3_board.get mv.src = Cell.make cex3_board.r.side Piece.king) ∨
      mv.kind = MoveKind.enpassant :=
  ⟨by rfl, by decide,
    c3_double_check zW cex3_raw cex3_board (by rfl) (by decide)⟩

/-- C3 counterexample to the frozen claim: a valid double-check position
(White king h4 checked by the h8 rook and the g6 knight) where Black has just
played d7–d5: move generation with all categories still emits the en-passant
capture e5xd6, which is not a king move. -/
theorem c3_counterexample :
    Board.try_from zW cex3_raw = Except.ok cex3_board ∧
    Bitboard.len cex3_board.checkers = 2 ∧
    (⟨MoveKind.enpassant, ⟨28, by decide⟩, ⟨19, by decide⟩⟩ : Move) ∈
      gen_all cex3_board :=
  ⟨by rfl, by decide, by decide⟩

end Pawny
